import Mathlib

/-!
# baudfs: extent lists, inode and dentry codecs, partition status

A shallow embedding of parts of `proto/stream_key.go`, `metanode/kernel_inode.go`,
`metanode/kernel_dentry.go`, `metanode/manager.go`, `master/data_partition_check.go`,
`master/meta_partition.go` and `sdk/data/wrapper.go`, followed by theorems about them.

Conventions: Go unsigned integers are `Nat` (with explicit `% 2^w` where the
source can wrap), `int64` is `Int`, a byte is `Fin 256`, a Go `string` or
`[]byte` is `List Byte`, and `time.Now().Unix()` is a parameter `now`.
-/

set_option linter.dupNamespace false

namespace Baudfs

/-! ## proto: ExtentKey and StreamKey -/

/-- Modelled from the spec: the declaration of `proto.ExtentKey` is not among the
sources; the fields are those of the data-model table
`(partition_id: u32, extent_id: u64, offset: u64, size: u32, crc: u32)`. -/
structure ExtentKey where
  PartitionId : Nat
  ExtentId : Nat
  Offset : Nat
  Size : Nat
  Crc : Nat
deriving DecidableEq, Repr

/-- The test `a.PartitionId == k.PartitionId && a.ExtentId == k.ExtentId` of `Put`. -/
def ExtentKey.sameExtent (a k : ExtentKey) : Bool :=
  a.PartitionId == k.PartitionId && a.ExtentId == k.ExtentId

/-- `proto.StreamKey` (the mutex is not modelled). -/
structure StreamKey where
  Inode : Nat
  Extents : List ExtentKey
deriving DecidableEq, Repr

/-- `NewStreamKey(ino)`. -/
def NewStreamKey (ino : Nat) : StreamKey :=
  { Inode := ino, Extents := [] }

/-- The scan loop of `StreamKey.Put` (stream_key.go lines 61-70).  `some l` means
the loop returned at the first key sharing `(PartitionId, ExtentId)` with `k`,
leaving the extent list `l`; `none` means the loop ran to the end. -/
def StreamKey.putScan (k : ExtentKey) : List ExtentKey → Option (List ExtentKey)
  | [] => none
  | ek :: rest =>
    if ek.sameExtent k then
      if k.Size > ek.Size then some ({ ek with Size := k.Size } :: rest)
      else some (ek :: rest)
    else (StreamKey.putScan k rest).map (fun l => ek :: l)

/-- `StreamKey.Put(k)` (stream_key.go lines 44-74). -/
def StreamKey.Put (sk : StreamKey) (k : ExtentKey) : StreamKey :=
  match sk.Extents.getLast? with
  | none => { sk with Extents := sk.Extents ++ [k] }
  | some lastKey =>
    let lastIndex := sk.Extents.length - 1
    if lastKey.sameExtent k then
      if k.Size > lastKey.Size then
        { sk with Extents := sk.Extents.set lastIndex { lastKey with Size := k.Size } }
      else sk
    else
      match StreamKey.putScan k sk.Extents with
      | some l => { sk with Extents := l }
      | none => { sk with Extents := sk.Extents ++ [k] }

/-- `StreamKey.Size()`: the `uint64` accumulator loop over the extents. -/
def StreamKey.Size (sk : StreamKey) : Nat :=
  sk.Extents.foldl (fun bytes ok => (bytes + ok.Size) % 2 ^ 64) 0

/-- `StreamKey.GetExtentLen()`. -/
def StreamKey.GetExtentLen (sk : StreamKey) : Nat :=
  sk.Extents.length

/-- Errors and panics that the modelled functions can end in. -/
inductive Err where
  | EOF
  | UnexpectedEOF
  | Panic
  | Codec
deriving DecidableEq, Repr

deriving instance DecidableEq for Except

/-! ## encoding/binary and bytes.Buffer -/

/-- A byte. -/
abbrev Byte := Fin 256

/-- The Go conversion `byte(n)`. -/
def toByte (n : Nat) : Byte := ⟨n % 256, Nat.mod_lt n (by decide)⟩

/-- `binary.BigEndian.PutUint32`, also what `binary.Write` emits for a `uint32`. -/
def putUint32 (v : Nat) : List Byte :=
  [toByte (v / 2 ^ 24), toByte (v / 2 ^ 16), toByte (v / 2 ^ 8), toByte v]

/-- `binary.BigEndian.PutUint64`, also what `binary.Write` emits for a `uint64`. -/
def putUint64 (v : Nat) : List Byte :=
  [toByte (v / 2 ^ 56), toByte (v / 2 ^ 48), toByte (v / 2 ^ 40), toByte (v / 2 ^ 32),
   toByte (v / 2 ^ 24), toByte (v / 2 ^ 16), toByte (v / 2 ^ 8), toByte v]

/-- What `binary.Write` emits for an `int64`: the two's complement `uint64(v)`. -/
def putInt64 (v : Int) : List Byte :=
  putUint64 (v % 2 ^ 64).toNat

/-- The reinterpretation `int64(u)` of a `uint64`. -/
def int64OfUint64 (u : Nat) : Int :=
  if u < 2 ^ 63 then (u : Int) else (u : Int) - 2 ^ 64

/-- The value of an `int64` expression whose exact value is `v`: Go's `int64` arithmetic
wraps around in two's complement. -/
def wrapInt64 (v : Int) : Int :=
  (v + 2 ^ 63) % 2 ^ 64 - 2 ^ 63

/-- `binary.Read(buff, binary.BigEndian, &x)` for a `uint32`: the value and the rest of
the buffer, `io.EOF` on an empty buffer, `io.ErrUnexpectedEOF` on a short one. -/
def readUint32 (buf : List Byte) : Except Err (Nat × List Byte) :=
  match buf with
  | b0 :: b1 :: b2 :: b3 :: rest =>
    .ok (b0.val * 2 ^ 24 + b1.val * 2 ^ 16 + b2.val * 2 ^ 8 + b3.val, rest)
  | [] => .error .EOF
  | _ => .error .UnexpectedEOF

/-- `binary.Read(buff, binary.BigEndian, &x)` for a `uint64`. -/
def readUint64 (buf : List Byte) : Except Err (Nat × List Byte) :=
  match buf with
  | b0 :: b1 :: b2 :: b3 :: b4 :: b5 :: b6 :: b7 :: rest =>
    .ok (b0.val * 2 ^ 56 + b1.val * 2 ^ 48 + b2.val * 2 ^ 40 + b3.val * 2 ^ 32
          + b4.val * 2 ^ 24 + b5.val * 2 ^ 16 + b6.val * 2 ^ 8 + b7.val, rest)
  | [] => .error .EOF
  | _ => .error .UnexpectedEOF

/-- `binary.Read(buff, binary.BigEndian, &x)` for an `int64`. -/
def readInt64 (buf : List Byte) : Except Err (Int × List Byte) :=
  match readUint64 buf with
  | .ok (u, rest) => .ok (int64OfUint64 u, rest)
  | .error e => .error e

/-- `p := make([]byte, n); buff.Read(p)`: the slice `p` afterwards and the rest of the
buffer.  An empty buffer gives `io.EOF` unless `n = 0`; a short buffer fills only a
prefix of `p` and leaves the remaining bytes zero, without an error. -/
def bufRead (n : Nat) (buf : List Byte) : Except Err (List Byte × List Byte) :=
  if buf.length = 0 then
    if n = 0 then .ok ([], buf) else .error .EOF
  else .ok (buf.take n ++ List.replicate (n - buf.length) 0, buf.drop n)

/-! ## proto: the binary form of a StreamKey

`ExtentKey.MarshalBinary` and `ExtentKey.UnmarshalBinary` are not among the sources; the
functions below take them as the parameters `enc` and `dec`. -/

/-- `StreamKey.MarshalBinary()` (stream_key.go lines 103-117): the loop appending each
record to the buffer `buf`, returning at the first error. -/
def StreamKey.marshalLoop (enc : ExtentKey → Except Err (List Byte)) :
    List ExtentKey → List Byte → Except Err (List Byte)
  | [], buf => .ok buf
  | extent :: rest, buf =>
    match enc extent with
    | .error e => .error e
    | .ok binData => StreamKey.marshalLoop enc rest (buf ++ binData)

/-- `StreamKey.MarshalBinary()`. -/
def StreamKey.MarshalBinary (enc : ExtentKey → Except Err (List Byte)) (sk : StreamKey) :
    Except Err (List Byte) :=
  StreamKey.marshalLoop enc sk.Extents []

/-- `StreamKey.UnmarshalBinary(data)` (stream_key.go lines 119-134).  The `for` loop has no
bound of its own, so it runs on `fuel`; `none` is fuel exhaustion, otherwise the
receiver afterwards and the returned error. -/
def StreamKey.UnmarshalBinary (dec : List Byte → Except Err (ExtentKey × List Byte)) :
    Nat → StreamKey → List Byte → Option (StreamKey × Option Err)
  | 0, _, _ => none
  | fuel + 1, sk, buf =>
    if buf.length = 0 then some (sk, none)
    else
      match dec buf with
      | .error e => some (sk, some e)
      | .ok (ext, rest) =>
        StreamKey.UnmarshalBinary dec fuel { sk with Extents := sk.Extents ++ [ext] } rest

/-- Modelled from the spec: `ExtentKey.MarshalBinary` is not among the sources and the
spec only says the record has a fixed layout; this instance writes the fields of the
data-model table in order, big-endian (28 bytes).  It is used to instantiate `enc`. -/
def ExtentKey.MarshalBinary (k : ExtentKey) : Except Err (List Byte) :=
  .ok (putUint32 k.PartitionId ++ putUint64 k.ExtentId ++ putUint64 k.Offset
        ++ putUint32 k.Size ++ putUint32 k.Crc)

/-- Modelled from the spec: `ExtentKey.UnmarshalBinary` is not among the sources; this
instance reads back the 28-byte record of `ExtentKey.MarshalBinary`.  It is used to
instantiate `dec`. -/
def ExtentKey.UnmarshalBinary (buf : List Byte) : Except Err (ExtentKey × List Byte) :=
  match readUint32 buf with
  | .error e => .error e
  | .ok (pid, b1) =>
    match readUint64 b1 with
    | .error e => .error e
    | .ok (eid, b2) =>
      match readUint64 b2 with
      | .error e => .error e
      | .ok (off, b3) =>
        match readUint32 b3 with
        | .error e => .error e
        | .ok (size, b4) =>
          match readUint32 b4 with
          | .error e => .error e
          | .ok (crc, b5) =>
            .ok ({ PartitionId := pid, ExtentId := eid, Offset := off, Size := size,
                   Crc := crc }, b5)

/-! ## metanode: Inode -/

/-- `metanode.Inode`; `Extents` is a pointer in the source, `none` is `nil`.
The field `Type` is spelled `Typ`. -/
structure Inode where
  Inode : Nat
  Typ : Nat
  Size : Nat
  Generation : Nat
  CreateTime : Int
  AccessTime : Int
  ModifyTime : Int
  Extents : Option StreamKey
deriving DecidableEq, Repr

/-- `NewInode(ino, t)`, with `ts = time.Now().Unix()` passed as `now`. -/
def NewInode (now : Int) (ino t : Nat) : Inode :=
  { Inode := ino, Typ := t, Size := 0, Generation := 1,
    CreateTime := now, AccessTime := now, ModifyTime := now,
    Extents := some (NewStreamKey ino) }

/-- `Inode.AppendExtents(ext)`; a nil `Extents` pointer panics in `Put`. -/
def Inode.AppendExtents (now : Int) (i : Baudfs.Inode) (ext : ExtentKey) :
    Except Err Baudfs.Inode :=
  match i.Extents with
  | none => .error .Panic
  | some sk =>
    let sk1 := sk.Put ext
    .ok { i with Extents := some sk1, Size := sk1.Size, ModifyTime := now }

/-- `Inode.MarshalKey()`. -/
def Inode.MarshalKey (i : Baudfs.Inode) : List Byte :=
  putUint64 i.Inode

/-- `Inode.UnmarshalKey(k)`: `binary.BigEndian.Uint64` panics on fewer than 8 bytes. -/
def Inode.UnmarshalKey (i : Baudfs.Inode) (k : List Byte) : Baudfs.Inode × Option Err :=
  match readUint64 k with
  | .ok (ino, _) => ({ i with Inode := ino }, none)
  | .error _ => (i, some .Panic)

/-- `Inode.MarshalValue()` (kernel_inode.go lines 144-179).  A nil `Extents` pointer and
an error of the extent encoder both end in a panic. -/
def Inode.MarshalValue (enc : ExtentKey → Except Err (List Byte)) (i : Baudfs.Inode) :
    Except Err (List Byte) :=
  let buff := putUint32 i.Typ ++ putUint64 i.Size ++ putUint64 i.Generation
    ++ putInt64 i.CreateTime ++ putInt64 i.AccessTime ++ putInt64 i.ModifyTime
  match i.Extents with
  | none => .error .Panic
  | some sk =>
    if sk.Size != 0 then
      match sk.MarshalBinary enc with
      | .error _ => .error .Panic
      | .ok extData => .ok (buff ++ extData)
    else .ok buff

/-- `Inode.Marshal()` (kernel_inode.go lines 80-101); writes to a `bytes.Buffer` do not
fail, so the only way out other than the result is a panic of `MarshalValue`. -/
def Inode.Marshal (enc : ExtentKey → Except Err (List Byte)) (i : Baudfs.Inode) :
    Except Err (List Byte) :=
  let keyBytes := i.MarshalKey
  match i.MarshalValue enc with
  | .error e => .error e
  | .ok valBytes =>
    let keyLen := keyBytes.length % 2 ^ 32
    let valLen := valBytes.length % 2 ^ 32
    .ok (putUint32 keyLen ++ keyBytes ++ putUint32 valLen ++ valBytes)

/-- `Inode.UnmarshalValue(val)` (kernel_inode.go lines 182-215): the receiver afterwards
and the returned error; `none` is fuel exhaustion in `StreamKey.UnmarshalBinary`. -/
def Inode.UnmarshalValue (dec : List Byte → Except Err (ExtentKey × List Byte)) (fuel : Nat)
    (i : Baudfs.Inode) (val : List Byte) : Option (Baudfs.Inode × Option Err) :=
  match readUint32 val with
  | .error e => some (i, some e)
  | .ok (t, b1) =>
    let i := { i with Typ := t }
    match readUint64 b1 with
    | .error e => some (i, some e)
    | .ok (size, b2) =>
      let i := { i with Size := size }
      match readUint64 b2 with
      | .error e => some (i, some e)
      | .ok (gen, b3) =>
        let i := { i with Generation := gen }
        match readInt64 b3 with
        | .error e => some (i, some e)
        | .ok (ct, b4) =>
          let i := { i with CreateTime := ct }
          match readInt64 b4 with
          | .error e => some (i, some e)
          | .ok (at_, b5) =>
            let i := { i with AccessTime := at_ }
            match readInt64 b5 with
            | .error e => some (i, some e)
            | .ok (mt, b6) =>
              let i := { i with ModifyTime := mt }
              let sk : StreamKey :=
                match i.Extents with
                | none => NewStreamKey i.Inode
                | some sk => { sk with Inode := i.Inode }
              let i := { i with Extents := some sk }
              if b6.length = 0 then some (i, none)
              else
                match StreamKey.UnmarshalBinary dec fuel sk b6 with
                | none => none
                | some (sk1, err) => some ({ i with Extents := some sk1 }, err)

/-- `Inode.Unmarshal(raw)` (kernel_inode.go lines 103-128). -/
def Inode.Unmarshal (dec : List Byte → Except Err (ExtentKey × List Byte)) (fuel : Nat)
    (i : Baudfs.Inode) (raw : List Byte) : Option (Baudfs.Inode × Option Err) :=
  match readUint32 raw with
  | .error e => some (i, some e)
  | .ok (keyLen, b1) =>
    match bufRead keyLen b1 with
    | .error e => some (i, some e)
    | .ok (keyBytes, b2) =>
      match i.UnmarshalKey keyBytes with
      | (i, some e) => some (i, some e)
      | (i, none) =>
        match readUint32 b2 with
        | .error e => some (i, some e)
        | .ok (valLen, b3) =>
          match bufRead valLen b3 with
          | .error e => some (i, some e)
          | .ok (valBytes, _) => Inode.UnmarshalValue dec fuel i valBytes

/-! ## metanode: Dentry -/

/-- `metanode.Dentry`; `Name` is the byte sequence of the Go string.
The field `Type` is spelled `Typ`. -/
structure Dentry where
  ParentId : Nat
  Name : List Byte
  Inode : Nat
  Typ : Nat
deriving DecidableEq, Repr

/-- The Go comparison `s < t` of two strings: bytewise lexicographic, a proper prefix
being smaller. -/
def bytesLess : List Byte → List Byte → Bool
  | [], [] => false
  | [], _ :: _ => true
  | _ :: _, [] => false
  | a :: as, b :: bs => decide (a < b) || (a == b && bytesLess as bs)

/-- `Dentry.MarshalKey()`. -/
def Dentry.MarshalKey (d : Dentry) : List Byte :=
  putUint64 d.ParentId ++ d.Name

/-- `Dentry.UnmarshalKey(k)`. -/
def Dentry.UnmarshalKey (d : Dentry) (k : List Byte) : Dentry × Option Err :=
  match readUint64 k with
  | .error e => (d, some e)
  | .ok (parentId, rest) => ({ d with ParentId := parentId, Name := rest }, none)

/-- `Dentry.MarshalValue()`. -/
def Dentry.MarshalValue (d : Dentry) : List Byte :=
  putUint64 d.Inode ++ putUint32 d.Typ

/-- `Dentry.UnmarshalValue(val)`. -/
def Dentry.UnmarshalValue (d : Dentry) (val : List Byte) : Dentry × Option Err :=
  match readUint64 val with
  | .error e => (d, some e)
  | .ok (ino, rest) =>
    let d := { d with Inode := ino }
    match readUint32 rest with
    | .error e => (d, some e)
    | .ok (t, _) => ({ d with Typ := t }, none)

/-- `Dentry.Marshal()` (kernel_dentry.go lines 37-58); writes to a `bytes.Buffer` do not
fail, so the returned error is always nil. -/
def Dentry.Marshal (d : Dentry) : Except Err (List Byte) :=
  let keyBytes := d.MarshalKey
  let valBytes := d.MarshalValue
  let keyLen := keyBytes.length % 2 ^ 32
  let valLen := valBytes.length % 2 ^ 32
  .ok (putUint32 keyLen ++ keyBytes ++ putUint32 valLen ++ valBytes)

/-- `Dentry.Unmarshal(raw)` (kernel_dentry.go lines 61-86): the receiver afterwards and
the returned error. -/
def Dentry.Unmarshal (d : Dentry) (raw : List Byte) : Dentry × Option Err :=
  match readUint32 raw with
  | .error e => (d, some e)
  | .ok (keyLen, b1) =>
    match bufRead keyLen b1 with
    | .error e => (d, some e)
    | .ok (keyBytes, b2) =>
      match d.UnmarshalKey keyBytes with
      | (d, some e) => (d, some e)
      | (d, none) =>
        match readUint32 b2 with
        | .error e => (d, some e)
        | .ok (valLen, b3) =>
          match bufRead valLen b3 with
          | .error e => (d, some e)
          | .ok (valBytes, _) => d.UnmarshalValue valBytes

/-- `Dentry.Less(than)` for a `than` that is a `*Dentry` (the type assertion succeeds). -/
def Dentry.Less (d than : Dentry) : Bool :=
  decide (d.ParentId < than.ParentId)
    || (d.ParentId == than.ParentId && bytesLess d.Name than.Name)

/-! ## master: DataPartition status -/

/-- The partition and replica status constants `proto.ReadOnly`, `proto.ReadWrite` and
`proto.Unavaliable`. -/
inductive PartitionStatus where
  | ReadOnly
  | ReadWrite
  | Unavaliable
deriving DecidableEq, Repr

/-- Modelled from the spec: the declaration of `DataNode` is not among the sources; the
fields are those read by `checkMiss`. -/
structure DataNode where
  isActive : Bool
  ReportTime : Int
deriving DecidableEq, Repr

/-- Modelled from the spec: the declaration of `DataReplica` is not among the sources;
the fields are those of the data-model table (`status`, `report_time`, a reference to
its `DataNode`) and the `Addr` the checks read. -/
structure DataReplica where
  Addr : String
  Status : PartitionStatus
  ReportTime : Int
  dataNode : Option DataNode
deriving DecidableEq, Repr

/-- Modelled from the spec: the declaration of `DataPartition` is not among the sources;
the fields are those of the data-model table, `Replicas` being the slice the checks index
and `MissNodes` an association list. -/
structure DataPartition where
  PartitionID : Nat
  ReplicaNum : Nat
  Status : PartitionStatus
  PersistenceHosts : List String
  Replicas : List DataReplica
  MissNodes : List (String × Int)
  isRecover : Bool
deriving DecidableEq, Repr

/-- Modelled from the spec: `DataReplica.IsLive` is not among the sources; per the spec a
replica is live iff `now − report_time < timeout` and its node is active (a replica with
no node counts as not live). -/
def DataReplica.IsLive (now : Int) (replica : DataReplica) (timeOutSec : Int) : Bool :=
  match replica.dataNode with
  | none => false
  | some node => node.isActive && decide (now - replica.ReportTime < timeOutSec)

/-- Modelled from the spec: `DataPartition.IsInReplicas` is not among the sources; it
returns the first replica record with the given address, if any. -/
def DataPartition.IsInReplicas (partition : DataPartition) (host : String) :
    Option DataReplica :=
  partition.Replicas.find? (fun replica => replica.Addr == host)

/-- Modelled from the spec: `DataPartition.getLiveReplicasByPersistenceHosts` is not among
the sources; it collects, in `PersistenceHosts` order, the replica record of each
persistence host that has one and is live (the loop shape of `checkDiskError`). -/
def DataPartition.getLiveReplicasByPersistenceHosts (now : Int) (partition : DataPartition)
    (timeOutSec : Int) : List DataReplica :=
  partition.PersistenceHosts.filterMap (fun host =>
    match partition.IsInReplicas host with
    | none => none
    | some replica => if replica.IsLive now timeOutSec then some replica else none)

/-- `DataPartition.checkReplicaStatusOnLiveNode(liveReplicas)`
(data_partition_check.go lines 30-38). -/
def DataPartition.checkReplicaStatusOnLiveNode : List DataReplica → Bool
  | [] => true
  | replica :: rest =>
    if replica.Status != PartitionStatus.ReadWrite then false
    else DataPartition.checkReplicaStatusOnLiveNode rest

/-- `DataPartition.checkStatus(needLog, dpTimeOutSec)` (data_partition_check.go lines
10-28); the log line is not modelled. -/
def DataPartition.checkStatus (now : Int) (partition : DataPartition) (_needLog : Bool)
    (dpTimeOutSec : Int) : DataPartition :=
  let liveReplicas := partition.getLiveReplicasByPersistenceHosts now dpTimeOutSec
  let partition :=
    if liveReplicas.length = partition.ReplicaNum then
      let partition := { partition with Status := PartitionStatus.ReadOnly }
      if DataPartition.checkReplicaStatusOnLiveNode liveReplicas = true then
        { partition with Status := PartitionStatus.ReadWrite }
      else partition
    else { partition with Status := PartitionStatus.ReadOnly }
  partition

/-- The number a byte sequence denotes when read big-endian (used to state how the
bytewise order of encodings relates to the order of the encoded numbers). -/
def beVal : List Byte → Nat
  | [] => 0
  | b :: bs => b.val * 256 ^ bs.length + beVal bs

/-! ## master: DataPartition reconciliation -/

/-- Modelled from the spec: the admin-task opcodes `proto.Op...` are not among the
sources; these are the ones the master emits in the modelled functions. -/
inductive OpCode where
  | OpCreateDataPartition
  | OpDeleteDataPartition
  | OpCreateMetaPartition
  | OpDeleteMetaPartition
  | OpUpdateMetaPartition
  | OpOfflineMetaPartition
deriving DecidableEq, Repr

/-- Modelled from the spec: `proto.AdminTask` and `proto.NewAdminTask` are not among the
sources; a task carries its opcode, the address of the node it is sent to, the partition
it names and, for `OpUpdateMetaPartition`, the requested `End`. -/
structure AdminTask where
  OpCode : OpCode
  OperatorAddr : String
  PartitionID : Nat
  End : Option Nat
deriving DecidableEq, Repr

/-- The error values of `master/errors.go` that the modelled functions return;
`Errorf` stands for an error built by `fmt.Errorf` around an address. -/
inductive MasterError where
  | DataReplicaExcessError
  | DataReplicaLackError
  | MetaReplicaExcessError
  | NoHaveMajorityReplica
  | NoLeader
  | metaReplicaNotFound (addr : String)
  | Errorf (addr : String)
deriving DecidableEq, Repr

/-- Modelled from the spec: `DataPartition.isInPersistenceHosts` is not among the sources;
it tells whether the address is one of `PersistenceHosts`. -/
def DataPartition.isInPersistenceHosts (partition : DataPartition) (addr : String) : Bool :=
  partition.PersistenceHosts.contains addr

/-- Modelled from the spec: `DataPartition.GenerateDeleteTask` is not among the sources;
it builds the `DeleteDataPartition` task addressed to `addr`. -/
def DataPartition.GenerateDeleteTask (partition : DataPartition) (addr : String) : AdminTask :=
  { OpCode := OpCode.OpDeleteDataPartition, OperatorAddr := addr,
    PartitionID := partition.PartitionID, End := none }

/-- Modelled from the spec: `DataPartition.generateCreateTask` is not among the sources;
it builds the `CreateDataPartition` task addressed to `addr`. -/
def DataPartition.generateCreateTask (partition : DataPartition) (addr : String) : AdminTask :=
  { OpCode := OpCode.OpCreateDataPartition, OperatorAddr := addr,
    PartitionID := partition.PartitionID, End := none }

/-- Modelled from the spec: `DataPartition.setToNormal` is not among the sources; it
clears `is_recovering`. -/
def DataPartition.setToNormal (partition : DataPartition) : DataPartition :=
  { partition with isRecover := false }

/-- The three results `(excessAddr, task, err)` of `deleteExcessReplication`; a nil task
pointer and a nil error are `none`. -/
structure ExcessResult where
  excessAddr : String
  task : Option AdminTask
  err : Option MasterError
deriving DecidableEq, Repr

/-- The loop of `deleteExcessReplication` (data_partition_check.go lines 163-173) over the
replicas still to visit. -/
def DataPartition.deleteExcessLoop (partition : DataPartition) :
    List DataReplica → ExcessResult
  | [] => { excessAddr := "", task := none, err := none }
  | replica :: rest =>
    if !partition.isInPersistenceHosts replica.Addr then
      { excessAddr := replica.Addr,
        task := some (partition.GenerateDeleteTask replica.Addr),
        err := some MasterError.DataReplicaExcessError }
    else DataPartition.deleteExcessLoop partition rest

/-- `DataPartition.deleteExcessReplication()` (data_partition_check.go lines 160-176); it
only reads the partition. -/
def DataPartition.deleteExcessReplication (partition : DataPartition) : ExcessResult :=
  DataPartition.deleteExcessLoop partition partition.Replicas

/-- The three results `(t, lackAddr, err)` of `addLackReplication` and the partition
afterwards. -/
structure LackResult where
  partition : DataPartition
  t : Option AdminTask
  lackAddr : String
  err : Option MasterError
deriving DecidableEq, Repr

/-- The loop of `addLackReplication` (data_partition_check.go lines 183-193) over the
persistence hosts still to visit. -/
def DataPartition.addLackLoop (partition : DataPartition) : List String → LackResult
  | [] => { partition := partition, t := none, lackAddr := "", err := none }
  | addr :: rest =>
    match partition.IsInReplicas addr with
    | none =>
      { partition := { partition with isRecover := true },
        t := some (partition.generateCreateTask addr),
        lackAddr := addr,
        err := some MasterError.DataReplicaLackError }
    | some _ => DataPartition.addLackLoop partition rest

/-- `DataPartition.addLackReplication()` (data_partition_check.go lines 180-196). -/
def DataPartition.addLackReplication (partition : DataPartition) : LackResult :=
  DataPartition.addLackLoop partition partition.PersistenceHosts

/-- `DataPartition.checkReplicationTask()` (data_partition_check.go lines 131-156): the
partition afterwards and the returned tasks (an entry `none` would be a nil task pointer);
the log lines are not modelled. -/
def DataPartition.checkReplicationTask (partition : DataPartition) :
    DataPartition × List (Option AdminTask) :=
  let tasks : List (Option AdminTask) := []
  let excess := partition.deleteExcessReplication
  let tasks := if excess.err != none then tasks ++ [excess.task] else tasks
  if partition.Status == PartitionStatus.ReadWrite then (partition, tasks)
  else
    let lack := partition.addLackReplication
    if lack.err != none then (lack.partition, tasks ++ [lack.t])
    else (lack.partition.setToNormal, tasks)

/-- The collecting loop of `checkDiskError` (data_partition_check.go lines 108-116). -/
def DataPartition.diskErrorLoop (partition : DataPartition) : List String → List String
  | [] => []
  | addr :: rest =>
    match partition.IsInReplicas addr with
    | none => DataPartition.diskErrorLoop partition rest
    | some replica =>
      if replica.Status == PartitionStatus.Unavaliable then
        addr :: DataPartition.diskErrorLoop partition rest
      else DataPartition.diskErrorLoop partition rest

/-- `DataPartition.checkDiskError(clusterID)` (data_partition_check.go lines 104-129): the
partition afterwards and `diskErrorAddrs`; the warnings are not modelled. -/
def DataPartition.checkDiskError (partition : DataPartition) :
    DataPartition × List String :=
  let diskErrorAddrs := DataPartition.diskErrorLoop partition partition.PersistenceHosts
  let partition :=
    if diskErrorAddrs.length != partition.ReplicaNum && diskErrorAddrs.length > 0 then
      { partition with Status := PartitionStatus.ReadOnly }
    else partition
  (partition, diskErrorAddrs)

/-- Whether a returned task entry is a `DeleteDataPartition` task. -/
def AdminTask.isDeleteDataPartition : Option AdminTask → Bool
  | some t => t.OpCode == OpCode.OpDeleteDataPartition
  | none => false

/-- Whether a returned task entry is a `CreateDataPartition` task. -/
def AdminTask.isCreateDataPartition : Option AdminTask → Bool
  | some t => t.OpCode == OpCode.OpCreateDataPartition
  | none => false

/-! ## master: MetaPartition -/

/-- Modelled from the spec: the constant `proto.Unavaliable` is not among the sources;
it is an `int8` status value, here `-1`. -/
def Unavaliable : Int := -1

/-- Modelled from the spec: the constant `proto.ReadOnly` is not among the sources; it is
an `int8` status value, here `1`. -/
def ReadOnly : Int := 1

/-- Modelled from the spec: the constant `proto.ReadWrite` is not among the sources; it is
an `int8` status value, here `2`. -/
def ReadWrite : Int := 2

/-- The Go conversion `int8(x)`. -/
def toInt8 (x : Int) : Int := (x + 128) % 256 - 128

/-- Modelled from the spec: the declaration of `MetaNode` is not among the sources; the
fields are those the modelled functions read. -/
structure MetaNode where
  ID : Nat
  Addr : String
  IsActive : Bool
  ReportTime : Int
deriving DecidableEq, Repr

/-- Modelled from the spec: the declaration of `proto.MetaPartitionReport` is not among
the sources; the fields are those `UpdateMetaPartition` and `updateMetric` read. -/
structure MetaPartitionReport where
  MaxInodeID : Nat
  Status : Int
  IsLeader : Bool
deriving DecidableEq, Repr

/-- `master.MetaReplica` (meta_partition.go lines 15-24); the field `end` is spelled
`end_`, and a nil `metaNode` pointer is `none`. -/
structure MetaReplica where
  Addr : String
  start : Nat
  end_ : Nat
  nodeId : Nat
  ReportTime : Int
  Status : Int
  IsLeader : Bool
  metaNode : Option MetaNode
deriving DecidableEq, Repr

/-- `master.MetaPartition` (meta_partition.go lines 26-39); the lock is not modelled,
`Peers` are `(id, addr)` pairs and `MissNodes` is an association list. -/
structure MetaPartition where
  PartitionID : Nat
  Start : Nat
  End : Nat
  MaxNodeID : Nat
  Replicas : List MetaReplica
  ReplicaNum : Nat
  Status : Int
  volName : String
  PersistenceHosts : List String
  Peers : List (Nat × String)
  MissNodes : List (String × Int)
deriving DecidableEq, Repr

/-- Modelled from the spec: the helper `contains(arr, element)` is not among the sources;
it tells whether the string is an element of the slice. -/
def contains (arr : List String) (element : String) : Bool :=
  arr.contains element

/-- `NewMetaReplica(start, end, metaNode)`. -/
def NewMetaReplica (now : Int) (start end_ : Nat) (metaNode : MetaNode) : MetaReplica :=
  { Addr := metaNode.Addr, start := start, end_ := end_, nodeId := metaNode.ID,
    ReportTime := now, Status := 0, IsLeader := false, metaNode := some metaNode }

/-- `NewMetaPartition(partitionID, start, end, replicaNum, volName)`. -/
def NewMetaPartition (partitionID start end_ replicaNum : Nat) (volName : String) :
    MetaPartition :=
  { PartitionID := partitionID, Start := start, End := end_, MaxNodeID := 0, Replicas := [],
    ReplicaNum := replicaNum, Status := Unavaliable, volName := volName,
    PersistenceHosts := [], Peers := [], MissNodes := [] }

/-- `MetaPartition.addReplica(mr)`. -/
def MetaPartition.addReplica (mp : MetaPartition) (mr : MetaReplica) : MetaPartition :=
  if mp.Replicas.any (fun m => m.Addr == mr.Addr) then mp
  else { mp with Replicas := mp.Replicas ++ [mr] }

/-- `MetaPartition.updateAllReplicasEnd()`. -/
def MetaPartition.updateAllReplicasEnd (mp : MetaPartition) : MetaPartition :=
  { mp with Replicas := mp.Replicas.map (fun mr => { mr with end_ := mp.End }) }

/-- `MetaPartition.getMetaReplica(addr)`: the first replica with that address. -/
def MetaPartition.getMetaReplica (mp : MetaPartition) (addr : String) :
    Except MasterError MetaReplica :=
  match mp.Replicas.find? (fun mr => mr.Addr == addr) with
  | some mr => .ok mr
  | none => .error (MasterError.metaReplicaNotFound addr)

/-- `MetaPartition.checkAndRemoveMissMetaReplica(addr)`. -/
def MetaPartition.checkAndRemoveMissMetaReplica (mp : MetaPartition) (addr : String) :
    MetaPartition :=
  { mp with MissNodes := mp.MissNodes.filter (fun e => e.1 != addr) }

/-- `MetaReplica.isActive()` (meta_partition.go lines 483-486), with the absent constant
`DefaultMetaPartitionTimeOutSec` as the parameter `timeOutSec`; a nil `metaNode` pointer
panics. -/
def MetaReplica.isActive (now timeOutSec : Int) (mr : MetaReplica) : Except Err Bool :=
  match mr.metaNode with
  | none => .error .Panic
  | some metaNode =>
    .ok (metaNode.IsActive && mr.Status != Unavaliable
          && decide (wrapInt64 (now - mr.ReportTime) < timeOutSec))

/-- `MetaReplica.updateMetric(mgr)` (meta_partition.go lines 492-496). -/
def MetaReplica.updateMetric (now : Int) (mr : MetaReplica) (mgr : MetaPartitionReport) :
    MetaReplica :=
  { mr with Status := toInt8 mgr.Status, IsLeader := mgr.IsLeader, ReportTime := now }

/-- `MetaPartition.getLiveReplica()` (meta_partition.go lines 307-315), over the replicas
still to visit. -/
def MetaPartition.getLiveReplicaLoop (now timeOutSec : Int) :
    List MetaReplica → Except Err (List MetaReplica)
  | [] => .ok []
  | mr :: rest =>
    match mr.isActive now timeOutSec with
    | .error e => .error e
    | .ok active =>
      match MetaPartition.getLiveReplicaLoop now timeOutSec rest with
      | .error e => .error e
      | .ok liveReplicas => .ok (if active then mr :: liveReplicas else liveReplicas)

/-- `MetaPartition.getLiveReplica()`. -/
def MetaPartition.getLiveReplica (now timeOutSec : Int) (mp : MetaPartition) :
    Except Err (List MetaReplica) :=
  MetaPartition.getLiveReplicaLoop now timeOutSec mp.Replicas

/-- `MetaPartition.getLiveReplicasAddr(liveReplicas)`. -/
def MetaPartition.getLiveReplicasAddr (liveReplicas : List MetaReplica) : List String :=
  liveReplicas.map (fun mr => mr.Addr)

/-- The loop of `getLeaderMetaReplica` (meta_partition.go lines 216-224): `mr` is the
range variable, which keeps the last replica visited when no replica is leader. -/
def MetaPartition.getLeaderLoop :
    List MetaReplica → Option MetaReplica → Option MetaReplica × Option MasterError
  | [], mr => (mr, some MasterError.NoLeader)
  | m :: rest, _ =>
    if m.IsLeader then (some m, none)
    else MetaPartition.getLeaderLoop rest (some m)

/-- `MetaPartition.getLeaderMetaReplica()`: the pair `(mr, err)`. -/
def MetaPartition.getLeaderMetaReplica (mp : MetaPartition) :
    Option MetaReplica × Option MasterError :=
  MetaPartition.getLeaderLoop mp.Replicas none

/-- `MetaPartition.checkStatus(writeLog, replicaNum)` (meta_partition.go lines 196-214);
`replicaNum/2` is Go's truncating division, reading `mr.Status` through a nil `mr`
panics, and the log line is not modelled. -/
def MetaPartition.checkStatus (now timeOutSec : Int) (mp : MetaPartition) (_writeLog : Bool)
    (replicaNum : Int) : Except Err MetaPartition :=
  match mp.getLiveReplica now timeOutSec with
  | .error e => .error e
  | .ok liveReplicas =>
    if (liveReplicas.length : Int) ≤ replicaNum.tdiv 2 then
      .ok { mp with Status := Unavaliable }
    else
      let (mr, err) := mp.getLeaderMetaReplica
      let mp := if err != none then { mp with Status := Unavaliable } else mp
      match mr with
      | none => .error .Panic
      | some mr => .ok { mp with Status := mr.Status }

/-- `MetaPartition.hasMajorityReplicas(liveReplicas, replicaNum)` (meta_partition.go lines
296-298): the `uint8` expression `mp.ReplicaNum/2+1`; the argument `replicaNum` is not
read. -/
def MetaPartition.hasMajorityReplicas (mp : MetaPartition) (liveReplicas : Int)
    (_replicaNum : Int) : Bool :=
  decide (liveReplicas ≥ (((mp.ReplicaNum / 2 + 1) % 2 ^ 8 : Nat) : Int))

/-- `MetaPartition.canOffline(nodeAddr, replicaNum)` (meta_partition.go lines 282-294):
the returned error, `none` being nil. -/
def MetaPartition.canOffline (now timeOutSec : Int) (mp : MetaPartition) (nodeAddr : String)
    (replicaNum : Int) : Except Err (Option MasterError) :=
  match mp.getLiveReplica now timeOutSec with
  | .error e => .error e
  | .ok liveReplicas =>
    if !mp.hasMajorityReplicas liveReplicas.length replicaNum then
      .ok (some MasterError.NoHaveMajorityReplica)
    else
      let liveAddrs := MetaPartition.getLiveReplicasAddr liveReplicas
      if (liveReplicas.length : Int) == replicaNum.tdiv 2 + 1 && contains liveAddrs nodeAddr then
        .ok (some (MasterError.Errorf nodeAddr))
      else .ok none

/-- The in-place update `mr.updateMetric(mgr)` of the replica `getMetaReplica` returned:
the first replica with the address is replaced. -/
def MetaPartition.updateReplicaMetric (now : Int) (addr : String) (mgr : MetaPartitionReport) :
    List MetaReplica → List MetaReplica
  | [] => []
  | mr :: rest =>
    if mr.Addr == addr then mr.updateMetric now mgr :: rest
    else mr :: MetaPartition.updateReplicaMetric now addr mgr rest

/-- `MetaPartition.UpdateMetaPartition(mgr, metaNode)` (meta_partition.go lines 265-280). -/
def MetaPartition.UpdateMetaPartition (now : Int) (mp : MetaPartition)
    (mgr : MetaPartitionReport) (metaNode : MetaNode) : MetaPartition :=
  if !contains mp.PersistenceHosts metaNode.Addr then mp
  else
    let mp :=
      match mp.getMetaReplica metaNode.Addr with
      | .ok _ => mp
      | .error _ => mp.addReplica (NewMetaReplica now mp.Start mp.End metaNode)
    let mp := { mp with MaxNodeID := mgr.MaxInodeID }
    let mp := { mp with
      Replicas := MetaPartition.updateReplicaMetric now metaNode.Addr mgr mp.Replicas }
    mp.checkAndRemoveMissMetaReplica metaNode.Addr

/-- `MetaPartition.generateUpdateMetaReplicaTask(clusterID, partitionID, end)`
(meta_partition.go lines 458-470): nil when there is no leader. -/
def MetaPartition.generateUpdateMetaReplicaTask (mp : MetaPartition) (partitionID end_ : Nat) :
    Option AdminTask :=
  match mp.getLeaderMetaReplica with
  | (some mr, none) =>
    some { OpCode := OpCode.OpUpdateMetaPartition, OperatorAddr := mr.Addr,
           PartitionID := partitionID, End := some end_ }
  | _ => none

/-- What `UpdateEnd` leaves behind: the partition, the tasks handed to
`c.putMetaNodeTasks`, the range `(start, end)` passed to `c.CreateMetaPartition`, if
it was called, and the partition handed to `c.syncUpdateMetaPartition`, if that call was
made and succeeded. -/
structure UpdateEndResult where
  mp : MetaPartition
  tasks : List AdminTask
  created : Option (Nat × Nat)
  persisted : Option MetaPartition
deriving DecidableEq, Repr

/-- `MetaPartition.UpdateEnd(c, end)` (meta_partition.go lines 117-151).  The absent
constants `DefaultMaxMetaPartitionInodeID` and `DefaultMetaPartitionInodeIDStep` are the
parameters `maxInodeID` and `step`; the outcome of the absent
`c.syncUpdateMetaPartition` is the parameter `syncFails`; the outcome of
`c.CreateMetaPartition` only selects a log line. -/
def MetaPartition.UpdateEnd (maxInodeID step : Nat) (syncFails : Bool) (mp : MetaPartition)
    (end_ : Nat) : UpdateEndResult :=
  if end_ > maxInodeID - step then
    { mp := mp, tasks := [], created := none, persisted := none }
  else
    let oldEnd := mp.End
    let mp := { mp with End := end_ }
    match mp.generateUpdateMetaReplicaTask mp.PartitionID end_ with
    | none => { mp := { mp with End := oldEnd }, tasks := [], created := none,
                persisted := none }
    | some t =>
      if syncFails then
        { mp := { mp with End := oldEnd }, tasks := [], created := none, persisted := none }
      else
        let persisted := mp
        let mp := mp.updateAllReplicasEnd
        { mp := mp, tasks := [t], created := some ((mp.End + 1) % 2 ^ 64, maxInodeID),
          persisted := some persisted }

/-! ## master: miss-warning debounce -/

/-- The Go map read `m[key]` with its `ok` flag, on the association-list model of a map:
the first entry for the key. -/
def mapGet (m : List (String × Int)) (key : String) : Option Int :=
  m.lookup key

/-- The Go map write `m[key] = value` on the association-list model of a map: the entry
for the key is replaced or inserted, the others are kept. -/
def mapSet (m : List (String × Int)) (key : String) (value : Int) : List (String × Int) :=
  (key, value) :: m.filter (fun e => e.1 != key)

/-- `DataPartition.needWarnMissDataPartition(addr, dataPartitionWarnInterval)`
(data_partition_check.go lines 79-92): the partition afterwards and `isWarn`; the
difference `time.Now().Unix()-warnTime` is an `int64` subtraction. -/
def DataPartition.needWarnMissDataPartition (now : Int) (partition : DataPartition)
    (addr : String) (dataPartitionWarnInterval : Int) : DataPartition × Bool :=
  match mapGet partition.MissNodes addr with
  | none => ({ partition with MissNodes := mapSet partition.MissNodes addr now }, true)
  | some warnTime =>
    if wrapInt64 (now - warnTime) > dataPartitionWarnInterval then
      ({ partition with MissNodes := mapSet partition.MissNodes addr now }, true)
    else (partition, false)

/-- `MetaPartition.needWarnMissReplica(addr, warnInterval)` (meta_partition.go lines
350-360): the partition afterwards and the returned value; the function sets the named
result `isWarn` and then executes `return false`. -/
def MetaPartition.needWarnMissReplica (now : Int) (mp : MetaPartition) (addr : String)
    (warnInterval : Int) : MetaPartition × Bool :=
  match mapGet mp.MissNodes addr with
  | none => ({ mp with MissNodes := mapSet mp.MissNodes addr now }, false)
  | some lastWarnTime =>
    if wrapInt64 (now - lastWarnTime) > warnInterval then
      ({ mp with MissNodes := mapSet mp.MissNodes addr now }, false)
    else (mp, false)

/-! ## metanode: the partition manager -/

/-- The constant `partitionPrefix` of manager.go. -/
def partitionPrefix : String := "partition_"

/-- `StateStandby` (const.go). -/
def StateStandby : Nat := 0

/-- `StateStart` (const.go). -/
def StateStart : Nat := 1

/-- `StateRunning` (const.go). -/
def StateRunning : Nat := 2

/-- `StateShutdown` (const.go). -/
def StateShutdown : Nat := 3

/-- `StateStopped` (const.go). -/
def StateStopped : Nat := 4

/-- The errors `loadPartitions` can return: the one it builds itself, those of the file
system calls, those of `strconv.ParseUint`, and the error of a partition that does not
start. -/
inductive ManagerError where
  | MetaDirMustBeDirectory
  | Stat
  | ReadDir
  | ParseUintSyntax (s : String)
  | ParseUintRange (s : String)
  | PartitionStart (id : Nat)
deriving DecidableEq, Repr

/-- The two methods of `os.FileInfo` that `loadPartitions` calls. -/
structure FileInfo where
  Name : String
  IsDir : Bool
deriving DecidableEq, Repr

/-- The fields of `MetaPartitionConfig` that `loadPartitions` sets; a loaded partition is
represented by the configuration it was built from (`NewMetaPartition` is not among the
sources). -/
structure MetaPartitionConfig where
  NodeId : Nat
  RootDir : String
deriving DecidableEq, Repr

/-- `metanode.metaManager` (manager.go lines 41-49), without the raft store, the
connection pool and the lock; the `partitions` map is an association list. -/
structure metaManager where
  nodeId : Nat
  rootDir : String
  state : Nat
  partitions : List (Nat × MetaPartitionConfig)
deriving DecidableEq, Repr

/-- The digit loop of `strconv.ParseUint(s, 10, 64)`: `n` is the value read so far. -/
def parseUintLoop (s0 : String) : List Char → Nat → Except ManagerError Nat
  | [], n => .ok n
  | c :: rest, n =>
    if '0' ≤ c ∧ c ≤ '9' then
      let n1 := n * 10 + (c.toNat - '0'.toNat)
      if n1 ≥ 2 ^ 64 then .error (ManagerError.ParseUintRange s0)
      else parseUintLoop s0 rest n1
    else .error (ManagerError.ParseUintSyntax s0)

/-- `strconv.ParseUint(s, 10, 64)`: the empty string and any character that is not a
decimal digit are syntax errors, a value of `2^64` or more is a range error. -/
def ParseUint (s : String) : Except ManagerError Nat :=
  if s.data = [] then .error (ManagerError.ParseUintSyntax s)
  else parseUintLoop s s.data 0

/-- `strings.HasPrefix(s, prefix)`. -/
def HasPrefix (s pre : String) : Bool :=
  pre.data.isPrefixOf s.data

/-- `metaManager.attachPartition(id, partition)` (manager.go lines 213-222); the outcome
of the absent `partition.Start()` is given by `start`. -/
def metaManager.attachPartition (start : MetaPartitionConfig → Option ManagerError)
    (m : metaManager) (id : Nat) (partition : MetaPartitionConfig) :
    metaManager × Option ManagerError :=
  match start partition with
  | some e => (m, some e)
  | none =>
    ({ m with partitions := (id, partition) :: m.partitions.filter (fun e => e.1 != id) },
      none)

/-- The body of the goroutine `loadPartitions` starts for a directory entry (manager.go
lines 177-206).  `err` is the named result of `loadPartitions`, which the closure
captures and assigns; the log lines are not modelled, `path.Join` is a plain join with
a slash, and the name after the prefix is taken from the tenth character on. -/
def metaManager.loadPartition (start : MetaPartitionConfig → Option ManagerError)
    (m : metaManager) (err : Option ManagerError) (fileName : String) :
    metaManager × Option ManagerError :=
  if fileName.utf8ByteSize < 10 then (m, err)
  else
    let partitionId := String.mk (fileName.data.drop partitionPrefix.data.length)
    match ParseUint partitionId with
    | .error e => (m, some e)
    | .ok id =>
      let partitionConfig : MetaPartitionConfig :=
        { NodeId := m.nodeId, RootDir := m.rootDir ++ "/" ++ fileName }
      metaManager.attachPartition start m id partitionConfig

/-- The scan loop of `loadPartitions` (manager.go lines 174-209).  The goroutines are run
to completion one after the other, in listing order, which is one of the schedules the
wait group allows. -/
def metaManager.loadPartitionsLoop (start : MetaPartitionConfig → Option ManagerError) :
    metaManager → Option ManagerError → List FileInfo → metaManager × Option ManagerError
  | m, err, [] => (m, err)
  | m, err, fileInfo :: rest =>
    if fileInfo.IsDir && HasPrefix fileInfo.Name partitionPrefix then
      let r := metaManager.loadPartition start m err fileInfo.Name
      metaManager.loadPartitionsLoop start r.1 r.2 rest
    else metaManager.loadPartitionsLoop start m err rest

/-- `metaManager.loadPartitions()` (manager.go lines 156-211); `stat` is the outcome of
`os.Stat(m.rootDir)` and `readDir` that of `ioutil.ReadDir(m.rootDir)`. -/
def metaManager.loadPartitions (stat : Except ManagerError FileInfo)
    (readDir : Except ManagerError (List FileInfo))
    (start : MetaPartitionConfig → Option ManagerError) (m : metaManager) :
    metaManager × Option ManagerError :=
  match stat with
  | .error _ => (m, none)
  | .ok fileInfo =>
    if !fileInfo.IsDir then (m, some ManagerError.MetaDirMustBeDirectory)
    else
      match readDir with
      | .error e => (m, some e)
      | .ok fileInfoList => metaManager.loadPartitionsLoop start m none fileInfoList

/-- `metaManager.Start()` (manager.go lines 103-117), `onStart` being `loadPartitions`. -/
def metaManager.Start (stat : Except ManagerError FileInfo)
    (readDir : Except ManagerError (List FileInfo))
    (start : MetaPartitionConfig → Option ManagerError) (m : metaManager) :
    metaManager × Option ManagerError :=
  if m.state == StateStandby then
    let m := { m with state := StateStart }
    let (m, err) := metaManager.loadPartitions stat readDir start m
    let newState := if err != none then StateStandby else StateRunning
    ({ m with state := newState }, err)
  else (m, none)

/-! ## sdk/data: the partition view of a client -/

/-- The constant `MinWritableDataPartitionNum` of wrapper.go. -/
def MinWritableDataPartitionNum : Nat := 10

/-- `data.DataPartition` (wrapper.go lines 29-35). -/
structure Sdk.DataPartition where
  PartitionID : Nat
  Status : Nat
  ReplicaNum : Nat
  PartitionType : String
  Hosts : List String
deriving DecidableEq, Repr

/-- `data.DataPartitionView` (wrapper.go lines 37-39). -/
structure Sdk.DataPartitionView where
  DataPartitions : List Sdk.DataPartition
deriving DecidableEq, Repr

/-- The errors the modelled `Wrapper` methods return. -/
inductive WrapperError where
  | Request
  | Unmarshal
  | TooFewWritable (n : Nat)
  | NoWritableDataPartition
deriving DecidableEq, Repr

/-- `data.Wrapper` (wrapper.go lines 50-57), without the lock and the connection pool;
the `partitions` map is an association list. -/
structure Sdk.Wrapper where
  volName : String
  masters : List String
  partitions : List (Nat × Sdk.DataPartition)
  rwPartition : List Sdk.DataPartition
deriving DecidableEq, Repr

/-- `Wrapper.replaceOrInsertPartition(dp)` (wrapper.go lines 120-132). -/
def Sdk.Wrapper.replaceOrInsertPartition (w : Sdk.Wrapper) (dp : Sdk.DataPartition) :
    Sdk.Wrapper :=
  { w with
    partitions := (dp.PartitionID, dp) :: w.partitions.filter (fun e => e.1 != dp.PartitionID) }

/-- `Wrapper.updateDataPartition()` (wrapper.go lines 87-118): the wrapper afterwards and
the returned error.  `view` is the outcome of the request to the master followed by
`json.Unmarshal`. -/
def Sdk.Wrapper.updateDataPartition (view : Except WrapperError Sdk.DataPartitionView)
    (w : Sdk.Wrapper) : Sdk.Wrapper × Option WrapperError :=
  match view with
  | .error e => (w, some e)
  | .ok view =>
    let rwPartitionGroups := view.DataPartitions.filter (fun dp => (dp.Status : Int) == ReadWrite)
    if rwPartitionGroups.length < MinWritableDataPartitionNum then
      (w, some (WrapperError.TooFewWritable rwPartitionGroups.length))
    else
      let w := { w with rwPartition := rwPartitionGroups }
      (view.DataPartitions.foldl Sdk.Wrapper.replaceOrInsertPartition w, none)

/-- `isExcluded(partitionId, excludes)` (wrapper.go lines 134-141). -/
def isExcluded (partitionId : Nat) : List Nat → Bool
  | [] => false
  | id :: rest => if id == partitionId then true else isExcluded partitionId rest

/-- `Wrapper.GetWriteDataPartition(exclude)` (wrapper.go lines 143-162), with the value
of `rand.Intn(len(rwPartitionGroups))` as the parameter `choose`; an index outside the
slice panics. -/
def Sdk.Wrapper.GetWriteDataPartition (w : Sdk.Wrapper) (exclude : List Nat) (choose : Nat) :
    Except Err (Option Sdk.DataPartition × Option WrapperError) :=
  let rwPartitionGroups := w.rwPartition
  if rwPartitionGroups.length = 0 then
    .ok (none, some WrapperError.NoWritableDataPartition)
  else
    match rwPartitionGroups[choose]? with
    | none => .error .Panic
    | some partition =>
      if !isExcluded partition.PartitionID exclude then .ok (some partition, none)
      else
        match rwPartitionGroups.find? (fun p => !isExcluded p.PartitionID exclude) with
        | some partition => .ok (some partition, none)
        | none => .ok (none, some WrapperError.NoWritableDataPartition)

/-! ## Theorems: StreamKey.Put -/

theorem ExtentKey.sameExtent_iff (a k : ExtentKey) :
    a.sameExtent k = true ↔ a.PartitionId = k.PartitionId ∧ a.ExtentId = k.ExtentId := by
  simp [ExtentKey.sameExtent]

theorem ExtentKey.sameExtent_self (k : ExtentKey) : k.sameExtent k = true := by
  simp [ExtentKey.sameExtent]

theorem ExtentKey.sameExtent_withSize (a k : ExtentKey) (n : Nat) :
    ({ a with Size := n } : ExtentKey).sameExtent k = a.sameExtent k := rfl

theorem ExtentKey.sameExtent_withSize_right (a k : ExtentKey) (n : Nat) :
    a.sameExtent ({ k with Size := n } : ExtentKey) = a.sameExtent k := rfl

/-- Writing the larger of the two sizes is what the `if k.Size > ek.Size` update does. -/
theorem ExtentKey.update_eq_max (ek k : ExtentKey) :
    (if k.Size > ek.Size then ({ ek with Size := k.Size } : ExtentKey) else ek)
      = { ek with Size := max ek.Size k.Size } := by
  cases ek with
  | mk p e o s c =>
    by_cases h : k.Size > s
    · simp only [h, if_true]
      congr 1
      exact (Nat.max_eq_right (Nat.le_of_lt h)).symm
    · simp only [h, if_false]
      congr 1
      exact (Nat.max_eq_left (Nat.le_of_not_lt h)).symm

theorem StreamKey.putScan_eq_none (k : ExtentKey) (l : List ExtentKey) :
    StreamKey.putScan k l = none ↔ ∀ e ∈ l, e.sameExtent k = false := by
  induction l with
  | nil => simp [StreamKey.putScan]
  | cons a rest ih =>
    by_cases h : a.sameExtent k = true
    · by_cases hs : k.Size > a.Size <;> simp [StreamKey.putScan, h, hs]
    · simp only [Bool.not_eq_true] at h
      simp [StreamKey.putScan, h, ih]

/-- The scan stops at the first key sharing `(PartitionId, ExtentId)` with `k`. -/
theorem StreamKey.putScan_split (k ek : ExtentKey) (pre post : List ExtentKey)
    (hpre : ∀ e ∈ pre, e.sameExtent k = false) (hek : ek.sameExtent k = true) :
    StreamKey.putScan k (pre ++ ek :: post)
      = some (pre ++ { ek with Size := max ek.Size k.Size } :: post) := by
  induction pre with
  | nil =>
    have := ExtentKey.update_eq_max ek k
    by_cases hs : k.Size > ek.Size
    · simp only [hs, if_true] at this
      simp [StreamKey.putScan, hek, hs, this]
    · simp only [hs, if_false] at this
      simp only [List.nil_append, StreamKey.putScan, hek, hs, if_true, if_false]
      rw [← this]
  | cons a rest ih =>
    have ha : a.sameExtent k = false := hpre a (List.mem_cons_self _ _)
    have hrest : ∀ e ∈ rest, e.sameExtent k = false :=
      fun e he => hpre e (List.mem_cons_of_mem _ he)
    simp [StreamKey.putScan, ha, ih hrest]

/-- A list with a key sharing `(PartitionId, ExtentId)` with `k` splits at the first one. -/
theorem exists_first_sameExtent (k : ExtentKey) (l : List ExtentKey)
    (h : ∃ e ∈ l, e.sameExtent k = true) :
    ∃ pre ek post, l = pre ++ ek :: post ∧ (∀ e ∈ pre, e.sameExtent k = false)
      ∧ ek.sameExtent k = true := by
  induction l with
  | nil => simp at h
  | cons a rest ih =>
    by_cases ha : a.sameExtent k = true
    · exact ⟨[], a, rest, rfl, by simp, ha⟩
    · simp only [Bool.not_eq_true] at ha
      have h' : ∃ e ∈ rest, e.sameExtent k = true := by
        obtain ⟨e, he, hse⟩ := h
        rcases List.mem_cons.mp he with rfl | he
        · rw [ha] at hse; exact absurd hse (by decide)
        · exact ⟨e, he, hse⟩
      obtain ⟨pre, ek, post, hl, hpre, hek⟩ := ih h'
      refine ⟨a :: pre, ek, post, by simp [hl], ?_, hek⟩
      intro e he
      rcases List.mem_cons.mp he with rfl | he
      · exact ha
      · exact hpre e he

/-- `Put` when the last key shares `(PartitionId, ExtentId)` with `k`. -/
theorem StreamKey.Put_of_last (sk : StreamKey) (k last : ExtentKey) (pre : List ExtentKey)
    (hsk : sk.Extents = pre ++ [last]) (hsame : last.sameExtent k = true) :
    sk.Put k = { sk with Extents := pre ++ [{ last with Size := max last.Size k.Size }] } := by
  have hlast : sk.Extents.getLast? = some last := by simp [hsk]
  have hmax := ExtentKey.update_eq_max last k
  unfold StreamKey.Put
  simp only [hlast, hsame, if_true]
  by_cases hs : k.Size > last.Size
  · simp only [hs, if_true] at hmax ⊢
    rw [← hmax, hsk]
    simp
  · simp only [hs, if_false] at hmax ⊢
    rw [← hmax, ← hsk]

/-- `Put` when the list is empty or its last key does not share with `k`. -/
theorem StreamKey.Put_of_not_last (sk : StreamKey) (k : ExtentKey)
    (hlast : ∀ l, sk.Extents.getLast? = some l → l.sameExtent k = false) :
    sk.Put k = { sk with Extents := (StreamKey.putScan k sk.Extents).getD (sk.Extents ++ [k]) } := by
  unfold StreamKey.Put
  cases hl : sk.Extents.getLast? with
  | none =>
    have : sk.Extents = [] := by simpa using hl
    simp [this, StreamKey.putScan]
  | some l =>
    have := hlast l hl
    simp only [this]
    cases StreamKey.putScan k sk.Extents <;> simp

/-- The `(PartitionId, ExtentId)` pair that `Put` compares. -/
theorem ExtentKey.sameExtent_eq_false_iff (a k : ExtentKey) :
    a.sameExtent k = false ↔ (a.PartitionId, a.ExtentId) ≠ (k.PartitionId, k.ExtentId) := by
  simp [ExtentKey.sameExtent]

theorem StreamKey.putScan_map_key (k : ExtentKey) (l l' : List ExtentKey)
    (h : StreamKey.putScan k l = some l') :
    l'.map (fun e => (e.PartitionId, e.ExtentId)) = l.map (fun e => (e.PartitionId, e.ExtentId)) := by
  induction l generalizing l' with
  | nil => simp [StreamKey.putScan] at h
  | cons a rest ih =>
    by_cases ha : a.sameExtent k = true
    · by_cases hs : k.Size > a.Size
      · simp [StreamKey.putScan, ha, hs] at h
        subst h; simp
      · simp [StreamKey.putScan, ha, hs] at h
        subst h; rfl
    · simp only [Bool.not_eq_true] at ha
      simp only [StreamKey.putScan, ha, Bool.false_eq_true, if_false, Option.map_eq_some'] at h
      obtain ⟨r, hr, rfl⟩ := h
      simp [ih r hr]

/-- `Put` either keeps the sequence of `(PartitionId, ExtentId)` pairs, or no key shares
with `k` and `k` is appended. -/
theorem StreamKey.Put_keys (sk : StreamKey) (k : ExtentKey) :
    (sk.Put k).Extents.map (fun e => (e.PartitionId, e.ExtentId))
        = sk.Extents.map (fun e => (e.PartitionId, e.ExtentId))
      ∨ ((∀ e ∈ sk.Extents, e.sameExtent k = false)
          ∧ (sk.Put k).Extents = sk.Extents ++ [k]) := by
  by_cases hlast : ∀ l, sk.Extents.getLast? = some l → l.sameExtent k = false
  · rw [StreamKey.Put_of_not_last sk k hlast]
    cases hscan : StreamKey.putScan k sk.Extents with
    | none =>
      right
      exact ⟨(StreamKey.putScan_eq_none k sk.Extents).mp hscan, rfl⟩
    | some l' =>
      left
      exact StreamKey.putScan_map_key k sk.Extents l' hscan
  · left
    simp only [not_forall, Bool.not_eq_false] at hlast
    obtain ⟨last, hl, hsame⟩ := hlast
    have hsplit : sk.Extents = sk.Extents.dropLast ++ [last] :=
      (List.dropLast_append_getLast? last (by simp [hl])).symm
    rw [StreamKey.Put_of_last sk k last sk.Extents.dropLast hsplit hsame]
    conv_rhs => rw [hsplit]
    simp

/-- No two keys of the list share `(PartitionId, ExtentId)`: preserved by `Put`. -/
theorem StreamKey.Put_nodup_keys (sk : StreamKey) (k : ExtentKey)
    (h : (sk.Extents.map (fun e => (e.PartitionId, e.ExtentId))).Nodup) :
    ((sk.Put k).Extents.map (fun e => (e.PartitionId, e.ExtentId))).Nodup := by
  rcases StreamKey.Put_keys sk k with hk | ⟨hnone, happ⟩
  · rw [hk]; exact h
  · rw [happ, List.map_append, List.nodup_append]
    refine ⟨h, by simp, ?_⟩
    intro a ha
    simp only [List.map_cons, List.map_nil, List.mem_singleton]
    intro hb
    obtain ⟨e, he, hea⟩ := List.mem_map.mp ha
    have := (ExtentKey.sameExtent_eq_false_iff e k).mp (hnone e he)
    exact this (by rw [hea, hb])

theorem StreamKey.foldl_Put_nodup_keys (ks : List ExtentKey) (sk : StreamKey)
    (h : (sk.Extents.map (fun e => (e.PartitionId, e.ExtentId))).Nodup) :
    (((ks.foldl StreamKey.Put sk)).Extents.map (fun e => (e.PartitionId, e.ExtentId))).Nodup := by
  induction ks generalizing sk with
  | nil => exact h
  | cons k rest ih => exact ih (sk.Put k) (StreamKey.Put_nodup_keys sk k h)

theorem StreamKey.Put_idem (sk : StreamKey) (k : ExtentKey) : (sk.Put k).Put k = sk.Put k := by
  by_cases hlast : ∀ l, sk.Extents.getLast? = some l → l.sameExtent k = false
  · rw [StreamKey.Put_of_not_last sk k hlast]
    cases hscan : StreamKey.putScan k sk.Extents with
    | none =>
      simp only [Option.getD_none]
      rw [StreamKey.Put_of_last _ k k sk.Extents rfl (ExtentKey.sameExtent_self k)]
      simp
    | some l' =>
      simp only [Option.getD_some]
      have hex : ∃ e ∈ sk.Extents, e.sameExtent k = true := by
        by_contra hne
        simp only [not_exists, not_and, Bool.not_eq_true] at hne
        rw [(StreamKey.putScan_eq_none k sk.Extents).mpr hne] at hscan
        exact absurd hscan (by simp)
      obtain ⟨pre, ek, post, hl, hpre, hek⟩ := exists_first_sameExtent k sk.Extents hex
      have hl' : l' = pre ++ { ek with Size := max ek.Size k.Size } :: post := by
        have := StreamKey.putScan_split k ek pre post hpre hek
        rw [← hl, hscan] at this
        exact Option.some.inj this
      cases post with
      | nil =>
        have : sk.Extents.getLast? = some ek := by simp [hl]
        have := hlast ek this
        rw [hek] at this
        exact absurd this (by decide)
      | cons p ps =>
        have hlast' : ∀ l, l'.getLast? = some l → l.sameExtent k = false := by
          intro l hlq
          apply hlast l
          rw [hl]
          rw [hl'] at hlq
          rw [List.getLast?_append_of_ne_nil _ (by simp)] at hlq ⊢
          rw [List.getLast?_cons_cons] at hlq ⊢
          exact hlq
        have hsk' : ({ sk with Extents := l' } : StreamKey).Extents = l' := rfl
        rw [StreamKey.Put_of_not_last _ k (by rw [hsk']; exact hlast')]
        simp only [hsk']
        have h2 := StreamKey.putScan_split k { ek with Size := max ek.Size k.Size } pre (p :: ps)
          hpre (by rw [ExtentKey.sameExtent_withSize]; exact hek)
        rw [← hl'] at h2
        simp only [Nat.max_assoc, Nat.max_self] at h2
        rw [h2, ← hl']
        rfl
  · simp only [not_forall, Bool.not_eq_false] at hlast
    obtain ⟨last, hl, hsame⟩ := hlast
    have hsplit : sk.Extents = sk.Extents.dropLast ++ [last] :=
      (List.dropLast_append_getLast? last (by simp [hl])).symm
    rw [StreamKey.Put_of_last sk k last sk.Extents.dropLast hsplit hsame]
    rw [StreamKey.Put_of_last _ k { last with Size := max last.Size k.Size } sk.Extents.dropLast rfl
      (by rw [ExtentKey.sameExtent_withSize]; exact hsame)]
    simp [Nat.max_assoc]

theorem StreamKey.Size_eq_sum (sk : StreamKey) :
    sk.Size = (sk.Extents.map (fun e => e.Size)).sum % 2 ^ 64 := by
  have key : ∀ (l : List ExtentKey) (acc : Nat),
      l.foldl (fun bytes ok => (bytes + ok.Size) % 2 ^ 64) (acc % 2 ^ 64)
        = (acc + (l.map (fun e => e.Size)).sum) % 2 ^ 64 := by
    intro l
    induction l with
    | nil => intro acc; simp
    | cons a rest ih =>
      intro acc
      simp only [List.foldl_cons, List.map_cons, List.sum_cons]
      rw [ih (acc % 2 ^ 64 + a.Size)]
      omega
  have := key sk.Extents 0
  simpa [StreamKey.Size] using this

/-- C1. `StreamKey.Put`, last-key case: when the last key of a non-empty extent list has
the same `PartitionId` and `ExtentId` as the new key `k`, `Put(k)` keeps the `Inode`
field, the length of the list and every key before the last, and the last key changes
at most in `Size`, which becomes `max(old Size, k.Size)`. -/
theorem Put_last_key_case (sk : StreamKey) (k last : ExtentKey) (pre : List ExtentKey)
    (hsk : sk.Extents = pre ++ [last])
    (hsame : last.PartitionId = k.PartitionId ∧ last.ExtentId = k.ExtentId) :
    (sk.Put k).Inode = sk.Inode
      ∧ (sk.Put k).Extents = pre ++ [{ last with Size := max last.Size k.Size }]
      ∧ (sk.Put k).Extents.length = sk.Extents.length := by
  rw [StreamKey.Put_of_last sk k last pre hsk ((ExtentKey.sameExtent_iff last k).mpr hsame)]
  simp [hsk]

/-- Witness for C1: the extent-merge scenario of the spec; size 80 onto size 100 changes
nothing and size 200 onto size 100 leaves a single extent of size 200. -/
theorem Put_last_key_case_witness :
    (StreamKey.Put ⟨9, [⟨1, 7, 0, 100, 0⟩]⟩ ⟨1, 7, 0, 80, 0⟩).Extents = [⟨1, 7, 0, 100, 0⟩]
      ∧ (StreamKey.Put ⟨9, [⟨1, 7, 0, 100, 0⟩]⟩ ⟨1, 7, 0, 200, 0⟩).Extents
          = [⟨1, 7, 0, 200, 0⟩] :=
  ⟨(Put_last_key_case ⟨9, [⟨1, 7, 0, 100, 0⟩]⟩ ⟨1, 7, 0, 80, 0⟩ ⟨1, 7, 0, 100, 0⟩ [] rfl
      ⟨rfl, rfl⟩).2.1,
   (Put_last_key_case ⟨9, [⟨1, 7, 0, 100, 0⟩]⟩ ⟨1, 7, 0, 200, 0⟩ ⟨1, 7, 0, 100, 0⟩ [] rfl
      ⟨rfl, rfl⟩).2.1⟩

/-- C2. `StreamKey.Put`, non-last case: when the extent list is empty or its last key does
not share `(PartitionId, ExtentId)` with `k`, then (a) if some existing key shares it, the
list splits at the first such key `ek` and `Put(k)` replaces `ek.Size` by
`max(ek.Size, k.Size)`, changing nothing else; (b) if no existing key shares it, the result
is the old list with `k` appended as the last element. -/
theorem Put_non_last_case (sk : StreamKey) (k : ExtentKey)
    (hlast : ∀ l, sk.Extents.getLast? = some l →
      ¬(l.PartitionId = k.PartitionId ∧ l.ExtentId = k.ExtentId)) :
    (sk.Put k).Inode = sk.Inode
      ∧ ((∃ e ∈ sk.Extents, e.PartitionId = k.PartitionId ∧ e.ExtentId = k.ExtentId) →
          ∃ pre ek post, sk.Extents = pre ++ ek :: post
            ∧ (∀ e ∈ pre, ¬(e.PartitionId = k.PartitionId ∧ e.ExtentId = k.ExtentId))
            ∧ (ek.PartitionId = k.PartitionId ∧ ek.ExtentId = k.ExtentId)
            ∧ (sk.Put k).Extents = pre ++ { ek with Size := max ek.Size k.Size } :: post)
      ∧ ((∀ e ∈ sk.Extents, ¬(e.PartitionId = k.PartitionId ∧ e.ExtentId = k.ExtentId)) →
          (sk.Put k).Extents = sk.Extents ++ [k]) := by
  have hlast' : ∀ l, sk.Extents.getLast? = some l → l.sameExtent k = false := by
    intro l hl
    have := hlast l hl
    rw [← ExtentKey.sameExtent_iff] at this
    simpa using this
  rw [StreamKey.Put_of_not_last sk k hlast']
  refine ⟨rfl, ?_, ?_⟩
  · intro hex
    have hex' : ∃ e ∈ sk.Extents, e.sameExtent k = true := by
      obtain ⟨e, he, hs⟩ := hex
      exact ⟨e, he, (ExtentKey.sameExtent_iff e k).mpr hs⟩
    obtain ⟨pre, ek, post, hl, hpre, hek⟩ := exists_first_sameExtent k sk.Extents hex'
    refine ⟨pre, ek, post, hl, ?_, (ExtentKey.sameExtent_iff ek k).mp hek, ?_⟩
    · intro e he hs
      have := hpre e he
      rw [(ExtentKey.sameExtent_iff e k).mpr hs] at this
      exact absurd this (by decide)
    · have := StreamKey.putScan_split k ek pre post hpre hek
      rw [← hl] at this
      simp [this]
  · intro hnone
    have : StreamKey.putScan k sk.Extents = none := by
      rw [StreamKey.putScan_eq_none]
      intro e he
      have := hnone e he
      rw [← ExtentKey.sameExtent_iff] at this
      simpa using this
    simp [this]

/-- Witness for C2: a key shared with the first of two extents grows that extent, and a
key shared with none is appended to the empty list. -/
theorem Put_non_last_case_witness :
    (StreamKey.Put ⟨9, [⟨1, 7, 0, 100, 0⟩, ⟨1, 8, 0, 50, 0⟩]⟩ ⟨1, 7, 0, 300, 0⟩).Extents
        = [⟨1, 7, 0, 300, 0⟩, ⟨1, 8, 0, 50, 0⟩]
      ∧ (StreamKey.Put ⟨9, []⟩ ⟨1, 7, 0, 300, 0⟩).Extents = [⟨1, 7, 0, 300, 0⟩] := by
  refine ⟨?_, (Put_non_last_case ⟨9, []⟩ ⟨1, 7, 0, 300, 0⟩ (by intro l hl; simp at hl)).2.2
      (by intro e he; simp at he)⟩
  obtain ⟨pre, ek, post, hl, hpre, _, hres⟩ :=
    (Put_non_last_case ⟨9, [⟨1, 7, 0, 100, 0⟩, ⟨1, 8, 0, 50, 0⟩]⟩ ⟨1, 7, 0, 300, 0⟩
      (by intro l hl; simp at hl; subst hl; simp)).2.1 ⟨⟨1, 7, 0, 100, 0⟩, by simp, rfl, rfl⟩
  cases pre with
  | nil =>
    simp only [List.nil_append, List.cons.injEq] at hl
    obtain ⟨h1, h2⟩ := hl
    subst h1 h2
    rw [hres]
    rfl
  | cons a rest =>
    simp only [List.cons_append, List.cons.injEq] at hl
    have := hpre a (List.mem_cons_self _ _)
    rw [← hl.1] at this
    exact absurd ⟨rfl, rfl⟩ this

/-- C3. Extent append is idempotent: `Put(k)` applied twice gives the same `StreamKey` as
`Put(k)` applied once, for every extent list; and `AppendExtents(k)` applied twice to an
inode holding a `StreamKey` succeeds both times and the second call changes nothing but
`ModifyTime`, so `Extents` and `Size` are those after the first call. -/
theorem Put_idempotent (sk : StreamKey) (k : ExtentKey) (i : Inode) (now1 now2 : Int) :
    (sk.Put k).Put k = sk.Put k
      ∧ ∃ i1 i2, Inode.AppendExtents now1 { i with Extents := some sk } k = .ok i1
          ∧ Inode.AppendExtents now2 i1 k = .ok i2
          ∧ i2.Extents = i1.Extents ∧ i2.Size = i1.Size
          ∧ i2 = { i1 with ModifyTime := now2 } := by
  refine ⟨StreamKey.Put_idem sk k, _, _, rfl, rfl, ?_, ?_, ?_⟩ <;>
    simp [StreamKey.Put_idem sk k]

/-- C4. After `AppendExtents(ext)` on an inode holding a `StreamKey` (whatever its
previous `Size`), `Size` is the sum of the `Size` fields of the keys of its extent list,
taken as a `uint64`, and `ModifyTime` is the current time; a fresh `NewInode` has `Size`
0 and an empty extent list. -/
theorem AppendExtents_size_is_sum (i : Inode) (sk : StreamKey) (ext : ExtentKey)
    (now ts : Int) (ino t : Nat) :
    (∃ i1 sk1, Inode.AppendExtents now { i with Extents := some sk } ext = .ok i1
        ∧ i1.Extents = some sk1
        ∧ i1.Size = (sk1.Extents.map (fun e => e.Size)).sum % 2 ^ 64
        ∧ i1.ModifyTime = now)
      ∧ (NewInode ts ino t).Size = 0
      ∧ (NewInode ts ino t).Extents = some { Inode := ino, Extents := [] } := by
  refine ⟨⟨_, sk.Put ext, rfl, rfl, ?_, rfl⟩, rfl, rfl⟩
  exact StreamKey.Size_eq_sum (sk.Put ext)

/-- C5. Monotone coalesce invariant: in every `StreamKey` obtained from `NewStreamKey` by
a finite sequence of `Put` calls, any two consecutive keys differ in
`(PartitionId, ExtentId)` or the later key has the strictly greater `Size`. -/
theorem Put_monotone_coalesce (ino : Nat) (ks : List ExtentKey) :
    List.Chain'
      (fun a b => ¬(a.PartitionId = b.PartitionId ∧ a.ExtentId = b.ExtentId) ∨ a.Size < b.Size)
      (ks.foldl StreamKey.Put (NewStreamKey ino)).Extents := by
  have hnd := StreamKey.foldl_Put_nodup_keys ks (NewStreamKey ino) (by simp [NewStreamKey])
  have hpw : List.Pairwise
      (fun a b : ExtentKey => (a.PartitionId, a.ExtentId) ≠ (b.PartitionId, b.ExtentId))
      (ks.foldl StreamKey.Put (NewStreamKey ino)).Extents := by
    unfold List.Nodup at hnd
    exact (List.pairwise_map.mp hnd)
  refine (List.Pairwise.chain' hpw).imp ?_
  intro a b hab
  left
  intro h
  exact hab (by rw [h.1, h.2])

/-! ## Theorems: binary encoding -/

theorem readUint32_putUint32 (v : Nat) (hv : v < 2 ^ 32) (rest : List Byte) :
    readUint32 (putUint32 v ++ rest) = .ok (v, rest) := by
  simp only [putUint32, readUint32, toByte, List.cons_append, List.nil_append]
  congr 2
  omega

theorem readUint64_putUint64 (v : Nat) (hv : v < 2 ^ 64) (rest : List Byte) :
    readUint64 (putUint64 v ++ rest) = .ok (v, rest) := by
  simp only [putUint64, readUint64, toByte, List.cons_append, List.nil_append]
  congr 2
  omega

theorem readInt64_putInt64 (v : Int) (hlo : -2 ^ 63 ≤ v) (hhi : v < 2 ^ 63) (rest : List Byte) :
    readInt64 (putInt64 v ++ rest) = .ok (v, rest) := by
  have hlt : (v % 2 ^ 64).toNat < 2 ^ 64 := by omega
  simp only [readInt64, putInt64, readUint64_putUint64 _ hlt]
  congr 2
  unfold int64OfUint64
  split <;> omega

theorem putUint32_length (v : Nat) : (putUint32 v).length = 4 := rfl

theorem putUint64_length (v : Nat) : (putUint64 v).length = 8 := rfl

theorem putInt64_length (v : Int) : (putInt64 v).length = 8 := rfl

theorem bufRead_append (n : Nat) (a rest : List Byte) (ha : a.length = n) (hn : 0 < n) :
    bufRead n (a ++ rest) = .ok (a, rest) := by
  unfold bufRead
  have h1 : (a ++ rest).length ≠ 0 := by rw [List.length_append]; omega
  simp only [h1, if_false]
  have h2 : n - (a ++ rest).length = 0 := by rw [List.length_append]; omega
  rw [h2, ← ha]
  simp

/-! ## Theorems: Dentry -/

/-- C7. Dentry round trip: for every Dentry `d` whose fields fit their Go types and with
`8 + len(Name) < 2^32`, `Marshal` succeeds and `Unmarshal` of the result, into any
receiver `d0`, returns no error and leaves the receiver equal to `d` in all four
fields. -/
theorem Dentry_round_trip (d d0 : Dentry)
    (hp : d.ParentId < 2 ^ 64) (hi : d.Inode < 2 ^ 64) (ht : d.Typ < 2 ^ 32)
    (hlen : 8 + d.Name.length < 2 ^ 32) :
    ∃ raw, d.Marshal = .ok raw ∧ d0.Unmarshal raw = (d, none) := by
  refine ⟨_, rfl, ?_⟩
  have hk : d.MarshalKey.length = 8 + d.Name.length := by
    simp [Dentry.MarshalKey, putUint64_length]
  have hv : d.MarshalValue.length = 12 := rfl
  have hk32 : d.MarshalKey.length % 2 ^ 32 = d.MarshalKey.length := by
    rw [hk]; exact Nat.mod_eq_of_lt hlen
  unfold Dentry.Unmarshal
  simp only [List.append_assoc]
  rw [readUint32_putUint32 _ (by rw [hk32, hk]; exact hlen)]
  simp only
  rw [hk32, bufRead_append _ _ _ rfl (by rw [hk]; omega)]
  simp only
  have hkey : d0.UnmarshalKey d.MarshalKey
      = ({ d0 with ParentId := d.ParentId, Name := d.Name }, none) := by
    unfold Dentry.UnmarshalKey Dentry.MarshalKey
    rw [readUint64_putUint64 _ hp]
  rw [hkey]
  simp only
  rw [readUint32_putUint32 _ (by rw [hv]; decide)]
  simp only
  have hbuf : bufRead (d.MarshalValue.length % 2 ^ 32) d.MarshalValue
      = .ok (d.MarshalValue, []) := by
    have := bufRead_append (d.MarshalValue.length % 2 ^ 32) d.MarshalValue [] (by rw [hv]; rfl)
      (by rw [hv]; decide)
    simpa using this
  rw [hbuf]
  simp only
  unfold Dentry.UnmarshalValue Dentry.MarshalValue
  rw [readUint64_putUint64 _ hi]
  simp only
  have := readUint32_putUint32 _ ht []
  simp only [List.append_nil] at this
  rw [this]

/-- Witness for C7: a dentry with the empty name and one with a two-byte name. -/
theorem Dentry_round_trip_witness :
    (match Dentry.Marshal ⟨1, [], 2, 3⟩ with
      | .ok raw => Dentry.Unmarshal ⟨0, [], 0, 0⟩ raw
      | .error e => (⟨0, [], 0, 0⟩, some e)) = (⟨1, [], 2, 3⟩, none)
    ∧ (match Dentry.Marshal ⟨1, [97, 98], 2, 3⟩ with
      | .ok raw => Dentry.Unmarshal ⟨7, [99], 8, 9⟩ raw
      | .error e => (⟨7, [99], 8, 9⟩, some e)) = (⟨1, [97, 98], 2, 3⟩, none) := by
  obtain ⟨raw1, h1, h1'⟩ := Dentry_round_trip ⟨1, [], 2, 3⟩ ⟨0, [], 0, 0⟩ (by decide)
    (by decide) (by decide) (by decide)
  obtain ⟨raw2, h2, h2'⟩ := Dentry_round_trip ⟨1, [97, 98], 2, 3⟩ ⟨7, [99], 8, 9⟩ (by decide)
    (by decide) (by decide) (by decide)
  rw [h1, h2]
  exact ⟨h1', h2'⟩

theorem bytesLess_iff_lex (s t : List Byte) :
    bytesLess s t = true ↔ List.Lex (· < ·) s t := by
  induction s generalizing t with
  | nil =>
    cases t with
    | nil => simp [bytesLess, List.Lex.not_nil_right]
    | cons b bs => simp [bytesLess, List.Lex.nil]
  | cons a as ih =>
    cases t with
    | nil => simp [bytesLess, List.Lex.not_nil_right]
    | cons b bs =>
      simp only [bytesLess, Bool.or_eq_true, decide_eq_true_eq, Bool.and_eq_true, beq_iff_eq, ih]
      constructor
      · rintro (h | ⟨rfl, h⟩)
        · exact List.Lex.rel h
        · exact List.Lex.cons h
      · intro h
        cases h with
        | cons h' => exact Or.inr ⟨rfl, h'⟩
        | rel h' => exact Or.inl h'

theorem bytesLess_cons_cons (a b : Byte) (s t : List Byte) :
    bytesLess (a :: s) (b :: t) = (decide (a < b) || (a == b && bytesLess s t)) := rfl

theorem beVal_lt (p : List Byte) : beVal p < 256 ^ p.length := by
  induction p with
  | nil => simp [beVal]
  | cons b bs ih =>
    have hb : b.val + 1 ≤ 256 := b.isLt
    have h1 : (b.val + 1) * 256 ^ bs.length ≤ 256 * 256 ^ bs.length :=
      Nat.mul_le_mul_right _ hb
    have h2 : (b.val + 1) * 256 ^ bs.length = b.val * 256 ^ bs.length + 256 ^ bs.length :=
      Nat.succ_mul _ _
    have h3 : 256 ^ (bs.length + 1) = 256 * 256 ^ bs.length := by
      rw [Nat.pow_succ, Nat.mul_comm]
    simp only [beVal, List.length_cons]
    omega

/-- Comparing `a * K + X` with `b * K + Y` for digits `X, Y < K` compares `a` with `b`
first. -/
theorem digit_compare (a b X Y K : Nat) (hX : X < K) (hY : Y < K) :
    (a * K + X < b * K + Y ↔ a < b ∨ (a = b ∧ X < Y))
      ∧ (a * K + X = b * K + Y ↔ a = b ∧ X = Y) := by
  rcases Nat.lt_trichotomy a b with h | h | h
  · have h1 : (a + 1) * K ≤ b * K := Nat.mul_le_mul_right _ h
    have h2 : (a + 1) * K = a * K + K := Nat.succ_mul _ _
    constructor <;> constructor <;> intro _ <;> omega
  · subst h
    constructor <;> constructor <;> intro _ <;> omega
  · have h1 : (b + 1) * K ≤ a * K := Nat.mul_le_mul_right _ h
    have h2 : (b + 1) * K = b * K + K := Nat.succ_mul _ _
    constructor <;> constructor <;> intro _ <;> omega

/-- On prefixes of equal length the bytewise order is the order of the big-endian
values, ties being decided by the remainders. -/
theorem bytesLess_append (p q s t : List Byte) (h : p.length = q.length) :
    bytesLess (p ++ s) (q ++ t)
      = (decide (beVal p < beVal q) || (beVal p == beVal q && bytesLess s t)) := by
  induction p generalizing q with
  | nil =>
    cases q with
    | nil => simp [beVal]
    | cons b q' => simp at h
  | cons a p ih =>
    cases q with
    | nil => simp at h
    | cons b q' =>
      have hlen : p.length = q'.length := by simpa using h
      have hd := digit_compare a.val b.val (beVal p) (beVal q') (256 ^ p.length)
        (beVal_lt p) (by rw [hlen]; exact beVal_lt q')
      simp only [List.cons_append, bytesLess_cons_cons, ih q' hlen, beVal, ← hlen]
      rw [Bool.eq_iff_iff]
      simp only [Bool.or_eq_true, Bool.and_eq_true, decide_eq_true_eq, beq_iff_eq, hd.1, hd.2,
        Fin.lt_def, Fin.ext_iff]
      tauto

theorem beVal_putUint64 (v : Nat) (hv : v < 2 ^ 64) : beVal (putUint64 v) = v := by
  simp only [putUint64, beVal, toByte, List.length_cons, List.length_nil]
  omega

/-- The bytewise order of two keys `putUint64 a ++ s` and `putUint64 b ++ t`. -/
theorem bytesLess_putUint64_append (a b : Nat) (ha : a < 2 ^ 64) (hb : b < 2 ^ 64)
    (s t : List Byte) :
    bytesLess (putUint64 a ++ s) (putUint64 b ++ t)
      = (decide (a < b) || (a == b && bytesLess s t)) := by
  rw [bytesLess_append (putUint64 a) (putUint64 b) s t rfl, beVal_putUint64 a ha,
    beVal_putUint64 b hb]

theorem bytesLess_irrefl (s : List Byte) : bytesLess s s = false := by
  induction s with
  | nil => rfl
  | cons a as ih => simp [bytesLess, ih]

theorem bytesLess_trans (s t u : List Byte) (h1 : bytesLess s t = true)
    (h2 : bytesLess t u = true) : bytesLess s u = true := by
  induction s generalizing t u with
  | nil =>
    cases t with
    | nil => simp [bytesLess] at h1
    | cons b bs =>
      cases u with
      | nil => simp [bytesLess] at h2
      | cons c cs => rfl
  | cons a as ih =>
    cases t with
    | nil => simp [bytesLess] at h1
    | cons b bs =>
      cases u with
      | nil => simp [bytesLess] at h2
      | cons c cs =>
        simp only [bytesLess, Bool.or_eq_true, decide_eq_true_eq, Bool.and_eq_true,
          beq_iff_eq] at h1 h2 ⊢
        rcases h1 with h1 | ⟨rfl, h1⟩
        · rcases h2 with h2 | ⟨rfl, h2⟩
          · exact Or.inl (lt_trans h1 h2)
          · exact Or.inl h1
        · rcases h2 with h2 | ⟨rfl, h2⟩
          · exact Or.inl h2
          · exact Or.inr ⟨rfl, ih bs cs h1 h2⟩

theorem bytesLess_total (s t : List Byte) :
    bytesLess s t = true ∨ s = t ∨ bytesLess t s = true := by
  induction s generalizing t with
  | nil =>
    cases t with
    | nil => exact Or.inr (Or.inl rfl)
    | cons b bs => exact Or.inl rfl
  | cons a as ih =>
    cases t with
    | nil => exact Or.inr (Or.inr rfl)
    | cons b bs =>
      simp only [bytesLess, Bool.or_eq_true, decide_eq_true_eq, Bool.and_eq_true, beq_iff_eq,
        List.cons.injEq]
      rcases lt_trichotomy a b with h | rfl | h
      · exact Or.inl (Or.inl h)
      · rcases ih bs with h | h | h
        · exact Or.inl (Or.inr ⟨rfl, h⟩)
        · exact Or.inr (Or.inl ⟨rfl, h⟩)
        · exact Or.inr (Or.inr (Or.inr ⟨rfl, h⟩))
      · exact Or.inr (Or.inr (Or.inl h))

theorem Dentry.Less_iff (a b : Dentry) :
    a.Less b = true
      ↔ a.ParentId < b.ParentId ∨ (a.ParentId = b.ParentId ∧ bytesLess a.Name b.Name = true) := by
  simp [Dentry.Less]

/-- C9. Dentry ordering matches the key encoding: `a.Less(b)` holds iff
`(a.ParentId, a.Name)` is lexicographically smaller than `(b.ParentId, b.Name)`, names
compared bytewise, iff `MarshalKey(a)` is bytewise lexicographically smaller than
`MarshalKey(b)`; `Less` is irreflexive, transitive and total on `(ParentId, Name)`, and a
dentry lying between two dentries of one parent has that parent. -/
theorem Dentry_less_matches_key_order (a b c : Dentry)
    (ha : a.ParentId < 2 ^ 64) (hb : b.ParentId < 2 ^ 64) :
    (a.Less b = true
        ↔ a.ParentId < b.ParentId
          ∨ (a.ParentId = b.ParentId ∧ List.Lex (· < ·) a.Name b.Name))
      ∧ (a.Less b = true ↔ List.Lex (· < ·) a.MarshalKey b.MarshalKey)
      ∧ a.Less a = false
      ∧ (a.Less b = true → b.Less c = true → a.Less c = true)
      ∧ (a.Less b = true ∨ (a.ParentId = b.ParentId ∧ a.Name = b.Name) ∨ b.Less a = true)
      ∧ (a.Less b = true → b.Less c = true → a.ParentId = c.ParentId →
          b.ParentId = a.ParentId) := by
  refine ⟨?_, ?_, ?_, ?_, ?_, ?_⟩
  · rw [Dentry.Less_iff, bytesLess_iff_lex]
  · rw [← bytesLess_iff_lex, Dentry.MarshalKey, Dentry.MarshalKey,
      bytesLess_putUint64_append _ _ ha hb]
    rfl
  · simp [Dentry.Less, bytesLess_irrefl]
  · intro h1 h2
    rw [Dentry.Less_iff] at h1 h2 ⊢
    rcases h1 with h1 | ⟨e1, h1⟩
    · rcases h2 with h2 | ⟨e2, h2⟩
      · exact Or.inl (lt_trans h1 h2)
      · exact Or.inl (e2 ▸ h1)
    · rcases h2 with h2 | ⟨e2, h2⟩
      · exact Or.inl (e1 ▸ h2)
      · exact Or.inr ⟨e1.trans e2, bytesLess_trans _ _ _ h1 h2⟩
  · rw [Dentry.Less_iff, Dentry.Less_iff]
    rcases lt_trichotomy a.ParentId b.ParentId with h | h | h
    · exact Or.inl (Or.inl h)
    · rcases bytesLess_total a.Name b.Name with h' | h' | h'
      · exact Or.inl (Or.inr ⟨h, h'⟩)
      · exact Or.inr (Or.inl ⟨h, h'⟩)
      · exact Or.inr (Or.inr (Or.inr ⟨h.symm, h'⟩))
    · exact Or.inr (Or.inr (Or.inl h))
  · intro h1 h2 hac
    rw [Dentry.Less_iff] at h1 h2
    rcases h1 with h1 | ⟨e1, _⟩
    · rcases h2 with h2 | ⟨e2, _⟩
      · omega
      · omega
    · exact e1.symm

/-- Witness for C9: two dentries of parent 1 and one of parent 2. -/
theorem Dentry_less_matches_key_order_witness :
    ((Dentry.Less ⟨1, [97], 5, 0⟩ ⟨1, [97, 98], 6, 0⟩ = true
        ↔ List.Lex (· < ·) (Dentry.MarshalKey ⟨1, [97], 5, 0⟩)
            (Dentry.MarshalKey ⟨1, [97, 98], 6, 0⟩))
      ∧ Dentry.Less ⟨1, [97], 5, 0⟩ ⟨1, [97, 98], 6, 0⟩ = true
      ∧ Dentry.Less ⟨1, [97, 98], 6, 0⟩ ⟨2, [], 7, 0⟩ = true) :=
  ⟨(Dentry_less_matches_key_order ⟨1, [97], 5, 0⟩ ⟨1, [97, 98], 6, 0⟩ ⟨2, [], 7, 0⟩
      (by decide) (by decide)).2.1, by decide, by decide⟩

/-! ## Theorems: DataPartition.checkStatus -/

theorem DataPartition.checkReplicaStatusOnLiveNode_iff (l : List DataReplica) :
    DataPartition.checkReplicaStatusOnLiveNode l = true
      ↔ ∀ r ∈ l, r.Status = PartitionStatus.ReadWrite := by
  induction l with
  | nil => simp [DataPartition.checkReplicaStatusOnLiveNode]
  | cons a rest ih =>
    by_cases h : a.Status = PartitionStatus.ReadWrite
    · simp [DataPartition.checkReplicaStatusOnLiveNode, h, ih]
    · simp [DataPartition.checkReplicaStatusOnLiveNode, h]

/-- C10. `DataPartition.checkStatus`: afterwards `Status` is `ReadWrite` iff the number of
live replicas on `PersistenceHosts` equals `ReplicaNum` and each of them has `Status`
`ReadWrite`; otherwise it is `ReadOnly`; it is never `Unavaliable`, and the result does
not depend on `Status` (nor on `needLog`) before the call. -/
theorem checkStatus_derives_status (now : Int) (p : DataPartition) (needLog : Bool)
    (timeout : Int) (s0 : PartitionStatus) (needLog0 : Bool) :
    ((p.checkStatus now needLog timeout).Status = PartitionStatus.ReadWrite
        ↔ (p.getLiveReplicasByPersistenceHosts now timeout).length = p.ReplicaNum
          ∧ ∀ r ∈ p.getLiveReplicasByPersistenceHosts now timeout,
              r.Status = PartitionStatus.ReadWrite)
      ∧ ((p.checkStatus now needLog timeout).Status ≠ PartitionStatus.ReadWrite
          → (p.checkStatus now needLog timeout).Status = PartitionStatus.ReadOnly)
      ∧ (p.checkStatus now needLog timeout).Status ≠ PartitionStatus.Unavaliable
      ∧ (DataPartition.checkStatus now { p with Status := s0 } needLog0 timeout).Status
          = (p.checkStatus now needLog timeout).Status := by
  have hlive : DataPartition.getLiveReplicasByPersistenceHosts now { p with Status := s0 } timeout
      = p.getLiveReplicasByPersistenceHosts now timeout := rfl
  have hiff := DataPartition.checkReplicaStatusOnLiveNode_iff
    (p.getLiveReplicasByPersistenceHosts now timeout)
  unfold DataPartition.checkStatus
  rw [hlive]
  by_cases hn : (p.getLiveReplicasByPersistenceHosts now timeout).length = p.ReplicaNum
  · by_cases hc : DataPartition.checkReplicaStatusOnLiveNode
        (p.getLiveReplicasByPersistenceHosts now timeout) = true
    · simp [hn, hc]
      exact hiff.mp hc
    · have hc' : ¬ ∀ r ∈ p.getLiveReplicasByPersistenceHosts now timeout,
          r.Status = PartitionStatus.ReadWrite := fun h => hc (hiff.mpr h)
      simp only [hn, hc, if_true, if_false]
      simp [hc']
  · simp [hn]

/-! ## Theorems: Inode wire format -/

theorem StreamKey.marshalLoop_eq (enc : ExtentKey → Except Err (List Byte))
    (record : ExtentKey → List Byte) (l : List ExtentKey) (buf : List Byte)
    (henc : ∀ k ∈ l, enc k = .ok (record k)) :
    StreamKey.marshalLoop enc l buf = .ok (buf ++ (l.map record).flatten) := by
  induction l generalizing buf with
  | nil => simp [StreamKey.marshalLoop]
  | cons a rest ih =>
    have ha := henc a (List.mem_cons_self _ _)
    have hrest : ∀ k ∈ rest, enc k = .ok (record k) :=
      fun k hk => henc k (List.mem_cons_of_mem _ hk)
    simp only [StreamKey.marshalLoop, ha, ih _ hrest, List.map_cons, List.flatten_cons,
      List.append_assoc]

theorem MarshalValue_layout_aux (enc : ExtentKey → Except Err (List Byte))
    (record : ExtentKey → List Byte) (sk : StreamKey)
    (henc : ∀ k ∈ sk.Extents, enc k = .ok (record k)) :
    sk.MarshalBinary enc = .ok (sk.Extents.map record).flatten := by
  have := StreamKey.marshalLoop_eq enc record sk.Extents [] henc
  simpa [StreamKey.MarshalBinary] using this

theorem StreamKey.Size_nil (ino : Nat) : StreamKey.Size { Inode := ino, Extents := [] } = 0 := rfl

/-- Counterexample to C8 as stated: an inode whose only extent has `Size` 0 is marshalled
to the 44 header bytes alone, without the 28-byte record of that extent. -/
theorem MarshalValue_layout_counterexample :
    ExtentKey.MarshalBinary ⟨1, 7, 0, 0, 0⟩
        = .ok (putUint32 1 ++ putUint64 7 ++ putUint64 0 ++ putUint32 0 ++ putUint32 0)
      ∧ Inode.MarshalValue ExtentKey.MarshalBinary
          { Inode := 5, Typ := 1, Size := 0, Generation := 2, CreateTime := 3, AccessTime := 4,
            ModifyTime := 6, Extents := some ⟨5, [⟨1, 7, 0, 0, 0⟩]⟩ }
        = .ok (putUint32 1 ++ putUint64 0 ++ putUint64 2 ++ putInt64 3 ++ putInt64 4
            ++ putInt64 6)
      ∧ Inode.MarshalValue ExtentKey.MarshalBinary
          { Inode := 5, Typ := 1, Size := 0, Generation := 2, CreateTime := 3, AccessTime := 4,
            ModifyTime := 6, Extents := some ⟨5, [⟨1, 7, 0, 0, 0⟩]⟩ }
        ≠ .ok (putUint32 1 ++ putUint64 0 ++ putUint64 2 ++ putInt64 3 ++ putInt64 4
            ++ putInt64 6
            ++ (putUint32 1 ++ putUint64 7 ++ putUint64 0 ++ putUint32 0 ++ putUint32 0)) := by
  decide

/-- C8 (amended). Inode value wire layout: for every inode holding a `StreamKey` whose
keys the extent encoder accepts, `MarshalValue` returns the big-endian encodings of `Type`
(4 bytes), `Size` (8), `Generation` (8), `CreateTime` (8), `AccessTime` (8) and
`ModifyTime` (8), 44 bytes in that order, followed, when the total `Size` of the extents
is not zero, by the concatenation in list order of the records of all its extent keys;
when that total is zero, in particular when there are no extents, the value is exactly
those 44 bytes. -/
theorem MarshalValue_layout (enc : ExtentKey → Except Err (List Byte))
    (record : ExtentKey → List Byte) (i : Inode) (sk : StreamKey)
    (henc : ∀ k ∈ sk.Extents, enc k = .ok (record k)) :
    (putUint32 i.Typ ++ putUint64 i.Size ++ putUint64 i.Generation ++ putInt64 i.CreateTime
        ++ putInt64 i.AccessTime ++ putInt64 i.ModifyTime).length = 44
      ∧ (sk.Size ≠ 0 →
          Inode.MarshalValue enc { i with Extents := some sk }
            = .ok (putUint32 i.Typ ++ putUint64 i.Size ++ putUint64 i.Generation
                ++ putInt64 i.CreateTime ++ putInt64 i.AccessTime ++ putInt64 i.ModifyTime
                ++ (sk.Extents.map record).flatten))
      ∧ (sk.Size = 0 →
          Inode.MarshalValue enc { i with Extents := some sk }
            = .ok (putUint32 i.Typ ++ putUint64 i.Size ++ putUint64 i.Generation
                ++ putInt64 i.CreateTime ++ putInt64 i.AccessTime ++ putInt64 i.ModifyTime))
      ∧ (sk.Extents = [] → sk.Size = 0) := by
  refine ⟨rfl, ?_, ?_, ?_⟩
  · intro hs
    have hl := StreamKey.marshalLoop_eq enc record sk.Extents [] henc
    simp only [Inode.MarshalValue, StreamKey.MarshalBinary, hl, bne_iff_ne, ne_eq, hs,
      not_false_eq_true, if_true, List.nil_append]
  · intro hs
    simp [Inode.MarshalValue, hs]
  · intro he
    simp [StreamKey.Size, he]

/-- Witness for C8: an inode with two extents of sizes 100 and 200 under the 28-byte
record encoder. -/
theorem MarshalValue_layout_witness :
    Inode.MarshalValue ExtentKey.MarshalBinary
        { Inode := 5, Typ := 1, Size := 300, Generation := 2, CreateTime := 3, AccessTime := 4,
          ModifyTime := 6, Extents := some ⟨5, [⟨1, 7, 0, 100, 0⟩, ⟨1, 8, 100, 200, 9⟩]⟩ }
      = .ok (putUint32 1 ++ putUint64 300 ++ putUint64 2 ++ putInt64 3 ++ putInt64 4
          ++ putInt64 6
          ++ (([⟨1, 7, 0, 100, 0⟩, ⟨1, 8, 100, 200, 9⟩] : List ExtentKey).map
                (fun k => putUint32 k.PartitionId ++ putUint64 k.ExtentId ++ putUint64 k.Offset
                  ++ putUint32 k.Size ++ putUint32 k.Crc)).flatten) :=
  (MarshalValue_layout ExtentKey.MarshalBinary
    (fun k => putUint32 k.PartitionId ++ putUint64 k.ExtentId ++ putUint64 k.Offset
      ++ putUint32 k.Size ++ putUint32 k.Crc)
    { Inode := 5, Typ := 1, Size := 300, Generation := 2, CreateTime := 3, AccessTime := 4,
      ModifyTime := 6, Extents := none }
    ⟨5, [⟨1, 7, 0, 100, 0⟩, ⟨1, 8, 100, 200, 9⟩]⟩ (fun _ _ => rfl)).2.1 (by decide)

/-- The decoding loop reads back a concatenation of records, appending the keys in
order, provided each record is non-empty and is decoded to its key with the rest of the
buffer left over. -/
theorem StreamKey.UnmarshalBinary_flatten (dec : List Byte → Except Err (ExtentKey × List Byte))
    (record : ExtentKey → List Byte) (l : List ExtentKey)
    (hdec : ∀ k ∈ l, record k ≠ [] ∧ ∀ rest, dec (record k ++ rest) = .ok (k, rest))
    (fuel : Nat) (hfuel : l.length < fuel) (sk0 : StreamKey) :
    StreamKey.UnmarshalBinary dec fuel sk0 (l.map record).flatten
      = some ({ sk0 with Extents := sk0.Extents ++ l }, none) := by
  induction l generalizing fuel sk0 with
  | nil =>
    cases fuel with
    | zero => simp at hfuel
    | succ n => simp [StreamKey.UnmarshalBinary]
  | cons a rest ih =>
    cases fuel with
    | zero => simp at hfuel
    | succ n =>
      obtain ⟨hne, hda⟩ := hdec a (List.mem_cons_self _ _)
      have hrest : ∀ k ∈ rest, record k ≠ [] ∧ ∀ r, dec (record k ++ r) = .ok (k, r) :=
        fun k hk => hdec k (List.mem_cons_of_mem _ hk)
      have hlen : (record a ++ (rest.map record).flatten).length ≠ 0 := by
        rw [List.length_append]
        have := List.length_pos.mpr hne
        omega
      simp only [List.map_cons, List.flatten_cons, StreamKey.UnmarshalBinary, hlen, if_false,
        hda]
      rw [ih hrest n (by simpa using hfuel)]
      simp

theorem Inode.UnmarshalValue_header (dec : List Byte → Except Err (ExtentKey × List Byte))
    (fuel : Nat) (i0 : Baudfs.Inode) (t s g : Nat) (ct at_ mt : Int) (E : List Byte)
    (ht : t < 2 ^ 32) (hs : s < 2 ^ 64) (hg : g < 2 ^ 64)
    (hct : -2 ^ 63 ≤ ct ∧ ct < 2 ^ 63) (hat : -2 ^ 63 ≤ at_ ∧ at_ < 2 ^ 63)
    (hmt : -2 ^ 63 ≤ mt ∧ mt < 2 ^ 63) (hfresh : ∀ sk0, i0.Extents = some sk0 → sk0.Extents = []) :
    Inode.UnmarshalValue dec fuel i0
        (putUint32 t ++ putUint64 s ++ putUint64 g ++ putInt64 ct ++ putInt64 at_
          ++ putInt64 mt ++ E)
      = if E.length = 0 then
          some ({ Inode := i0.Inode, Typ := t, Size := s, Generation := g, CreateTime := ct,
                  AccessTime := at_, ModifyTime := mt,
                  Extents := some (NewStreamKey i0.Inode) }, none)
        else
          match StreamKey.UnmarshalBinary dec fuel (NewStreamKey i0.Inode) E with
          | none => none
          | some (sk1, err) =>
            some ({ Inode := i0.Inode, Typ := t, Size := s, Generation := g, CreateTime := ct,
                    AccessTime := at_, ModifyTime := mt, Extents := some sk1 }, err) := by
  have hsk : (match i0.Extents with
      | none => NewStreamKey i0.Inode
      | some sk => { sk with Inode := i0.Inode }) = NewStreamKey i0.Inode := by
    cases he : i0.Extents with
    | none => rfl
    | some sk0 =>
      have := hfresh sk0 he
      cases sk0
      simp only [NewStreamKey] at this ⊢
      simp_all
  unfold Inode.UnmarshalValue
  simp only [List.append_assoc]
  rw [readUint32_putUint32 t ht]
  simp only
  rw [readUint64_putUint64 s hs]
  simp only
  rw [readUint64_putUint64 g hg]
  simp only
  rw [readInt64_putInt64 ct hct.1 hct.2]
  simp only
  rw [readInt64_putInt64 at_ hat.1 hat.2]
  simp only
  rw [readInt64_putInt64 mt hmt.1 hmt.2]
  simp only [hsk]

/-- The 28-byte record codec round-trips on keys whose fields fit their Go types and
consumes exactly its own bytes. -/
theorem ExtentKey.codec_round_trip (k : ExtentKey) (hp : k.PartitionId < 2 ^ 32)
    (he : k.ExtentId < 2 ^ 64) (ho : k.Offset < 2 ^ 64) (hs : k.Size < 2 ^ 32)
    (hc : k.Crc < 2 ^ 32) (rest : List Byte) :
    ExtentKey.UnmarshalBinary
        (putUint32 k.PartitionId ++ putUint64 k.ExtentId ++ putUint64 k.Offset
          ++ putUint32 k.Size ++ putUint32 k.Crc ++ rest) = .ok (k, rest) := by
  unfold ExtentKey.UnmarshalBinary
  simp only [List.append_assoc]
  rw [readUint32_putUint32 _ hp]
  simp only
  rw [readUint64_putUint64 _ he]
  simp only
  rw [readUint64_putUint64 _ ho]
  simp only
  rw [readUint32_putUint32 _ hs]
  simp only
  rw [readUint32_putUint32 _ hc]

/-- Counterexample to C6 as stated: an inode whose only extent has `Size` 0 is marshalled
without its extent list, so `Unmarshal` of `Marshal` returns no error but an inode with
no extents, which differs from the original. -/
theorem Inode_round_trip_counterexample :
    (match Inode.Marshal ExtentKey.MarshalBinary
          { Inode := 5, Typ := 1, Size := 0, Generation := 2, CreateTime := 3, AccessTime := 4,
            ModifyTime := 6, Extents := some ⟨5, [⟨1, 7, 0, 0, 0⟩]⟩ } with
      | .ok raw =>
        Inode.Unmarshal ExtentKey.UnmarshalBinary 2
          { Inode := 0, Typ := 0, Size := 0, Generation := 0, CreateTime := 0, AccessTime := 0,
            ModifyTime := 0, Extents := none } raw
      | .error _ => none)
      = some ({ Inode := 5, Typ := 1, Size := 0, Generation := 2, CreateTime := 3,
                AccessTime := 4, ModifyTime := 6, Extents := some ⟨5, []⟩ }, none)
    ∧ ({ Inode := 5, Typ := 1, Size := 0, Generation := 2, CreateTime := 3,
         AccessTime := 4, ModifyTime := 6, Extents := some ⟨5, []⟩ } : Inode)
      ≠ { Inode := 5, Typ := 1, Size := 0, Generation := 2, CreateTime := 3, AccessTime := 4,
          ModifyTime := 6, Extents := some ⟨5, [⟨1, 7, 0, 0, 0⟩]⟩ } := by
  decide

/-- C6 (amended). Inode round trip: for every inode `x` whose fields fit their Go types,
whose extent list is held in a `StreamKey` with `Inode` field `x.Inode`, whose extent
list is empty or has a non-zero total `Size`, and whose marshalled value is shorter than
`2^32` bytes, and for an extent codec whose records are non-empty, round-trip and consume
exactly their own bytes: `Marshal(x)` succeeds and `Unmarshal` of the result into a fresh
inode (one with a nil or empty extent list) returns no error and yields an inode equal to
`x` in every field, the extent list in the same order. -/
theorem Inode_round_trip (enc : ExtentKey → Except Err (List Byte))
    (dec : List Byte → Except Err (ExtentKey × List Byte)) (record : ExtentKey → List Byte)
    (x i0 : Inode) (sk : StreamKey) (fuel : Nat)
    (hx : x.Extents = some sk) (hino : sk.Inode = x.Inode)
    (hInode : x.Inode < 2 ^ 64) (hTyp : x.Typ < 2 ^ 32) (hSize : x.Size < 2 ^ 64)
    (hGen : x.Generation < 2 ^ 64)
    (hCT : -2 ^ 63 ≤ x.CreateTime ∧ x.CreateTime < 2 ^ 63)
    (hAT : -2 ^ 63 ≤ x.AccessTime ∧ x.AccessTime < 2 ^ 63)
    (hMT : -2 ^ 63 ≤ x.ModifyTime ∧ x.ModifyTime < 2 ^ 63)
    (hcodec : ∀ k ∈ sk.Extents, enc k = .ok (record k) ∧ record k ≠ []
      ∧ ∀ rest, dec (record k ++ rest) = .ok (k, rest))
    (hsize : sk.Extents = [] ∨ sk.Size ≠ 0)
    (hlen : 44 + (sk.Extents.map record).flatten.length < 2 ^ 32)
    (hfresh : ∀ sk0, i0.Extents = some sk0 → sk0.Extents = [])
    (hfuel : sk.Extents.length < fuel) :
    ∃ raw, x.Marshal enc = .ok raw ∧ Inode.Unmarshal dec fuel i0 raw = some (x, none) := by
  obtain ⟨xi, xt, xs, xg, xc, xa, xm, xe⟩ := x
  obtain ⟨ski, skl⟩ := sk
  simp only at hx hino hInode hTyp hSize hGen hCT hAT hMT hcodec hsize hlen hfuel
  subst hx hino
  -- the marshalled value
  have hval : Inode.MarshalValue enc
      { Inode := ski, Typ := xt, Size := xs, Generation := xg, CreateTime := xc,
        AccessTime := xa, ModifyTime := xm, Extents := some ⟨ski, skl⟩ }
      = .ok (putUint32 xt ++ putUint64 xs ++ putUint64 xg ++ putInt64 xc ++ putInt64 xa
          ++ putInt64 xm ++ (skl.map record).flatten) := by
    have hl := MarshalValue_layout_aux enc record ⟨ski, skl⟩ (fun k hk => (hcodec k hk).1)
    rcases hsize with h | h
    · subst h
      simp [Inode.MarshalValue, StreamKey.Size]
    · simp only [Inode.MarshalValue, bne_iff_ne, ne_eq, h, not_false_eq_true, if_true, hl]
  have hvlen : (putUint32 xt ++ putUint64 xs ++ putUint64 xg ++ putInt64 xc ++ putInt64 xa
      ++ putInt64 xm ++ (skl.map record).flatten).length
        = 44 + (skl.map record).flatten.length := by
    simp only [List.length_append, putUint32_length, putUint64_length, putInt64_length]
  obtain ⟨V, hV⟩ : ∃ V, V = putUint32 xt ++ putUint64 xs ++ putUint64 xg ++ putInt64 xc
      ++ putInt64 xa ++ putInt64 xm ++ (skl.map record).flatten := ⟨_, rfl⟩
  rw [← hV] at hval hvlen
  have hV32 : V.length % 2 ^ 32 = V.length := Nat.mod_eq_of_lt (by rw [hvlen]; exact hlen)
  have hM : Inode.Marshal enc
      { Inode := ski, Typ := xt, Size := xs, Generation := xg, CreateTime := xc,
        AccessTime := xa, ModifyTime := xm, Extents := some ⟨ski, skl⟩ }
      = .ok (putUint32 8 ++ putUint64 ski ++ putUint32 V.length ++ V) := by
    simp only [Inode.Marshal, hval, Inode.MarshalKey, putUint64_length, hV32]
    rfl
  refine ⟨_, hM, ?_⟩
  unfold Inode.Unmarshal
  simp only [List.append_assoc]
  rw [readUint32_putUint32 _ (by decide)]
  simp only
  rw [bufRead_append 8 (putUint64 ski) _ rfl (by decide)]
  simp only
  have hkey : Inode.UnmarshalKey i0 (putUint64 ski) = ({ i0 with Inode := ski }, none) := by
    have := readUint64_putUint64 ski hInode []
    simp only [List.append_nil] at this
    simp only [Inode.UnmarshalKey, this]
  rw [hkey]
  simp only
  rw [readUint32_putUint32 _ (by rw [hvlen]; exact hlen)]
  simp only
  have hbuf : bufRead V.length V = .ok (V, []) := by
    have := bufRead_append V.length V [] rfl (by rw [hvlen]; omega)
    simpa using this
  rw [hbuf]
  simp only
  rw [hV, Inode.UnmarshalValue_header dec fuel { i0 with Inode := ski } xt xs xg xc xa xm _
    hTyp hSize hGen hCT hAT hMT (fun sk0 h => hfresh sk0 h)]
  by_cases hE : (skl.map record).flatten.length = 0
  · have hnil : skl = [] := by
      cases skl with
      | nil => rfl
      | cons a rest =>
        have hne := (hcodec a (List.mem_cons_self _ _)).2.1
        have := List.length_pos.mpr hne
        simp only [List.map_cons, List.flatten_cons, List.length_append] at hE
        omega
    subst hnil
    simp [NewStreamKey]
  · rw [StreamKey.UnmarshalBinary_flatten dec record skl (fun k hk => (hcodec k hk).2) fuel hfuel]
    rw [if_neg hE]
    simp only [NewStreamKey, List.nil_append]

/-- Witness for C6: an inode with two extents of sizes 100 and 200 under the 28-byte
record codec, unmarshalled into a zero inode with a nil extent pointer. -/
theorem Inode_round_trip_witness :
    (match Inode.Marshal ExtentKey.MarshalBinary
          { Inode := 5, Typ := 1, Size := 300, Generation := 2, CreateTime := -3,
            AccessTime := 4, ModifyTime := 6,
            Extents := some ⟨5, [⟨1, 7, 0, 100, 0⟩, ⟨1, 8, 100, 200, 9⟩]⟩ } with
      | .ok raw =>
        Inode.Unmarshal ExtentKey.UnmarshalBinary 3
          { Inode := 0, Typ := 0, Size := 0, Generation := 0, CreateTime := 0, AccessTime := 0,
            ModifyTime := 0, Extents := none } raw
      | .error _ => none)
      = some ({ Inode := 5, Typ := 1, Size := 300, Generation := 2, CreateTime := -3,
                AccessTime := 4, ModifyTime := 6,
                Extents := some ⟨5, [⟨1, 7, 0, 100, 0⟩, ⟨1, 8, 100, 200, 9⟩]⟩ }, none) := by
  obtain ⟨raw, h1, h2⟩ := Inode_round_trip ExtentKey.MarshalBinary ExtentKey.UnmarshalBinary
    (fun k => putUint32 k.PartitionId ++ putUint64 k.ExtentId ++ putUint64 k.Offset
      ++ putUint32 k.Size ++ putUint32 k.Crc)
    { Inode := 5, Typ := 1, Size := 300, Generation := 2, CreateTime := -3,
      AccessTime := 4, ModifyTime := 6,
      Extents := some ⟨5, [⟨1, 7, 0, 100, 0⟩, ⟨1, 8, 100, 200, 9⟩]⟩ }
    { Inode := 0, Typ := 0, Size := 0, Generation := 0, CreateTime := 0, AccessTime := 0,
      ModifyTime := 0, Extents := none }
    ⟨5, [⟨1, 7, 0, 100, 0⟩, ⟨1, 8, 100, 200, 9⟩]⟩ 3 rfl rfl (by decide) (by decide) (by decide)
    (by decide) (by decide) (by decide) (by decide)
    (by
      intro k hk
      simp only [List.mem_cons, List.mem_singleton, List.not_mem_nil, or_false] at hk
      rcases hk with rfl | rfl
      · exact ⟨rfl, by decide, fun rest =>
          ExtentKey.codec_round_trip _ (by decide) (by decide) (by decide) (by decide)
            (by decide) rest⟩
      · exact ⟨rfl, by decide, fun rest =>
          ExtentKey.codec_round_trip _ (by decide) (by decide) (by decide) (by decide)
            (by decide) rest⟩)
    (Or.inr (by decide)) (by decide) (by intro sk0 h; simp at h) (by decide)
  rw [h1]
  exact h2

/-! ## Theorems: DataPartition reconciliation -/

theorem DataPartition.checkStatus_Status_ReadWrite (now : Int) (p : DataPartition)
    (needLog : Bool) (timeout : Int)
    (h : (p.checkStatus now needLog timeout).Status = PartitionStatus.ReadWrite) :
    (p.getLiveReplicasByPersistenceHosts now timeout).length = p.ReplicaNum
      ∧ ∀ r ∈ p.getLiveReplicasByPersistenceHosts now timeout,
          r.Status = PartitionStatus.ReadWrite := by
  unfold DataPartition.checkStatus at h
  by_cases hn : (p.getLiveReplicasByPersistenceHosts now timeout).length = p.ReplicaNum
  · by_cases hc : DataPartition.checkReplicaStatusOnLiveNode
        (p.getLiveReplicasByPersistenceHosts now timeout) = true
    · exact ⟨hn, (DataPartition.checkReplicaStatusOnLiveNode_iff _).mp hc⟩
    · simp [hn, hc] at h
  · simp [hn] at h

/-- `checkStatus` changes nothing but `Status`. -/
theorem DataPartition.checkStatus_frame (now : Int) (p : DataPartition) (needLog : Bool)
    (timeout : Int) :
    p.checkStatus now needLog timeout
      = { p with Status := (p.checkStatus now needLog timeout).Status } := by
  unfold DataPartition.checkStatus
  by_cases hn : (p.getLiveReplicasByPersistenceHosts now timeout).length = p.ReplicaNum
  · by_cases hc : DataPartition.checkReplicaStatusOnLiveNode
        (p.getLiveReplicasByPersistenceHosts now timeout) = true
    · simp [hn, hc]
    · simp [hn, hc]
  · simp [hn]

/-- A `filterMap` that keeps the length keeps every element. -/
theorem filterMap_length_eq {α β : Type} (f : α → Option β) (l : List α)
    (h : (l.filterMap f).length = l.length) :
    ∀ a ∈ l, ∃ b, f a = some b ∧ b ∈ l.filterMap f := by
  induction l with
  | nil => intro a ha; simp at ha
  | cons x rest ih =>
    cases hfx : f x with
    | none =>
      have hle := List.length_filterMap_le f rest
      simp only [List.filterMap_cons, hfx, List.length_cons] at h
      omega
    | some b =>
      simp only [List.filterMap_cons, hfx, List.length_cons, Nat.add_right_cancel_iff] at h
      intro a ha
      rcases List.mem_cons.mp ha with rfl | ha
      · exact ⟨b, hfx, by simp [List.filterMap_cons, hfx]⟩
      · obtain ⟨c, hc, hmem⟩ := ih h a ha
        exact ⟨c, hc, by simp only [List.filterMap_cons, hfx]; exact List.mem_cons_of_mem _ hmem⟩

theorem DataReplica.IsLive_report_time (now : Int) (r : DataReplica) (timeout : Int)
    (h : r.IsLive now timeout = true) : now - r.ReportTime < timeout := by
  unfold DataReplica.IsLive at h
  cases hn : r.dataNode with
  | none => simp [hn] at h
  | some node =>
    simp only [hn, Bool.and_eq_true, decide_eq_true_eq] at h
    exact h.2

/-- Counterexample to C11 as stated: with `ReplicaNum = 1` and two persistence hosts, one
live `ReadWrite` replica makes `checkStatus` set `ReadWrite` although host `B` has no
replica record. -/
theorem checkStatus_readwrite_hosts_counterexample :
    (DataPartition.checkStatus 100
        { PartitionID := 1, ReplicaNum := 1, Status := PartitionStatus.ReadOnly,
          PersistenceHosts := ["A", "B"],
          Replicas := [⟨"A", PartitionStatus.ReadWrite, 95, some ⟨true, 95⟩⟩],
          MissNodes := [], isRecover := false } false 10).Status = PartitionStatus.ReadWrite
      ∧ DataPartition.IsInReplicas
          (DataPartition.checkStatus 100
            { PartitionID := 1, ReplicaNum := 1, Status := PartitionStatus.ReadOnly,
              PersistenceHosts := ["A", "B"],
              Replicas := [⟨"A", PartitionStatus.ReadWrite, 95, some ⟨true, 95⟩⟩],
              MissNodes := [], isRecover := false } false 10) "B" = none := by
  decide

/-- C11 (amended). For every DataPartition whose `PersistenceHosts` has at most
`ReplicaNum` addresses: if `Status` is `ReadWrite` after `checkStatus`, then every address
in `PersistenceHosts` has a replica record whose `Status` is `ReadWrite` and which is live
(`now − report_time < timeout`). -/
theorem checkStatus_readwrite_hosts_live (now : Int) (p : DataPartition) (needLog : Bool)
    (timeout : Int) (hlen : p.PersistenceHosts.length ≤ p.ReplicaNum)
    (hrw : (p.checkStatus now needLog timeout).Status = PartitionStatus.ReadWrite) :
    ∀ addr ∈ (p.checkStatus now needLog timeout).PersistenceHosts,
      ∃ r, (p.checkStatus now needLog timeout).IsInReplicas addr = some r
        ∧ r.Status = PartitionStatus.ReadWrite
        ∧ r.IsLive now timeout = true
        ∧ now - r.ReportTime < timeout := by
  obtain ⟨hn, hall⟩ := DataPartition.checkStatus_Status_ReadWrite now p needLog timeout hrw
  have hframe := DataPartition.checkStatus_frame now p needLog timeout
  have hhosts : (p.checkStatus now needLog timeout).PersistenceHosts = p.PersistenceHosts := by
    rw [hframe]
  have hrep : ∀ addr, (p.checkStatus now needLog timeout).IsInReplicas addr
      = p.IsInReplicas addr := by
    intro addr
    rw [hframe]
    rfl
  rw [hhosts]
  have hle : (p.getLiveReplicasByPersistenceHosts now timeout).length
      ≤ p.PersistenceHosts.length := by
    unfold DataPartition.getLiveReplicasByPersistenceHosts
    exact List.length_filterMap_le _ _
  have heq : (p.getLiveReplicasByPersistenceHosts now timeout).length
      = p.PersistenceHosts.length := by omega
  unfold DataPartition.getLiveReplicasByPersistenceHosts at heq hall
  intro addr haddr
  obtain ⟨r, hr, hmem⟩ := filterMap_length_eq _ p.PersistenceHosts heq addr haddr
  rw [hrep]
  cases hin : p.IsInReplicas addr with
  | none => simp [hin] at hr
  | some r0 =>
    simp only [hin] at hr
    by_cases hlive : r0.IsLive now timeout = true
    · simp only [hlive, if_true, Option.some.injEq] at hr
      subst hr
      exact ⟨r0, rfl, hall r0 hmem, hlive, DataReplica.IsLive_report_time now r0 timeout hlive⟩
    · simp [hlive] at hr

/-- Witness for C11: one persistence host, `ReplicaNum = 1`, its replica live and
`ReadWrite`. -/
theorem checkStatus_readwrite_hosts_live_witness :
    ∃ r, DataPartition.IsInReplicas
        (DataPartition.checkStatus 100
          { PartitionID := 1, ReplicaNum := 1, Status := PartitionStatus.ReadOnly,
            PersistenceHosts := ["A"],
            Replicas := [⟨"A", PartitionStatus.ReadWrite, 95, some ⟨true, 95⟩⟩],
            MissNodes := [], isRecover := false } false 10) "A" = some r
      ∧ r.Status = PartitionStatus.ReadWrite
      ∧ r.IsLive 100 10 = true
      ∧ (100 : Int) - r.ReportTime < 10 :=
  checkStatus_readwrite_hosts_live 100
    { PartitionID := 1, ReplicaNum := 1, Status := PartitionStatus.ReadOnly,
      PersistenceHosts := ["A"],
      Replicas := [⟨"A", PartitionStatus.ReadWrite, 95, some ⟨true, 95⟩⟩],
      MissNodes := [], isRecover := false } false 10 (by decide) (by decide) "A" (by decide)

theorem DataPartition.isInPersistenceHosts_iff (p : DataPartition) (addr : String) :
    p.isInPersistenceHosts addr = true ↔ addr ∈ p.PersistenceHosts := by
  simp [DataPartition.isInPersistenceHosts]

/-- The excess loop stops at the first replica whose address is not a persistence host. -/
theorem DataPartition.deleteExcessLoop_split (p : DataPartition) (pre post : List DataReplica)
    (rep : DataReplica) (hpre : ∀ x ∈ pre, x.Addr ∈ p.PersistenceHosts)
    (hrep : rep.Addr ∉ p.PersistenceHosts) :
    DataPartition.deleteExcessLoop p (pre ++ rep :: post)
      = { excessAddr := rep.Addr, task := some (p.GenerateDeleteTask rep.Addr),
          err := some MasterError.DataReplicaExcessError } := by
  induction pre with
  | nil =>
    have : p.isInPersistenceHosts rep.Addr = false := by
      rw [← Bool.not_eq_true, DataPartition.isInPersistenceHosts_iff]; exact hrep
    simp [DataPartition.deleteExcessLoop, this]
  | cons a rest ih =>
    have ha : p.isInPersistenceHosts a.Addr = true :=
      (DataPartition.isInPersistenceHosts_iff p a.Addr).mpr (hpre a (List.mem_cons_self _ _))
    have := ih (fun x hx => hpre x (List.mem_cons_of_mem _ hx))
    simp [DataPartition.deleteExcessLoop, ha, this]

theorem DataPartition.deleteExcessLoop_none (p : DataPartition) (l : List DataReplica)
    (h : ∀ x ∈ l, x.Addr ∈ p.PersistenceHosts) :
    DataPartition.deleteExcessLoop p l = { excessAddr := "", task := none, err := none } := by
  induction l with
  | nil => rfl
  | cons a rest ih =>
    have ha : p.isInPersistenceHosts a.Addr = true :=
      (DataPartition.isInPersistenceHosts_iff p a.Addr).mpr (h a (List.mem_cons_self _ _))
    simp [DataPartition.deleteExcessLoop, ha, ih (fun x hx => h x (List.mem_cons_of_mem _ hx))]

/-- A list with an element satisfying `q` splits at the first such element. -/
theorem exists_first_split {α : Type} (q : α → Prop) [DecidablePred q] (l : List α)
    (h : ∃ x ∈ l, q x) :
    ∃ pre x post, l = pre ++ x :: post ∧ (∀ y ∈ pre, ¬ q y) ∧ q x := by
  induction l with
  | nil => simp at h
  | cons a rest ih =>
    by_cases ha : q a
    · exact ⟨[], a, rest, rfl, by simp, ha⟩
    · have h' : ∃ x ∈ rest, q x := by
        obtain ⟨x, hx, hq⟩ := h
        rcases List.mem_cons.mp hx with rfl | hx
        · exact absurd hq ha
        · exact ⟨x, hx, hq⟩
      obtain ⟨pre, x, post, hl, hpre, hx⟩ := ih h'
      refine ⟨a :: pre, x, post, by simp [hl], ?_, hx⟩
      intro y hy
      rcases List.mem_cons.mp hy with rfl | hy
      · exact ha
      · exact hpre y hy

/-- What `deleteExcessReplication` returns, by cases on whether some replica is excess. -/
theorem DataPartition.deleteExcessReplication_cases (p : DataPartition) :
    ((∀ x ∈ p.Replicas, x.Addr ∈ p.PersistenceHosts)
        ∧ p.deleteExcessReplication = { excessAddr := "", task := none, err := none })
      ∨ ∃ pre rep post, p.Replicas = pre ++ rep :: post
          ∧ (∀ x ∈ pre, x.Addr ∈ p.PersistenceHosts)
          ∧ rep.Addr ∉ p.PersistenceHosts
          ∧ p.deleteExcessReplication
              = { excessAddr := rep.Addr, task := some (p.GenerateDeleteTask rep.Addr),
                  err := some MasterError.DataReplicaExcessError } := by
  by_cases h : ∃ x ∈ p.Replicas, x.Addr ∉ p.PersistenceHosts
  · right
    obtain ⟨pre, rep, post, hl, hpre, hrep⟩ :=
      exists_first_split (fun x : DataReplica => x.Addr ∉ p.PersistenceHosts) p.Replicas h
    refine ⟨pre, rep, post, hl, fun x hx => by simpa using hpre x hx, hrep, ?_⟩
    unfold DataPartition.deleteExcessReplication
    rw [hl]
    exact DataPartition.deleteExcessLoop_split p pre post rep
      (fun x hx => by simpa using hpre x hx) hrep
  · left
    have h' : ∀ x ∈ p.Replicas, x.Addr ∈ p.PersistenceHosts := by
      intro x hx
      by_contra hc
      exact h ⟨x, hx, hc⟩
    exact ⟨h', DataPartition.deleteExcessLoop_none p p.Replicas h'⟩

theorem DataPartition.addLackLoop_split (p : DataPartition) (pre post : List String)
    (addr : String) (hpre : ∀ a ∈ pre, p.IsInReplicas a ≠ none)
    (haddr : p.IsInReplicas addr = none) :
    DataPartition.addLackLoop p (pre ++ addr :: post)
      = { partition := { p with isRecover := true },
          t := some (p.generateCreateTask addr), lackAddr := addr,
          err := some MasterError.DataReplicaLackError } := by
  induction pre with
  | nil => simp [DataPartition.addLackLoop, haddr]
  | cons a rest ih =>
    have ha := hpre a (List.mem_cons_self _ _)
    have := ih (fun x hx => hpre x (List.mem_cons_of_mem _ hx))
    cases hin : p.IsInReplicas a with
    | none => exact absurd hin ha
    | some r => simp [DataPartition.addLackLoop, hin, this]

theorem DataPartition.addLackLoop_none (p : DataPartition) (l : List String)
    (h : ∀ a ∈ l, p.IsInReplicas a ≠ none) :
    DataPartition.addLackLoop p l
      = { partition := p, t := none, lackAddr := "", err := none } := by
  induction l with
  | nil => rfl
  | cons a rest ih =>
    have ha := h a (List.mem_cons_self _ _)
    cases hin : p.IsInReplicas a with
    | none => exact absurd hin ha
    | some r =>
      simp [DataPartition.addLackLoop, hin, ih (fun x hx => h x (List.mem_cons_of_mem _ hx))]

/-- What `addLackReplication` returns, by cases on whether some persistence host lacks a
replica record. -/
theorem DataPartition.addLackReplication_cases (p : DataPartition) :
    ((∀ a ∈ p.PersistenceHosts, p.IsInReplicas a ≠ none)
        ∧ p.addLackReplication = { partition := p, t := none, lackAddr := "", err := none })
      ∨ ∃ pre addr post, p.PersistenceHosts = pre ++ addr :: post
          ∧ (∀ a ∈ pre, p.IsInReplicas a ≠ none)
          ∧ p.IsInReplicas addr = none
          ∧ p.addLackReplication
              = { partition := { p with isRecover := true },
                  t := some (p.generateCreateTask addr), lackAddr := addr,
                  err := some MasterError.DataReplicaLackError } := by
  by_cases h : ∃ a ∈ p.PersistenceHosts, p.IsInReplicas a = none
  · right
    obtain ⟨pre, addr, post, hl, hpre, haddr⟩ :=
      exists_first_split (fun a : String => p.IsInReplicas a = none) p.PersistenceHosts h
    refine ⟨pre, addr, post, hl, hpre, haddr, ?_⟩
    unfold DataPartition.addLackReplication
    have := DataPartition.addLackLoop_split p pre post addr hpre haddr
    rw [← hl] at this
    exact this
  · left
    have h' : ∀ a ∈ p.PersistenceHosts, p.IsInReplicas a ≠ none := by
      intro a ha hc
      exact h ⟨a, ha, hc⟩
    exact ⟨h', DataPartition.addLackLoop_none p p.PersistenceHosts h'⟩

/-- Two splits of a list at the first element satisfying `q` coincide. -/
theorem first_split_unique {α : Type} (q : α → Prop) (pre pre' post post' : List α) (x x' : α)
    (h : pre ++ x :: post = pre' ++ x' :: post')
    (hpre : ∀ y ∈ pre, ¬ q y) (hx : q x) (hpre' : ∀ y ∈ pre', ¬ q y) (hx' : q x') :
    pre = pre' ∧ x = x' ∧ post = post' := by
  induction pre generalizing pre' with
  | nil =>
    cases pre' with
    | nil => simpa using h
    | cons b rest' =>
      simp only [List.nil_append, List.cons_append, List.cons.injEq] at h
      exact absurd (h.1 ▸ hx) (hpre' b (List.mem_cons_self _ _))
  | cons a rest ih =>
    cases pre' with
    | nil =>
      simp only [List.nil_append, List.cons_append, List.cons.injEq] at h
      exact absurd (h.1 ▸ hx') (hpre a (List.mem_cons_self _ _))
    | cons b rest' =>
      simp only [List.cons_append, List.cons.injEq] at h
      obtain ⟨h1, h2, h3⟩ := ih rest' h.2 (fun y hy => hpre y (List.mem_cons_of_mem _ hy))
        (fun y hy => hpre' y (List.mem_cons_of_mem _ hy))
      exact ⟨by rw [h.1, h1], h2, h3⟩

/-- C12. Excess detection: `deleteExcessReplication` returns `DataReplicaExcessError` iff
some replica's address is not in `PersistenceHosts`; then the returned address and the
`DeleteDataPartition` task are those of the first such replica in `Replicas` order;
otherwise it returns no task and a nil error; `checkReplicationTask` leaves `Replicas`
and `PersistenceHosts` unchanged and returns at most one delete task. -/
theorem deleteExcessReplication_detects_excess (p : DataPartition) :
    (p.deleteExcessReplication.err = some MasterError.DataReplicaExcessError
        ↔ ∃ rep ∈ p.Replicas, rep.Addr ∉ p.PersistenceHosts)
      ∧ (∀ pre rep post, p.Replicas = pre ++ rep :: post
          → (∀ x ∈ pre, x.Addr ∈ p.PersistenceHosts) → rep.Addr ∉ p.PersistenceHosts
          → p.deleteExcessReplication
              = { excessAddr := rep.Addr,
                  task := some { OpCode := OpCode.OpDeleteDataPartition,
                                 OperatorAddr := rep.Addr, PartitionID := p.PartitionID,
                                 End := none },
                  err := some MasterError.DataReplicaExcessError })
      ∧ ((∀ rep ∈ p.Replicas, rep.Addr ∈ p.PersistenceHosts)
          → p.deleteExcessReplication.task = none ∧ p.deleteExcessReplication.err = none)
      ∧ p.checkReplicationTask.1.Replicas = p.Replicas
      ∧ p.checkReplicationTask.1.PersistenceHosts = p.PersistenceHosts
      ∧ (p.checkReplicationTask.2.filter AdminTask.isDeleteDataPartition).length ≤ 1 := by
  refine ⟨?_, ?_, ?_, ?_, ?_, ?_⟩
  · rcases DataPartition.deleteExcessReplication_cases p with ⟨hall, he⟩ | ⟨pre, rep, post, hl, _, hrep, he⟩
    · rw [he]
      constructor
      · intro h; simp at h
      · rintro ⟨rep, hmem, hrep⟩
        exact absurd (hall rep hmem) hrep
    · rw [he]
      constructor
      · intro _
        exact ⟨rep, by rw [hl]; simp, hrep⟩
      · intro _; rfl
  · intro pre rep post hl hpre hrep
    unfold DataPartition.deleteExcessReplication
    rw [hl]
    exact DataPartition.deleteExcessLoop_split p pre post rep hpre hrep
  · intro hall
    unfold DataPartition.deleteExcessReplication
    rw [DataPartition.deleteExcessLoop_none p p.Replicas hall]
    exact ⟨rfl, rfl⟩
  all_goals
    unfold DataPartition.checkReplicationTask
    rcases DataPartition.deleteExcessReplication_cases p with ⟨_, he⟩ | ⟨_, _, _, _, _, _, he⟩ <;>
    rcases DataPartition.addLackReplication_cases p with ⟨_, hk⟩ | ⟨_, _, _, _, _, _, hk⟩ <;>
    by_cases hs : p.Status = PartitionStatus.ReadWrite <;>
    simp [he, hk, hs, DataPartition.setToNormal, AdminTask.isDeleteDataPartition,
      DataPartition.GenerateDeleteTask, DataPartition.generateCreateTask]

/-- C13. Lack detection: the tasks returned by `checkReplicationTask` contain a
`CreateDataPartition` task iff `Status` is not `ReadWrite` and some address in
`PersistenceHosts` has no replica record; then there is exactly one such task, addressed
to the first such address in `PersistenceHosts` order, and `isRecover` is true afterwards;
when `Status` is `ReadWrite` no create task is returned and `isRecover` is unchanged. -/
theorem checkReplicationTask_detects_lack (p : DataPartition) :
    ((∃ t ∈ p.checkReplicationTask.2, AdminTask.isCreateDataPartition t = true)
        ↔ p.Status ≠ PartitionStatus.ReadWrite
          ∧ ∃ addr ∈ p.PersistenceHosts, p.IsInReplicas addr = none)
      ∧ (p.Status ≠ PartitionStatus.ReadWrite
          → ∀ pre addr post, p.PersistenceHosts = pre ++ addr :: post
            → (∀ a ∈ pre, p.IsInReplicas a ≠ none) → p.IsInReplicas addr = none
            → p.checkReplicationTask.2.filter AdminTask.isCreateDataPartition
                = [some { OpCode := OpCode.OpCreateDataPartition, OperatorAddr := addr,
                          PartitionID := p.PartitionID, End := none }]
              ∧ p.checkReplicationTask.1.isRecover = true)
      ∧ (p.Status = PartitionStatus.ReadWrite
          → p.checkReplicationTask.2.filter AdminTask.isCreateDataPartition = []
            ∧ p.checkReplicationTask.1.isRecover = p.isRecover) := by
  refine ⟨?_, ?_, ?_⟩
  · unfold DataPartition.checkReplicationTask
    rcases DataPartition.deleteExcessReplication_cases p with ⟨_, he⟩ | ⟨_, _, _, _, _, _, he⟩ <;>
    rcases DataPartition.addLackReplication_cases p with ⟨hall, hk⟩ | ⟨pre, addr, post, hl, _, haddr, hk⟩ <;>
    by_cases hs : p.Status = PartitionStatus.ReadWrite
    all_goals
      first
      | (have hex : ∃ addr ∈ p.PersistenceHosts, p.IsInReplicas addr = none :=
            ⟨addr, by rw [hl]; simp, haddr⟩
         simp [he, hk, hs, DataPartition.setToNormal, AdminTask.isCreateDataPartition,
            DataPartition.GenerateDeleteTask, DataPartition.generateCreateTask, hex])
      | (have hnex : ¬ ∃ addr ∈ p.PersistenceHosts, p.IsInReplicas addr = none := by
            rintro ⟨a, ha, hn⟩; exact hall a ha hn
         simp [he, hk, hs, DataPartition.setToNormal, AdminTask.isCreateDataPartition,
            DataPartition.GenerateDeleteTask, DataPartition.generateCreateTask, hnex])
  · intro hs pre addr post hl hpre haddr
    have hk : p.addLackReplication
        = { partition := { p with isRecover := true },
            t := some (p.generateCreateTask addr), lackAddr := addr,
            err := some MasterError.DataReplicaLackError } := by
      have := DataPartition.addLackLoop_split p pre post addr hpre haddr
      rw [← hl] at this
      exact this
    unfold DataPartition.checkReplicationTask
    rcases DataPartition.deleteExcessReplication_cases p with ⟨_, he⟩ | ⟨_, _, _, _, _, _, he⟩ <;>
    simp [he, hk, hs, AdminTask.isCreateDataPartition, DataPartition.GenerateDeleteTask,
      DataPartition.generateCreateTask]
  · intro hs
    unfold DataPartition.checkReplicationTask
    rcases DataPartition.deleteExcessReplication_cases p with ⟨_, he⟩ | ⟨_, _, _, _, _, _, he⟩ <;>
    simp [he, hs, AdminTask.isCreateDataPartition, DataPartition.GenerateDeleteTask]

/-- Counterexample to C14 as stated: a `ReadWrite` partition with neither excess nor lack
and `isRecover = true` returns no tasks but keeps `isRecover = true`. -/
theorem checkReplicationTask_normal_counterexample :
    DataPartition.checkReplicationTask
        { PartitionID := 1, ReplicaNum := 1, Status := PartitionStatus.ReadWrite,
          PersistenceHosts := ["A"],
          Replicas := [⟨"A", PartitionStatus.ReadWrite, 95, some ⟨true, 95⟩⟩],
          MissNodes := [], isRecover := true }
      = ({ PartitionID := 1, ReplicaNum := 1, Status := PartitionStatus.ReadWrite,
           PersistenceHosts := ["A"],
           Replicas := [⟨"A", PartitionStatus.ReadWrite, 95, some ⟨true, 95⟩⟩],
           MissNodes := [], isRecover := true }, [])
    ∧ (DataPartition.checkReplicationTask
        { PartitionID := 1, ReplicaNum := 1, Status := PartitionStatus.ReadWrite,
          PersistenceHosts := ["A"],
          Replicas := [⟨"A", PartitionStatus.ReadWrite, 95, some ⟨true, 95⟩⟩],
          MissNodes := [], isRecover := true }).1.isRecover ≠ false := by
  decide

/-- C14 (amended). For every DataPartition that has neither excess nor lack (every
replica's address is in `PersistenceHosts` and every address in `PersistenceHosts` has a
replica record), whatever its previous `isRecover`, `checkReplicationTask` returns no
tasks; `isRecover` is false afterwards when `Status` is not `ReadWrite`, and is left
unchanged when `Status` is `ReadWrite`. -/
theorem checkReplicationTask_normal (p : DataPartition)
    (hexcess : ∀ rep ∈ p.Replicas, rep.Addr ∈ p.PersistenceHosts)
    (hlack : ∀ addr ∈ p.PersistenceHosts, p.IsInReplicas addr ≠ none) :
    p.checkReplicationTask.2 = []
      ∧ (p.Status ≠ PartitionStatus.ReadWrite → p.checkReplicationTask.1.isRecover = false)
      ∧ (p.Status = PartitionStatus.ReadWrite
          → p.checkReplicationTask.1.isRecover = p.isRecover) := by
  have he : p.deleteExcessReplication = { excessAddr := "", task := none, err := none } :=
    DataPartition.deleteExcessLoop_none p p.Replicas hexcess
  have hk : p.addLackReplication = { partition := p, t := none, lackAddr := "", err := none } :=
    DataPartition.addLackLoop_none p p.PersistenceHosts hlack
  unfold DataPartition.checkReplicationTask
  by_cases hs : p.Status = PartitionStatus.ReadWrite <;>
    simp [he, hk, hs, DataPartition.setToNormal]

/-- Witness for C14: a `ReadOnly` partition with one host and its replica, `isRecover`
true before the call. -/
theorem checkReplicationTask_normal_witness :
    (DataPartition.checkReplicationTask
        { PartitionID := 1, ReplicaNum := 1, Status := PartitionStatus.ReadOnly,
          PersistenceHosts := ["A"],
          Replicas := [⟨"A", PartitionStatus.ReadWrite, 95, some ⟨true, 95⟩⟩],
          MissNodes := [], isRecover := true }).2 = []
      ∧ (DataPartition.checkReplicationTask
        { PartitionID := 1, ReplicaNum := 1, Status := PartitionStatus.ReadOnly,
          PersistenceHosts := ["A"],
          Replicas := [⟨"A", PartitionStatus.ReadWrite, 95, some ⟨true, 95⟩⟩],
          MissNodes := [], isRecover := true }).1.isRecover = false :=
  have h := checkReplicationTask_normal
    { PartitionID := 1, ReplicaNum := 1, Status := PartitionStatus.ReadOnly,
      PersistenceHosts := ["A"],
      Replicas := [⟨"A", PartitionStatus.ReadWrite, 95, some ⟨true, 95⟩⟩],
      MissNodes := [], isRecover := true } (by decide) (by decide)
  ⟨h.1, h.2.1 (by decide)⟩

theorem DataPartition.diskErrorLoop_eq_filter (p : DataPartition) (l : List String) :
    DataPartition.diskErrorLoop p l
      = l.filter (fun addr =>
          match p.IsInReplicas addr with
          | some replica => replica.Status == PartitionStatus.Unavaliable
          | none => false) := by
  induction l with
  | nil => rfl
  | cons a rest ih =>
    cases hin : p.IsInReplicas a with
    | none => simp [DataPartition.diskErrorLoop, hin, ih, List.filter_cons]
    | some r =>
      by_cases hs : r.Status = PartitionStatus.Unavaliable
      · simp [DataPartition.diskErrorLoop, hin, ih, List.filter_cons, hs]
      · simp [DataPartition.diskErrorLoop, hin, ih, List.filter_cons, hs]

/-- The outcome of `checkDiskError` with the test of the code: `diskErrorAddrs` is the
list of the persistence hosts whose replica record is `Unavaliable`, and `Status` becomes
`ReadOnly` iff its length is positive and differs from `ReplicaNum`. -/
theorem DataPartition.checkDiskError_cases (p : DataPartition) :
    p.checkDiskError.2
        = p.PersistenceHosts.filter (fun addr =>
            match p.IsInReplicas addr with
            | some replica => replica.Status == PartitionStatus.Unavaliable
            | none => false)
      ∧ (0 < p.checkDiskError.2.length ∧ p.checkDiskError.2.length ≠ p.ReplicaNum
          → p.checkDiskError.1 = { p with Status := PartitionStatus.ReadOnly })
      ∧ (¬(0 < p.checkDiskError.2.length ∧ p.checkDiskError.2.length ≠ p.ReplicaNum)
          → p.checkDiskError.1 = p) := by
  have h2 : p.checkDiskError.2 = DataPartition.diskErrorLoop p p.PersistenceHosts := rfl
  refine ⟨?_, ?_, ?_⟩
  · rw [h2, DataPartition.diskErrorLoop_eq_filter]
  · rw [h2]
    intro ⟨hpos, hne⟩
    simp [DataPartition.checkDiskError, hne, hpos]
  · rw [h2]
    intro hn
    unfold DataPartition.checkDiskError
    by_cases hpos : 0 < (DataPartition.diskErrorLoop p p.PersistenceHosts).length
    · have heq : (DataPartition.diskErrorLoop p p.PersistenceHosts).length = p.ReplicaNum := by
        by_contra hne
        exact hn ⟨hpos, hne⟩
      simp [heq]
    · simp [hpos]

/-- Under the invariant that at most `ReplicaNum` persistence hosts have a replica record,
`diskErrorAddrs` has at most `ReplicaNum` addresses. -/
theorem DataPartition.checkDiskError_length_le (p : DataPartition)
    (hinv : (p.PersistenceHosts.filter
        (fun addr => (p.IsInReplicas addr).isSome)).length ≤ p.ReplicaNum) :
    p.checkDiskError.2.length ≤ p.ReplicaNum := by
  rw [(DataPartition.checkDiskError_cases p).1]
  refine le_trans (List.Sublist.length_le (List.monotone_filter_right _ ?_)) hinv
  intro addr h
  cases hin : p.IsInReplicas addr with
  | none => rw [hin] at h; exact absurd h (by simp)
  | some r => rfl

/-- Outside that invariant the test `len(diskErrorAddrs) != ReplicaNum` also holds for a
longer list: with `ReplicaNum = 1` and two persistence hosts whose replicas are both
`Unavaliable`, `checkDiskError` sets a `ReadWrite` partition to `ReadOnly`. -/
theorem DataPartition.checkDiskError_above_ReplicaNum :
    DataPartition.checkDiskError
        { PartitionID := 1, ReplicaNum := 1, Status := PartitionStatus.ReadWrite,
          PersistenceHosts := ["A", "B"],
          Replicas := [⟨"A", PartitionStatus.Unavaliable, 95, some ⟨true, 95⟩⟩,
                       ⟨"B", PartitionStatus.Unavaliable, 95, some ⟨true, 95⟩⟩],
          MissNodes := [], isRecover := false }
      = ({ PartitionID := 1, ReplicaNum := 1, Status := PartitionStatus.ReadOnly,
           PersistenceHosts := ["A", "B"],
           Replicas := [⟨"A", PartitionStatus.Unavaliable, 95, some ⟨true, 95⟩⟩,
                        ⟨"B", PartitionStatus.Unavaliable, 95, some ⟨true, 95⟩⟩],
           MissNodes := [], isRecover := false }, ["A", "B"]) := by
  decide

/-- C15. `DataPartition.checkDiskError`, for a DataPartition in which at most `ReplicaNum`
persistence hosts have a replica record (the invariant
`|replicas ∩ persistence_hosts| ≤ replica_num`): the returned `diskErrorAddrs` is exactly
the list, in `PersistenceHosts` order, of the persistence-host addresses whose replica
record has `Status` `Unavaliable`; with `n` its length the call sets `Status` to
`ReadOnly` iff `0 < n < ReplicaNum`, and otherwise leaves the partition unchanged, in
particular when `n = ReplicaNum`. -/
theorem checkDiskError_collects_unavailable (p : DataPartition)
    (hinv : (p.PersistenceHosts.filter
        (fun addr => (p.IsInReplicas addr).isSome)).length ≤ p.ReplicaNum) :
    p.checkDiskError.2
        = p.PersistenceHosts.filter (fun addr =>
            match p.IsInReplicas addr with
            | some replica => replica.Status == PartitionStatus.Unavaliable
            | none => false)
      ∧ (0 < p.checkDiskError.2.length ∧ p.checkDiskError.2.length < p.ReplicaNum
          → p.checkDiskError.1 = { p with Status := PartitionStatus.ReadOnly })
      ∧ (¬(0 < p.checkDiskError.2.length ∧ p.checkDiskError.2.length < p.ReplicaNum)
          → p.checkDiskError.1 = p)
      ∧ (p.checkDiskError.2.length = p.ReplicaNum → p.checkDiskError.1 = p) := by
  have hle := DataPartition.checkDiskError_length_le p hinv
  obtain ⟨h1, h2, h3⟩ := DataPartition.checkDiskError_cases p
  refine ⟨h1, ?_, ?_, ?_⟩
  · rintro ⟨hpos, hlt⟩
    exact h2 ⟨hpos, by omega⟩
  · intro hn
    apply h3
    rintro ⟨hpos, hne⟩
    exact hn ⟨hpos, by omega⟩
  · intro heq
    apply h3
    rintro ⟨_, hne⟩
    exact hne heq

/-- Witness for C15: `ReplicaNum = 3`, persistence hosts `A`, `B`, `C`, each with a replica
record, the one on `B` being `Unavaliable`: `diskErrorAddrs` is `[B]` and the `ReadWrite`
partition becomes `ReadOnly`. -/
theorem checkDiskError_collects_unavailable_witness :
    (DataPartition.checkDiskError
        { PartitionID := 1, ReplicaNum := 3, Status := PartitionStatus.ReadWrite,
          PersistenceHosts := ["A", "B", "C"],
          Replicas := [⟨"A", PartitionStatus.ReadWrite, 95, some ⟨true, 95⟩⟩,
                       ⟨"B", PartitionStatus.Unavaliable, 95, some ⟨true, 95⟩⟩,
                       ⟨"C", PartitionStatus.ReadWrite, 95, some ⟨true, 95⟩⟩],
          MissNodes := [], isRecover := false }).2 = ["B"]
    ∧ (DataPartition.checkDiskError
        { PartitionID := 1, ReplicaNum := 3, Status := PartitionStatus.ReadWrite,
          PersistenceHosts := ["A", "B", "C"],
          Replicas := [⟨"A", PartitionStatus.ReadWrite, 95, some ⟨true, 95⟩⟩,
                       ⟨"B", PartitionStatus.Unavaliable, 95, some ⟨true, 95⟩⟩,
                       ⟨"C", PartitionStatus.ReadWrite, 95, some ⟨true, 95⟩⟩],
          MissNodes := [], isRecover := false }).1.Status = PartitionStatus.ReadOnly :=
  have h := checkDiskError_collects_unavailable
    { PartitionID := 1, ReplicaNum := 3, Status := PartitionStatus.ReadWrite,
      PersistenceHosts := ["A", "B", "C"],
      Replicas := [⟨"A", PartitionStatus.ReadWrite, 95, some ⟨true, 95⟩⟩,
                   ⟨"B", PartitionStatus.Unavaliable, 95, some ⟨true, 95⟩⟩,
                   ⟨"C", PartitionStatus.ReadWrite, 95, some ⟨true, 95⟩⟩],
      MissNodes := [], isRecover := false } (by decide)
  ⟨h.1.trans (by decide), by rw [h.2.1 (by decide)]⟩

/-! ## Theorems: MetaPartition -/

/-- C16 (failing input). `MetaPartition.checkStatus` with a majority of live replicas and
no leader: one live `ReadWrite` replica that is not leader and `replicaNum = 1`. The call
returns with `Status` equal to that replica's `Status`, `ReadWrite`, not `Unavaliable`. -/
theorem MetaPartition_checkStatus_no_leader :
    MetaPartition.getLeaderMetaReplica
        { PartitionID := 1, Start := 0, End := 100, MaxNodeID := 5,
          Replicas := [⟨"A", 0, 100, 1, 100, ReadWrite, false, some ⟨1, "A", true, 100⟩⟩],
          ReplicaNum := 1, Status := Unavaliable, volName := "v", PersistenceHosts := ["A"],
          Peers := [], MissNodes := [] }
      = (some ⟨"A", 0, 100, 1, 100, ReadWrite, false, some ⟨1, "A", true, 100⟩⟩,
         some MasterError.NoLeader)
    ∧ MetaPartition.checkStatus 101 10
        { PartitionID := 1, Start := 0, End := 100, MaxNodeID := 5,
          Replicas := [⟨"A", 0, 100, 1, 100, ReadWrite, false, some ⟨1, "A", true, 100⟩⟩],
          ReplicaNum := 1, Status := Unavaliable, volName := "v", PersistenceHosts := ["A"],
          Peers := [], MissNodes := [] } false 1
      = .ok { PartitionID := 1, Start := 0, End := 100, MaxNodeID := 5,
              Replicas := [⟨"A", 0, 100, 1, 100, ReadWrite, false, some ⟨1, "A", true, 100⟩⟩],
              ReplicaNum := 1, Status := ReadWrite, volName := "v",
              PersistenceHosts := ["A"], Peers := [], MissNodes := [] }
    ∧ ReadWrite ≠ Unavaliable := by
  decide

/-- C17 (failing input). `MetaPartition.canOffline` on a partition with `ReplicaNum = 1`
and one live replica, called with `replicaNum = 5`: the live count 1 is below
`5/2 + 1 = 3`, yet `hasMajorityReplicas` compares with `mp.ReplicaNum/2 + 1 = 1` and the
call returns nil instead of `NoHaveMajorityReplica`. -/
theorem MetaPartition_canOffline_ignores_replicaNum :
    MetaPartition.getLiveReplica 101 10
        { PartitionID := 1, Start := 0, End := 100, MaxNodeID := 5,
          Replicas := [⟨"A", 0, 100, 1, 100, ReadWrite, true, some ⟨1, "A", true, 100⟩⟩],
          ReplicaNum := 1, Status := ReadWrite, volName := "v", PersistenceHosts := ["A"],
          Peers := [], MissNodes := [] }
      = .ok [⟨"A", 0, 100, 1, 100, ReadWrite, true, some ⟨1, "A", true, 100⟩⟩]
    ∧ ((1 : Int) < Int.tdiv 5 2 + 1)
    ∧ MetaPartition.canOffline 101 10
        { PartitionID := 1, Start := 0, End := 100, MaxNodeID := 5,
          Replicas := [⟨"A", 0, 100, 1, 100, ReadWrite, true, some ⟨1, "A", true, 100⟩⟩],
          ReplicaNum := 1, Status := ReadWrite, volName := "v", PersistenceHosts := ["A"],
          Peers := [], MissNodes := [] } "B" 5
      = .ok none := by
  decide

/-- C18 (failing input). `MetaPartition.canOffline("B", 3)` on a partition with
`ReplicaNum = 1`: with live set `{A}` it returns nil, and with the superset `{A, B}` (the
node of `B` now active, all else equal) it returns the quorum-loss error. -/
theorem MetaPartition_canOffline_not_monotone :
    MetaPartition.canOffline 101 10
        { PartitionID := 1, Start := 0, End := 100, MaxNodeID := 5,
          Replicas := [⟨"A", 0, 100, 1, 100, ReadWrite, true, some ⟨1, "A", true, 100⟩⟩,
                       ⟨"B", 0, 100, 2, 100, ReadWrite, false, some ⟨2, "B", false, 100⟩⟩],
          ReplicaNum := 1, Status := ReadWrite, volName := "v",
          PersistenceHosts := ["A", "B"], Peers := [], MissNodes := [] } "B" 3
      = .ok none
    ∧ MetaPartition.canOffline 101 10
        { PartitionID := 1, Start := 0, End := 100, MaxNodeID := 5,
          Replicas := [⟨"A", 0, 100, 1, 100, ReadWrite, true, some ⟨1, "A", true, 100⟩⟩,
                       ⟨"B", 0, 100, 2, 100, ReadWrite, false, some ⟨2, "B", true, 100⟩⟩],
          ReplicaNum := 1, Status := ReadWrite, volName := "v",
          PersistenceHosts := ["A", "B"], Peers := [], MissNodes := [] } "B" 3
      = .ok (some (MasterError.Errorf "B")) := by
  decide

theorem MetaPartition.getLeaderLoop_split (pre post : List MetaReplica) (r : MetaReplica)
    (cur : Option MetaReplica) (hpre : ∀ x ∈ pre, x.IsLeader = false)
    (hr : r.IsLeader = true) :
    MetaPartition.getLeaderLoop (pre ++ r :: post) cur = (some r, none) := by
  induction pre generalizing cur with
  | nil => simp [MetaPartition.getLeaderLoop, hr]
  | cons a rest ih =>
    have ha := hpre a (List.mem_cons_self _ _)
    simp [MetaPartition.getLeaderLoop, ha,
      ih (some a) (fun x hx => hpre x (List.mem_cons_of_mem _ hx))]

theorem MetaPartition.getLeaderLoop_none (l : List MetaReplica) (cur : Option MetaReplica)
    (h : ∀ x ∈ l, x.IsLeader = false) :
    MetaPartition.getLeaderLoop l cur
      = (match l.getLast? with
          | some last => some last
          | none => cur, some MasterError.NoLeader) := by
  induction l generalizing cur with
  | nil => rfl
  | cons a rest ih =>
    have ha := h a (List.mem_cons_self _ _)
    simp only [MetaPartition.getLeaderLoop, ha, Bool.false_eq_true, if_false]
    rw [ih (some a) (fun x hx => h x (List.mem_cons_of_mem _ hx))]
    cases rest with
    | nil => rfl
    | cons b bs =>
      obtain ⟨x, hx⟩ : ∃ x, (b :: bs).getLast? = some x :=
        ⟨_, List.getLast?_eq_getLast _ (by simp)⟩
      rw [List.getLast?_cons_cons, hx]

/-- What `MetaPartition.checkStatus` does once the live replicas are known: `Unavaliable`
without a majority; otherwise the `Status` of the first leader replica; and, when no
replica is leader, the `Status` of the last replica of the list. -/
theorem MetaPartition.checkStatus_cases (now timeOutSec : Int) (mp : MetaPartition)
    (writeLog : Bool) (replicaNum : Int) (live : List MetaReplica)
    (hlive : mp.getLiveReplica now timeOutSec = .ok live) :
    ((live.length : Int) ≤ replicaNum.tdiv 2
        → mp.checkStatus now timeOutSec writeLog replicaNum
            = .ok { mp with Status := Unavaliable })
      ∧ (¬ (live.length : Int) ≤ replicaNum.tdiv 2
        → ∀ pre r post, mp.Replicas = pre ++ r :: post → (∀ x ∈ pre, x.IsLeader = false)
          → r.IsLeader = true
          → mp.checkStatus now timeOutSec writeLog replicaNum
              = .ok { mp with Status := r.Status })
      ∧ (¬ (live.length : Int) ≤ replicaNum.tdiv 2
        → (∀ x ∈ mp.Replicas, x.IsLeader = false)
          → ∀ last, mp.Replicas.getLast? = some last
          → mp.checkStatus now timeOutSec writeLog replicaNum
              = .ok { mp with Status := last.Status }) := by
  refine ⟨?_, ?_, ?_⟩
  · intro h
    simp [MetaPartition.checkStatus, hlive, h]
  · intro h pre r post hl hpre hr
    have hlead : mp.getLeaderMetaReplica = (some r, none) := by
      unfold MetaPartition.getLeaderMetaReplica
      rw [hl]
      exact MetaPartition.getLeaderLoop_split pre post r none hpre hr
    simp [MetaPartition.checkStatus, hlive, h, hlead]
  · intro h hnone last hlast
    have hlead : mp.getLeaderMetaReplica = (some last, some MasterError.NoLeader) := by
      unfold MetaPartition.getLeaderMetaReplica
      rw [MetaPartition.getLeaderLoop_none mp.Replicas none hnone, hlast]
    simp [MetaPartition.checkStatus, hlive, h, hlead]

/-- The addresses of the live replicas of a list are a sublist of those of a list with
the same addresses in which every replica live in the first is live too. -/
theorem MetaPartition.getLiveReplicaLoop_sublist (now timeOutSec : Int)
    (l l' live live' : List MetaReplica)
    (hrel : List.Forall₂ (fun r r' : MetaReplica => r.Addr = r'.Addr
      ∧ (r.isActive now timeOutSec = .ok true → r'.isActive now timeOutSec = .ok true)) l l')
    (hl : MetaPartition.getLiveReplicaLoop now timeOutSec l = .ok live)
    (hl' : MetaPartition.getLiveReplicaLoop now timeOutSec l' = .ok live') :
    List.Sublist (live.map (fun mr => mr.Addr)) (live'.map (fun mr => mr.Addr)) := by
  induction hrel generalizing live live' with
  | nil =>
    simp only [MetaPartition.getLiveReplicaLoop, Except.ok.injEq] at hl hl'
    subst hl hl'
    exact List.Sublist.refl _
  | @cons r r' rest rest' hr _ ih =>
    simp only [MetaPartition.getLiveReplicaLoop] at hl hl'
    cases ha : r.isActive now timeOutSec with
    | error e => simp [ha] at hl
    | ok b =>
      cases ha' : r'.isActive now timeOutSec with
      | error e => simp [ha'] at hl'
      | ok b' =>
        cases hrest : MetaPartition.getLiveReplicaLoop now timeOutSec rest with
        | error e => simp [ha, hrest] at hl
        | ok lv =>
          cases hrest' : MetaPartition.getLiveReplicaLoop now timeOutSec rest' with
          | error e => simp [ha', hrest'] at hl'
          | ok lv' =>
            simp only [ha, hrest, Except.ok.injEq] at hl
            simp only [ha', hrest', Except.ok.injEq] at hl'
            have hsub := ih lv lv' hrest hrest'
            subst hl hl'
            cases b with
            | false =>
              cases b' with
              | false => simpa using hsub
              | true =>
                simp only [Bool.false_eq_true, if_false, if_true, List.map_cons]
                exact List.Sublist.cons _ hsub
            | true =>
              have hb' : Except.ok b' = (Except.ok true : Except Err Bool) := by
                rw [← ha']; exact hr.2 ha
              have : b' = true := by injection hb'
              subst this
              simp only [if_true, List.map_cons, hr.1]
              exact List.Sublist.cons₂ _ hsub

/-- `canOffline` is monotonic in the live set when the majority `mp.ReplicaNum/2 + 1`
that `hasMajorityReplicas` computes equals the majority `replicaNum/2 + 1` of the
argument: if it returns nil for a partition, it returns nil for a partition with the same
replica addresses and `ReplicaNum` whose live replicas include those of the first. -/
theorem MetaPartition.canOffline_monotone_of_same_majority (now timeOutSec : Int)
    (mp mp' : MetaPartition) (nodeAddr : String) (replicaNum : Int)
    (live live' : List MetaReplica)
    (hrel : List.Forall₂ (fun r r' : MetaReplica => r.Addr = r'.Addr
      ∧ (r.isActive now timeOutSec = .ok true → r'.isActive now timeOutSec = .ok true))
      mp.Replicas mp'.Replicas)
    (hnum : mp'.ReplicaNum = mp.ReplicaNum)
    (hmaj : (((mp.ReplicaNum / 2 + 1) % 2 ^ 8 : Nat) : Int) = replicaNum.tdiv 2 + 1)
    (hlive : mp.getLiveReplica now timeOutSec = .ok live)
    (hlive' : mp'.getLiveReplica now timeOutSec = .ok live')
    (hnil : mp.canOffline now timeOutSec nodeAddr replicaNum = .ok none) :
    mp'.canOffline now timeOutSec nodeAddr replicaNum = .ok none := by
  have hsub := MetaPartition.getLiveReplicaLoop_sublist now timeOutSec mp.Replicas mp'.Replicas
    live live' hrel hlive hlive'
  have hlen : live.length ≤ live'.length := by
    have := hsub.length_le
    simpa using this
  unfold MetaPartition.canOffline at hnil ⊢
  simp only [hlive, hlive', MetaPartition.hasMajorityReplicas, hnum, hmaj,
    MetaPartition.getLiveReplicasAddr, contains] at hnil ⊢
  by_cases h1 : (live.length : Int) ≥ replicaNum.tdiv 2 + 1
  · have h1' : (live'.length : Int) ≥ replicaNum.tdiv 2 + 1 := by omega
    simp only [h1, h1', decide_True, Bool.not_true, Bool.false_eq_true, if_false] at hnil ⊢
    by_cases h2 : (live'.length : Int) = replicaNum.tdiv 2 + 1
    · have hleneq : live.length = live'.length := by omega
      have hmapeq : live.map (fun mr => mr.Addr) = live'.map (fun mr => mr.Addr) :=
        hsub.eq_of_length (by simpa using hleneq)
      have h2' : (live.length : Int) = replicaNum.tdiv 2 + 1 := by omega
      have hc : (live.map (fun mr => mr.Addr)).contains nodeAddr
          = (live'.map (fun mr => mr.Addr)).contains nodeAddr := by rw [hmapeq]
      simp only [h2', beq_self_eq_true, Bool.true_and, hc] at hnil
      simp only [h2, beq_self_eq_true, Bool.true_and]
      exact hnil
    · have : ((live'.length : Int) == replicaNum.tdiv 2 + 1) = false := by simpa using h2
      simp [this]
  · simp [h1] at hnil

theorem MetaPartition.updateReplicaMetric_split (now : Int) (addr : String)
    (mgr : MetaPartitionReport) (pre post : List MetaReplica) (r0 : MetaReplica)
    (hpre : ∀ x ∈ pre, x.Addr ≠ addr) (hr0 : r0.Addr = addr) :
    MetaPartition.updateReplicaMetric now addr mgr (pre ++ r0 :: post)
      = pre ++ r0.updateMetric now mgr :: post := by
  induction pre with
  | nil => simp [MetaPartition.updateReplicaMetric, hr0]
  | cons a rest ih =>
    have ha : a.Addr ≠ addr := hpre a (List.mem_cons_self _ _)
    simp [MetaPartition.updateReplicaMetric, ha, ih (fun x hx => hpre x (List.mem_cons_of_mem _ hx))]

theorem MetaPartition.find_replica_split (addr : String) (pre post : List MetaReplica)
    (r0 : MetaReplica) (hpre : ∀ x ∈ pre, x.Addr ≠ addr) (hr0 : r0.Addr = addr) :
    (pre ++ r0 :: post).find? (fun mr => mr.Addr == addr) = some r0 := by
  induction pre with
  | nil => simp [hr0]
  | cons a rest ih =>
    have ha : a.Addr ≠ addr := hpre a (List.mem_cons_self _ _)
    simp only [List.cons_append, List.find?_cons]
    have : (a.Addr == addr) = false := by simpa using ha
    rw [this]
    exact ih (fun x hx => hpre x (List.mem_cons_of_mem _ hx))

theorem MetaPartition.find_replica_none (addr : String) (l : List MetaReplica)
    (h : ∀ x ∈ l, x.Addr ≠ addr) :
    l.find? (fun mr => mr.Addr == addr) = none := by
  simp only [List.find?_eq_none, beq_iff_eq]
  exact h

/-- The replica list after `UpdateMetaPartition` from a persistence host: the first record
with the node's address is updated in place, or a new updated record is appended. -/
theorem MetaPartition.UpdateMetaPartition_replicas (now : Int) (mp : MetaPartition)
    (mgr : MetaPartitionReport) (metaNode : MetaNode)
    (hhost : contains mp.PersistenceHosts metaNode.Addr = true) :
    (∃ pre r0 post, mp.Replicas = pre ++ r0 :: post ∧ (∀ x ∈ pre, x.Addr ≠ metaNode.Addr)
        ∧ r0.Addr = metaNode.Addr ∧ mp.getMetaReplica metaNode.Addr = .ok r0
        ∧ (mp.UpdateMetaPartition now mgr metaNode).Replicas
            = pre ++ r0.updateMetric now mgr :: post)
      ∨ ((∀ x ∈ mp.Replicas, x.Addr ≠ metaNode.Addr)
        ∧ mp.getMetaReplica metaNode.Addr
            = .error (MasterError.metaReplicaNotFound metaNode.Addr)
        ∧ (mp.UpdateMetaPartition now mgr metaNode).Replicas
            = mp.Replicas
              ++ [(NewMetaReplica now mp.Start mp.End metaNode).updateMetric now mgr]) := by
  by_cases h : ∃ x ∈ mp.Replicas, x.Addr = metaNode.Addr
  · left
    obtain ⟨pre, r0, post, hl, hpre, hr0⟩ :=
      exists_first_split (fun x : MetaReplica => x.Addr = metaNode.Addr) mp.Replicas h
    have hfind := MetaPartition.find_replica_split metaNode.Addr pre post r0 hpre hr0
    have hget : mp.getMetaReplica metaNode.Addr = .ok r0 := by
      unfold MetaPartition.getMetaReplica
      rw [hl, hfind]
    refine ⟨pre, r0, post, hl, hpre, hr0, hget, ?_⟩
    unfold MetaPartition.UpdateMetaPartition
    simp only [hhost, Bool.not_true, Bool.false_eq_true, if_false, hget,
      MetaPartition.checkAndRemoveMissMetaReplica]
    rw [hl]
    exact MetaPartition.updateReplicaMetric_split now metaNode.Addr mgr pre post r0 hpre hr0
  · right
    have hnone : ∀ x ∈ mp.Replicas, x.Addr ≠ metaNode.Addr := by
      intro x hx hc
      exact h ⟨x, hx, hc⟩
    have hget : mp.getMetaReplica metaNode.Addr
        = .error (MasterError.metaReplicaNotFound metaNode.Addr) := by
      unfold MetaPartition.getMetaReplica
      rw [MetaPartition.find_replica_none metaNode.Addr mp.Replicas hnone]
    refine ⟨hnone, hget, ?_⟩
    have hany : mp.Replicas.any (fun m => m.Addr == metaNode.Addr) = false := by
      rw [List.any_eq_false]
      intro x hx
      simpa using hnone x hx
    unfold MetaPartition.UpdateMetaPartition
    simp only [hhost, Bool.not_true, Bool.false_eq_true, if_false, hget,
      MetaPartition.checkAndRemoveMissMetaReplica, MetaPartition.addReplica]
    have hnew : (NewMetaReplica now mp.Start mp.End metaNode).Addr = metaNode.Addr := rfl
    rw [hnew, hany]
    simp only [Bool.false_eq_true, if_false]
    have := MetaPartition.updateReplicaMetric_split now metaNode.Addr mgr mp.Replicas []
      (NewMetaReplica now mp.Start mp.End metaNode) hnone rfl
    exact this

/-- Outside the persistence hosts `UpdateMetaPartition` changes nothing. -/
theorem MetaPartition.UpdateMetaPartition_not_host (now : Int) (mp : MetaPartition)
    (mgr : MetaPartitionReport) (metaNode : MetaNode)
    (hhost : contains mp.PersistenceHosts metaNode.Addr = false) :
    mp.UpdateMetaPartition now mgr metaNode = mp := by
  simp [MetaPartition.UpdateMetaPartition, hhost]

/-- Counterexample to C19 as stated: replica `A` is the only leader and persistence host
`B` reports `IsLeader = true`; afterwards both `A` and `B` are marked leader. -/
theorem UpdateMetaPartition_leader_counterexample :
    (([⟨"A", 0, 100, 1, 100, ReadWrite, true, some ⟨1, "A", true, 100⟩⟩,
       ⟨"B", 0, 100, 2, 100, ReadWrite, false, some ⟨2, "B", true, 100⟩⟩] :
        List MetaReplica).filter (fun r => r.IsLeader)).length = 1
    ∧ ((MetaPartition.UpdateMetaPartition 101
        { PartitionID := 1, Start := 0, End := 100, MaxNodeID := 5,
          Replicas := [⟨"A", 0, 100, 1, 100, ReadWrite, true, some ⟨1, "A", true, 100⟩⟩,
                       ⟨"B", 0, 100, 2, 100, ReadWrite, false, some ⟨2, "B", true, 100⟩⟩],
          ReplicaNum := 3, Status := ReadWrite, volName := "v",
          PersistenceHosts := ["A", "B"], Peers := [], MissNodes := [] }
        ⟨5, 2, true⟩ ⟨2, "B", true, 100⟩).Replicas.filter (fun r => r.IsLeader)).length
      = 2 := by
  decide

/-- C19 (amended). At-most-one-leader: for every MetaPartition in which at most one
replica has `IsLeader = true`, and every report that either has `IsLeader = false` or
arrives while every replica marked leader is the record of the reporting node (the record
`getMetaReplica` returns for its address), after `UpdateMetaPartition` at most one replica
of the partition has `IsLeader = true`. -/
theorem UpdateMetaPartition_at_most_one_leader (now : Int) (mp : MetaPartition)
    (mgr : MetaPartitionReport) (metaNode : MetaNode)
    (hone : (mp.Replicas.filter (fun r => r.IsLeader)).length ≤ 1)
    (hrep : mgr.IsLeader = true → ∀ r ∈ mp.Replicas, r.IsLeader = true
      → mp.getMetaReplica metaNode.Addr = .ok r) :
    ((mp.UpdateMetaPartition now mgr metaNode).Replicas.filter (fun r => r.IsLeader)).length
      ≤ 1 := by
  by_cases hhost : contains mp.PersistenceHosts metaNode.Addr = true
  · rcases MetaPartition.UpdateMetaPartition_replicas now mp mgr metaNode hhost with
      ⟨pre, r0, post, hl, hpre, hr0, hget, hres⟩ | ⟨hnone, hget, hres⟩
    · rw [hres]
      rw [hl] at hone
      simp only [List.filter_append, List.length_append, List.filter_cons,
        MetaReplica.updateMetric] at hone ⊢
      by_cases hleader : mgr.IsLeader = true
      · have hpre0 : pre.filter (fun r => r.IsLeader) = [] := by
          rw [List.filter_eq_nil_iff]
          intro r hr hlead
          have := hrep hleader r (by rw [hl]; simp [hr]) hlead
          rw [hget] at this
          have hEq : r0 = r := by injection this
          exact hpre r hr (hEq ▸ hr0)
        have hpost0 : post.filter (fun r => r.IsLeader) = [] := by
          rw [List.filter_eq_nil_iff]
          intro r hr hlead
          have := hrep hleader r (by rw [hl]; simp [hr]) hlead
          rw [hget] at this
          have hEq : r0 = r := by injection this
          have hr0lead : r0.IsLeader = true := hEq ▸ hlead
          have hpos : 0 < (post.filter (fun r => r.IsLeader)).length :=
            List.length_pos.mpr (List.ne_nil_of_mem (List.mem_filter.mpr ⟨hr, hlead⟩))
          simp only [hr0lead, if_true, List.length_cons] at hone
          omega
        simp [hpre0, hpost0, hleader]
      · simp only [hleader, Bool.false_eq_true, if_false]
        split at hone
        · simp only [List.length_cons] at hone; omega
        · omega
    · rw [hres]
      simp only [List.filter_append, List.length_append, List.filter_cons, List.filter_nil,
        MetaReplica.updateMetric]
      by_cases hleader : mgr.IsLeader = true
      · have hall0 : mp.Replicas.filter (fun r => r.IsLeader) = [] := by
          rw [List.filter_eq_nil_iff]
          intro r hr hlead
          have := hrep hleader r hr hlead
          rw [hget] at this
          cases this
        simp [hall0, hleader]
      · simp only [hleader, Bool.false_eq_true, if_false, List.length_nil]
        omega
  · have hhost' : contains mp.PersistenceHosts metaNode.Addr = false := by
      simpa using hhost
    rw [MetaPartition.UpdateMetaPartition_not_host now mp mgr metaNode hhost']
    exact hone

/-- Witness for C19: the current leader `A` reports `IsLeader = true` again. -/
theorem UpdateMetaPartition_at_most_one_leader_witness :
    ((MetaPartition.UpdateMetaPartition 101
        { PartitionID := 1, Start := 0, End := 100, MaxNodeID := 5,
          Replicas := [⟨"A", 0, 100, 1, 100, ReadWrite, true, some ⟨1, "A", true, 100⟩⟩,
                       ⟨"B", 0, 100, 2, 100, ReadWrite, false, some ⟨2, "B", true, 100⟩⟩],
          ReplicaNum := 3, Status := ReadWrite, volName := "v",
          PersistenceHosts := ["A", "B"], Peers := [], MissNodes := [] }
        ⟨5, 2, true⟩ ⟨1, "A", true, 100⟩).Replicas.filter (fun r => r.IsLeader)).length
      ≤ 1 :=
  UpdateMetaPartition_at_most_one_leader 101
    { PartitionID := 1, Start := 0, End := 100, MaxNodeID := 5,
      Replicas := [⟨"A", 0, 100, 1, 100, ReadWrite, true, some ⟨1, "A", true, 100⟩⟩,
                   ⟨"B", 0, 100, 2, 100, ReadWrite, false, some ⟨2, "B", true, 100⟩⟩],
      ReplicaNum := 3, Status := ReadWrite, volName := "v",
      PersistenceHosts := ["A", "B"], Peers := [], MissNodes := [] }
    ⟨5, 2, true⟩ ⟨1, "A", true, 100⟩ (by decide)
    (by
      intro _ r hr hlead
      simp only [List.mem_cons, List.mem_singleton, List.not_mem_nil, or_false] at hr
      rcases hr with rfl | rfl
      · decide
      · exact absurd hlead (by decide))

theorem MetaPartition.UpdateMetaPartition_range (now : Int) (mp : MetaPartition)
    (mgr : MetaPartitionReport) (metaNode : MetaNode) :
    (mp.UpdateMetaPartition now mgr metaNode).Start = mp.Start
      ∧ (mp.UpdateMetaPartition now mgr metaNode).End = mp.End
      ∧ (mp.UpdateMetaPartition now mgr metaNode).MaxNodeID
          = if contains mp.PersistenceHosts metaNode.Addr then mgr.MaxInodeID
            else mp.MaxNodeID := by
  by_cases hhost : contains mp.PersistenceHosts metaNode.Addr = true
  · unfold MetaPartition.UpdateMetaPartition MetaPartition.checkAndRemoveMissMetaReplica
    simp only [hhost, Bool.not_true, Bool.false_eq_true, if_false, if_true]
    cases mp.getMetaReplica metaNode.Addr with
    | ok r => simp
    | error e =>
      simp only [MetaPartition.addReplica]
      split <;> simp
  · have hhost' : contains mp.PersistenceHosts metaNode.Addr = false := by simpa using hhost
    rw [MetaPartition.UpdateMetaPartition_not_host now mp mgr metaNode hhost']
    simp [hhost']

/-- `UpdateEnd` leaves `Start` and `MaxNodeID` alone and leaves `End` either at its old
value or at the new end. -/
theorem MetaPartition.UpdateEnd_range (maxInodeID step : Nat) (syncFails : Bool)
    (mp : MetaPartition) (end_ : Nat) :
    (mp.UpdateEnd maxInodeID step syncFails end_).mp.Start = mp.Start
      ∧ (mp.UpdateEnd maxInodeID step syncFails end_).mp.MaxNodeID = mp.MaxNodeID
      ∧ ((mp.UpdateEnd maxInodeID step syncFails end_).mp.End = mp.End
          ∨ (mp.UpdateEnd maxInodeID step syncFails end_).mp.End = end_) := by
  unfold MetaPartition.UpdateEnd
  by_cases hg : end_ > maxInodeID - step
  · simp [hg]
  · simp only [hg, if_false]
    cases MetaPartition.generateUpdateMetaReplicaTask { mp with End := end_ } mp.PartitionID end_ with
    | none => simp
    | some t =>
      cases syncFails with
      | true => simp
      | false => simp [MetaPartition.updateAllReplicasEnd]

/-- Counterexample to C20 as stated: a report from persistence host `A` with
`MaxInodeID = 200` takes `MaxNodeID` above `End = 100`, and `UpdateEnd` to the accepted
new end 3 (leader present, persistence succeeding) takes `End` below `MaxNodeID = 5`. -/
theorem inode_range_counterexample :
    (MetaPartition.UpdateMetaPartition 101
        { PartitionID := 1, Start := 0, End := 100, MaxNodeID := 5,
          Replicas := [⟨"A", 0, 100, 1, 100, ReadWrite, true, some ⟨1, "A", true, 100⟩⟩],
          ReplicaNum := 1, Status := ReadWrite, volName := "v", PersistenceHosts := ["A"],
          Peers := [], MissNodes := [] }
        ⟨200, 2, true⟩ ⟨1, "A", true, 100⟩).MaxNodeID = 200
    ∧ (MetaPartition.UpdateMetaPartition 101
        { PartitionID := 1, Start := 0, End := 100, MaxNodeID := 5,
          Replicas := [⟨"A", 0, 100, 1, 100, ReadWrite, true, some ⟨1, "A", true, 100⟩⟩],
          ReplicaNum := 1, Status := ReadWrite, volName := "v", PersistenceHosts := ["A"],
          Peers := [], MissNodes := [] }
        ⟨200, 2, true⟩ ⟨1, "A", true, 100⟩).End = 100
    ∧ (3 : Nat) ≤ 9223372036854775807 - 16777216
    ∧ (MetaPartition.UpdateEnd 9223372036854775807 16777216 false
        { PartitionID := 1, Start := 0, End := 100, MaxNodeID := 5,
          Replicas := [⟨"A", 0, 100, 1, 100, ReadWrite, true, some ⟨1, "A", true, 100⟩⟩],
          ReplicaNum := 1, Status := ReadWrite, volName := "v", PersistenceHosts := ["A"],
          Peers := [], MissNodes := [] } 3).mp.End = 3
    ∧ (MetaPartition.UpdateEnd 9223372036854775807 16777216 false
        { PartitionID := 1, Start := 0, End := 100, MaxNodeID := 5,
          Replicas := [⟨"A", 0, 100, 1, 100, ReadWrite, true, some ⟨1, "A", true, 100⟩⟩],
          ReplicaNum := 1, Status := ReadWrite, volName := "v", PersistenceHosts := ["A"],
          Peers := [], MissNodes := [] } 3).mp.MaxNodeID = 5 := by
  decide

/-- C20 (amended). Inode-range invariant: for every MetaPartition with
`Start ≤ MaxNodeID ≤ End`, the invariant still holds after `UpdateMetaPartition` with any
report whose `MaxInodeID` lies in `[Start, End]` (from any node), and after `UpdateEnd`
with any new end that is at least `MaxNodeID` (accepted or not by the overflow guard,
with or without a leader, whether or not persistence succeeds). -/
theorem inode_range_preserved (now : Int) (mp : MetaPartition) (mgr : MetaPartitionReport)
    (metaNode : MetaNode) (maxInodeID step : Nat) (syncFails : Bool) (end_ : Nat)
    (hinv : mp.Start ≤ mp.MaxNodeID ∧ mp.MaxNodeID ≤ mp.End)
    (hmgr : mp.Start ≤ mgr.MaxInodeID ∧ mgr.MaxInodeID ≤ mp.End)
    (hend : mp.MaxNodeID ≤ end_) :
    ((mp.UpdateMetaPartition now mgr metaNode).Start
          ≤ (mp.UpdateMetaPartition now mgr metaNode).MaxNodeID
        ∧ (mp.UpdateMetaPartition now mgr metaNode).MaxNodeID
          ≤ (mp.UpdateMetaPartition now mgr metaNode).End)
      ∧ ((mp.UpdateEnd maxInodeID step syncFails end_).mp.Start
          ≤ (mp.UpdateEnd maxInodeID step syncFails end_).mp.MaxNodeID
        ∧ (mp.UpdateEnd maxInodeID step syncFails end_).mp.MaxNodeID
          ≤ (mp.UpdateEnd maxInodeID step syncFails end_).mp.End) := by
  obtain ⟨h1, h2, h3⟩ := MetaPartition.UpdateMetaPartition_range now mp mgr metaNode
  obtain ⟨e1, e2, e3⟩ := MetaPartition.UpdateEnd_range maxInodeID step syncFails mp end_
  refine ⟨?_, ?_⟩
  · rw [h1, h2, h3]
    split <;> omega
  · rw [e1, e2]
    rcases e3 with e3 | e3 <;> rw [e3] <;> omega

/-- Witness for C20: a report with `MaxInodeID = 50` and `UpdateEnd` to 60 on a partition
with range `[0, 100]` and `MaxNodeID = 5`. -/
theorem inode_range_preserved_witness :
    ((MetaPartition.UpdateMetaPartition 101
        { PartitionID := 1, Start := 0, End := 100, MaxNodeID := 5,
          Replicas := [⟨"A", 0, 100, 1, 100, ReadWrite, true, some ⟨1, "A", true, 100⟩⟩],
          ReplicaNum := 1, Status := ReadWrite, volName := "v", PersistenceHosts := ["A"],
          Peers := [], MissNodes := [] }
        ⟨50, 2, true⟩ ⟨1, "A", true, 100⟩).MaxNodeID
      ≤ (MetaPartition.UpdateMetaPartition 101
        { PartitionID := 1, Start := 0, End := 100, MaxNodeID := 5,
          Replicas := [⟨"A", 0, 100, 1, 100, ReadWrite, true, some ⟨1, "A", true, 100⟩⟩],
          ReplicaNum := 1, Status := ReadWrite, volName := "v", PersistenceHosts := ["A"],
          Peers := [], MissNodes := [] }
        ⟨50, 2, true⟩ ⟨1, "A", true, 100⟩).End)
    ∧ ((MetaPartition.UpdateEnd 9223372036854775807 16777216 false
        { PartitionID := 1, Start := 0, End := 100, MaxNodeID := 5,
          Replicas := [⟨"A", 0, 100, 1, 100, ReadWrite, true, some ⟨1, "A", true, 100⟩⟩],
          ReplicaNum := 1, Status := ReadWrite, volName := "v", PersistenceHosts := ["A"],
          Peers := [], MissNodes := [] } 60).mp.MaxNodeID
      ≤ (MetaPartition.UpdateEnd 9223372036854775807 16777216 false
        { PartitionID := 1, Start := 0, End := 100, MaxNodeID := 5,
          Replicas := [⟨"A", 0, 100, 1, 100, ReadWrite, true, some ⟨1, "A", true, 100⟩⟩],
          ReplicaNum := 1, Status := ReadWrite, volName := "v", PersistenceHosts := ["A"],
          Peers := [], MissNodes := [] } 60).mp.End) :=
  have h := inode_range_preserved 101
    { PartitionID := 1, Start := 0, End := 100, MaxNodeID := 5,
      Replicas := [⟨"A", 0, 100, 1, 100, ReadWrite, true, some ⟨1, "A", true, 100⟩⟩],
      ReplicaNum := 1, Status := ReadWrite, volName := "v", PersistenceHosts := ["A"],
      Peers := [], MissNodes := [] }
    ⟨50, 2, true⟩ ⟨1, "A", true, 100⟩ 9223372036854775807 16777216 false 60
    (by decide) (by decide) (by decide)
  ⟨h.1.2, h.2.2⟩

/-! ## Theorems: MetaPartition.UpdateEnd -/

theorem MetaPartition.generateUpdateMetaReplicaTask_leader (mp : MetaPartition)
    (partitionID end_ : Nat) (pre post : List MetaReplica) (r : MetaReplica)
    (hl : mp.Replicas = pre ++ r :: post) (hpre : ∀ x ∈ pre, x.IsLeader = false)
    (hr : r.IsLeader = true) :
    mp.generateUpdateMetaReplicaTask partitionID end_
      = some { OpCode := OpCode.OpUpdateMetaPartition, OperatorAddr := r.Addr,
               PartitionID := partitionID, End := some end_ } := by
  have hlead : mp.getLeaderMetaReplica = (some r, none) := by
    unfold MetaPartition.getLeaderMetaReplica
    rw [hl]
    exact MetaPartition.getLeaderLoop_split pre post r none hpre hr
  simp [MetaPartition.generateUpdateMetaReplicaTask, hlead]

theorem MetaPartition.generateUpdateMetaReplicaTask_no_leader (mp : MetaPartition)
    (partitionID end_ : Nat) (hnone : ∀ x ∈ mp.Replicas, x.IsLeader = false) :
    mp.generateUpdateMetaReplicaTask partitionID end_ = none := by
  have hlead := MetaPartition.getLeaderLoop_none mp.Replicas none hnone
  unfold MetaPartition.generateUpdateMetaReplicaTask MetaPartition.getLeaderMetaReplica
  rw [hlead]
  cases mp.Replicas.getLast? <;> rfl

/-- C21. `UpdateEnd` overflow guard: for every MetaPartition and every new end above
`MAX − STEP`, in particular `MAX − STEP + 1`, `UpdateEnd` rejects the request: the
partition, with its `End` and every replica's `end`, is unchanged, nothing is persisted,
no task is dispatched and no new partition is created. -/
theorem UpdateEnd_overflow_guard (maxInodeID step : Nat) (syncFails : Bool)
    (mp : MetaPartition) (end_ : Nat) (hend : end_ > maxInodeID - step) :
    mp.UpdateEnd maxInodeID step syncFails end_
        = { mp := mp, tasks := [], created := none, persisted := none }
      ∧ (mp.UpdateEnd maxInodeID step syncFails end_).mp.End = mp.End
      ∧ (mp.UpdateEnd maxInodeID step syncFails end_).mp.Replicas = mp.Replicas
      ∧ mp.UpdateEnd maxInodeID step syncFails (maxInodeID - step + 1)
        = { mp := mp, tasks := [], created := none, persisted := none } := by
  have h1 : mp.UpdateEnd maxInodeID step syncFails end_
      = { mp := mp, tasks := [], created := none, persisted := none } := by
    simp [MetaPartition.UpdateEnd, hend]
  refine ⟨h1, by rw [h1], by rw [h1], ?_⟩
  simp [MetaPartition.UpdateEnd]

/-- Witness for C21: `MAX = 2^63 − 1`, `STEP = 2^24`, a partition with a leader, and the
new end `MAX − STEP + 1`. -/
theorem UpdateEnd_overflow_guard_witness :
    MetaPartition.UpdateEnd 9223372036854775807 16777216 false
        { PartitionID := 1, Start := 0, End := 100, MaxNodeID := 5,
          Replicas := [⟨"A", 0, 100, 1, 100, ReadWrite, true, some ⟨1, "A", true, 100⟩⟩],
          ReplicaNum := 1, Status := ReadWrite, volName := "v", PersistenceHosts := ["A"],
          Peers := [], MissNodes := [] } 9223372036837998592
      = { mp := { PartitionID := 1, Start := 0, End := 100, MaxNodeID := 5,
                  Replicas := [⟨"A", 0, 100, 1, 100, ReadWrite, true,
                                some ⟨1, "A", true, 100⟩⟩],
                  ReplicaNum := 1, Status := ReadWrite, volName := "v",
                  PersistenceHosts := ["A"], Peers := [], MissNodes := [] },
          tasks := [], created := none, persisted := none } :=
  (UpdateEnd_overflow_guard 9223372036854775807 16777216 false
    { PartitionID := 1, Start := 0, End := 100, MaxNodeID := 5,
      Replicas := [⟨"A", 0, 100, 1, 100, ReadWrite, true, some ⟨1, "A", true, 100⟩⟩],
      ReplicaNum := 1, Status := ReadWrite, volName := "v", PersistenceHosts := ["A"],
      Peers := [], MissNodes := [] } 9223372036837998592 (by decide)).1

/-- The success path of `UpdateEnd`: leader found, new end accepted, persistence
succeeding. -/
theorem MetaPartition.UpdateEnd_success (maxInodeID step : Nat) (mp : MetaPartition)
    (end_ : Nat) (pre post : List MetaReplica) (r : MetaReplica)
    (hl : mp.Replicas = pre ++ r :: post) (hpre : ∀ x ∈ pre, x.IsLeader = false)
    (hr : r.IsLeader = true) (hend : end_ ≤ maxInodeID - step) :
    mp.UpdateEnd maxInodeID step false end_
      = { mp := { mp with End := end_,
                          Replicas := mp.Replicas.map (fun mr => { mr with end_ := end_ }) },
          tasks := [{ OpCode := OpCode.OpUpdateMetaPartition, OperatorAddr := r.Addr,
                      PartitionID := mp.PartitionID, End := some end_ }],
          created := some ((end_ + 1) % 2 ^ 64, maxInodeID),
          persisted := some { mp with End := end_ } } := by
  have ht := MetaPartition.generateUpdateMetaReplicaTask_leader { mp with End := end_ }
    mp.PartitionID end_ pre post r hl hpre hr
  have hg : ¬ end_ > maxInodeID - step := by omega
  unfold MetaPartition.UpdateEnd
  simp only [hg, if_false, ht, Bool.false_eq_true, MetaPartition.updateAllReplicasEnd]

/-- Counterexample to C22 as stated: with `MAX = 2^63 − 1` and `STEP = 2^24`, a partition
with a leader and persistence succeeding, `UpdateEnd(MAX)` is rejected by the overflow
guard and `End` stays 100. -/
theorem UpdateEnd_boundary_counterexample :
    (MetaPartition.UpdateEnd 9223372036854775807 16777216 false
        { PartitionID := 1, Start := 0, End := 100, MaxNodeID := 5,
          Replicas := [⟨"A", 0, 100, 1, 100, ReadWrite, true, some ⟨1, "A", true, 100⟩⟩],
          ReplicaNum := 1, Status := ReadWrite, volName := "v", PersistenceHosts := ["A"],
          Peers := [], MissNodes := [] } 9223372036854775807).mp.End = 100
    ∧ (100 : Nat) ≠ 9223372036854775807 := by
  decide

/-- C22 (amended). `UpdateEnd` boundary: for a MetaPartition that has a leader replica and
whose persistence succeeds, `UpdateEnd(MAX − STEP)` succeeds, `End` being `MAX − STEP`
afterwards, while `UpdateEnd(MAX − STEP + 1)` is rejected, and so is `UpdateEnd(MAX)` for
a positive `STEP` not above `MAX`. -/
theorem UpdateEnd_boundary (maxInodeID step : Nat) (mp : MetaPartition)
    (pre post : List MetaReplica) (r : MetaReplica)
    (hl : mp.Replicas = pre ++ r :: post) (hpre : ∀ x ∈ pre, x.IsLeader = false)
    (hr : r.IsLeader = true) :
    (mp.UpdateEnd maxInodeID step false (maxInodeID - step)).mp.End = maxInodeID - step
      ∧ mp.UpdateEnd maxInodeID step false (maxInodeID - step + 1)
          = { mp := mp, tasks := [], created := none, persisted := none }
      ∧ (0 < step → step ≤ maxInodeID →
          mp.UpdateEnd maxInodeID step false maxInodeID
            = { mp := mp, tasks := [], created := none, persisted := none }) := by
  refine ⟨?_, ?_, ?_⟩
  · rw [MetaPartition.UpdateEnd_success maxInodeID step mp _ pre post r hl hpre hr (le_refl _)]
  · simp [MetaPartition.UpdateEnd]
  · intro h0 h1
    have : maxInodeID > maxInodeID - step := by omega
    simp [MetaPartition.UpdateEnd, this]

/-- Witness for C22: `MAX = 2^63 − 1`, `STEP = 2^24`, a one-replica partition whose
replica is the leader. -/
theorem UpdateEnd_boundary_witness :
    (MetaPartition.UpdateEnd 9223372036854775807 16777216 false
        { PartitionID := 1, Start := 0, End := 100, MaxNodeID := 5,
          Replicas := [⟨"A", 0, 100, 1, 100, ReadWrite, true, some ⟨1, "A", true, 100⟩⟩],
          ReplicaNum := 1, Status := ReadWrite, volName := "v", PersistenceHosts := ["A"],
          Peers := [], MissNodes := [] } (9223372036854775807 - 16777216)).mp.End
      = 9223372036854775807 - 16777216 :=
  (UpdateEnd_boundary 9223372036854775807 16777216
    { PartitionID := 1, Start := 0, End := 100, MaxNodeID := 5,
      Replicas := [⟨"A", 0, 100, 1, 100, ReadWrite, true, some ⟨1, "A", true, 100⟩⟩],
      ReplicaNum := 1, Status := ReadWrite, volName := "v", PersistenceHosts := ["A"],
      Peers := [], MissNodes := [] }
    [] [] ⟨"A", 0, 100, 1, 100, ReadWrite, true, some ⟨1, "A", true, 100⟩⟩ rfl
    (by intro x hx; simp at hx) rfl).1

/-- C23. `UpdateEnd` is atomic on abort: for every MetaPartition and accepted new end, if
no replica is leader, or if persisting the partition fails, then after `UpdateEnd` the
partition is what it was before the call (its `End` and every replica's `end` included),
no task is dispatched, no new MetaPartition is created and nothing is persisted. -/
theorem UpdateEnd_atomic_on_abort (maxInodeID step : Nat) (syncFails : Bool)
    (mp : MetaPartition) (end_ : Nat) (_hend : end_ ≤ maxInodeID - step)
    (habort : (∀ x ∈ mp.Replicas, x.IsLeader = false) ∨ syncFails = true) :
    mp.UpdateEnd maxInodeID step syncFails end_
        = { mp := mp, tasks := [], created := none, persisted := none }
      ∧ (mp.UpdateEnd maxInodeID step syncFails end_).mp.End = mp.End
      ∧ (mp.UpdateEnd maxInodeID step syncFails end_).mp.Replicas = mp.Replicas := by
  have h1 : mp.UpdateEnd maxInodeID step syncFails end_
      = { mp := mp, tasks := [], created := none, persisted := none } := by
    unfold MetaPartition.UpdateEnd
    split
    · rfl
    · rcases habort with hno | hs
      · have := MetaPartition.generateUpdateMetaReplicaTask_no_leader { mp with End := end_ }
          mp.PartitionID end_ hno
        simp only [this]
      · subst hs
        simp only [if_true]
        split <;> rfl
  exact ⟨h1, by rw [h1], by rw [h1]⟩

/-- Witness for C23: the range-split scenario without a leader, and with a leader but a
failing persistence. -/
theorem UpdateEnd_atomic_on_abort_witness :
    MetaPartition.UpdateEnd 9223372036854775807 16777216 false
        { PartitionID := 1, Start := 0, End := 1000, MaxNodeID := 5,
          Replicas := [⟨"A", 0, 1000, 1, 100, ReadWrite, false, some ⟨1, "A", true, 100⟩⟩],
          ReplicaNum := 1, Status := ReadWrite, volName := "v", PersistenceHosts := ["A"],
          Peers := [], MissNodes := [] } 500
      = { mp := { PartitionID := 1, Start := 0, End := 1000, MaxNodeID := 5,
                  Replicas := [⟨"A", 0, 1000, 1, 100, ReadWrite, false,
                                some ⟨1, "A", true, 100⟩⟩],
                  ReplicaNum := 1, Status := ReadWrite, volName := "v",
                  PersistenceHosts := ["A"], Peers := [], MissNodes := [] },
          tasks := [], created := none, persisted := none }
    ∧ MetaPartition.UpdateEnd 9223372036854775807 16777216 true
        { PartitionID := 1, Start := 0, End := 1000, MaxNodeID := 5,
          Replicas := [⟨"A", 0, 1000, 1, 100, ReadWrite, true, some ⟨1, "A", true, 100⟩⟩],
          ReplicaNum := 1, Status := ReadWrite, volName := "v", PersistenceHosts := ["A"],
          Peers := [], MissNodes := [] } 500
      = { mp := { PartitionID := 1, Start := 0, End := 1000, MaxNodeID := 5,
                  Replicas := [⟨"A", 0, 1000, 1, 100, ReadWrite, true,
                                some ⟨1, "A", true, 100⟩⟩],
                  ReplicaNum := 1, Status := ReadWrite, volName := "v",
                  PersistenceHosts := ["A"], Peers := [], MissNodes := [] },
          tasks := [], created := none, persisted := none } :=
  ⟨(UpdateEnd_atomic_on_abort 9223372036854775807 16777216 false
      { PartitionID := 1, Start := 0, End := 1000, MaxNodeID := 5,
        Replicas := [⟨"A", 0, 1000, 1, 100, ReadWrite, false, some ⟨1, "A", true, 100⟩⟩],
        ReplicaNum := 1, Status := ReadWrite, volName := "v", PersistenceHosts := ["A"],
        Peers := [], MissNodes := [] } 500 (by decide) (Or.inl (by decide))).1,
   (UpdateEnd_atomic_on_abort 9223372036854775807 16777216 true
      { PartitionID := 1, Start := 0, End := 1000, MaxNodeID := 5,
        Replicas := [⟨"A", 0, 1000, 1, 100, ReadWrite, true, some ⟨1, "A", true, 100⟩⟩],
        ReplicaNum := 1, Status := ReadWrite, volName := "v", PersistenceHosts := ["A"],
        Peers := [], MissNodes := [] } 500 (by decide) (Or.inr rfl)).1⟩

/-- C24. `UpdateEnd` success path: for every MetaPartition whose first leader replica is
`r`, every new end not above `MAX − STEP` and successful persistence, after `UpdateEnd`
the partition's `End` is the new end, every replica record's `end` is the new end, the
partition with the new `End` was persisted, exactly one task is dispatched, an
`UpdateMetaPartition` task carrying the new end addressed to `r.Addr`, and creation of a
MetaPartition with range `[new_end + 1, MAX]` is requested (`new_end + 1` as a `uint64`). -/
theorem UpdateEnd_success_path (maxInodeID step : Nat) (mp : MetaPartition) (end_ : Nat)
    (pre post : List MetaReplica) (r : MetaReplica)
    (hl : mp.Replicas = pre ++ r :: post) (hpre : ∀ x ∈ pre, x.IsLeader = false)
    (hr : r.IsLeader = true) (hend : end_ ≤ maxInodeID - step) :
    (mp.UpdateEnd maxInodeID step false end_).mp.End = end_
      ∧ (∀ x ∈ (mp.UpdateEnd maxInodeID step false end_).mp.Replicas, x.end_ = end_)
      ∧ (mp.UpdateEnd maxInodeID step false end_).mp.Replicas.length = mp.Replicas.length
      ∧ (mp.UpdateEnd maxInodeID step false end_).tasks
          = [{ OpCode := OpCode.OpUpdateMetaPartition, OperatorAddr := r.Addr,
               PartitionID := mp.PartitionID, End := some end_ }]
      ∧ (mp.UpdateEnd maxInodeID step false end_).created
          = some ((end_ + 1) % 2 ^ 64, maxInodeID)
      ∧ (end_ + 1 < 2 ^ 64 →
          (mp.UpdateEnd maxInodeID step false end_).created = some (end_ + 1, maxInodeID))
      ∧ (mp.UpdateEnd maxInodeID step false end_).persisted = some { mp with End := end_ } := by
  rw [MetaPartition.UpdateEnd_success maxInodeID step mp end_ pre post r hl hpre hr hend]
  refine ⟨rfl, ?_, by simp, rfl, rfl, ?_, rfl⟩
  · intro x hx
    simp only [List.mem_map] at hx
    obtain ⟨y, _, rfl⟩ := hx
    rfl
  · intro h
    rw [Nat.mod_eq_of_lt h]

/-- Witness for C24: the range-split scenario of the spec, partition `[0, 1000]` with
leader `A` and `UpdateEnd(500)`. -/
theorem UpdateEnd_success_path_witness :
    (MetaPartition.UpdateEnd 9223372036854775807 16777216 false
        { PartitionID := 1, Start := 0, End := 1000, MaxNodeID := 5,
          Replicas := [⟨"A", 0, 1000, 1, 100, ReadWrite, true, some ⟨1, "A", true, 100⟩⟩],
          ReplicaNum := 1, Status := ReadWrite, volName := "v", PersistenceHosts := ["A"],
          Peers := [], MissNodes := [] } 500).mp.End = 500
    ∧ (MetaPartition.UpdateEnd 9223372036854775807 16777216 false
        { PartitionID := 1, Start := 0, End := 1000, MaxNodeID := 5,
          Replicas := [⟨"A", 0, 1000, 1, 100, ReadWrite, true, some ⟨1, "A", true, 100⟩⟩],
          ReplicaNum := 1, Status := ReadWrite, volName := "v", PersistenceHosts := ["A"],
          Peers := [], MissNodes := [] } 500).tasks
        = [⟨OpCode.OpUpdateMetaPartition, "A", 1, some 500⟩]
    ∧ (MetaPartition.UpdateEnd 9223372036854775807 16777216 false
        { PartitionID := 1, Start := 0, End := 1000, MaxNodeID := 5,
          Replicas := [⟨"A", 0, 1000, 1, 100, ReadWrite, true, some ⟨1, "A", true, 100⟩⟩],
          ReplicaNum := 1, Status := ReadWrite, volName := "v", PersistenceHosts := ["A"],
          Peers := [], MissNodes := [] } 500).created
        = some (501, 9223372036854775807) :=
  have h := UpdateEnd_success_path 9223372036854775807 16777216
    { PartitionID := 1, Start := 0, End := 1000, MaxNodeID := 5,
      Replicas := [⟨"A", 0, 1000, 1, 100, ReadWrite, true, some ⟨1, "A", true, 100⟩⟩],
      ReplicaNum := 1, Status := ReadWrite, volName := "v", PersistenceHosts := ["A"],
      Peers := [], MissNodes := [] } 500
    [] [] ⟨"A", 0, 1000, 1, 100, ReadWrite, true, some ⟨1, "A", true, 100⟩⟩ rfl
    (by intro x hx; simp at hx) rfl (by decide)
  ⟨h.1, h.2.2.2.1, h.2.2.2.2.2.1 (by decide)⟩

/-! ## Theorems: miss-warning debounce -/

theorem mapGet_mapSet_self (m : List (String × Int)) (key : String) (value : Int) :
    mapGet (mapSet m key value) key = some value := by
  simp [mapGet, mapSet, List.lookup]

theorem mapGet_filter_ne (m : List (String × Int)) (key other : String) (h : other ≠ key) :
    (m.filter (fun e => e.1 != key)).lookup other = m.lookup other := by
  induction m with
  | nil => rfl
  | cons e rest ih =>
    obtain ⟨a, v⟩ := e
    by_cases ha : a = key
    · subst ha
      have hoa : (other == a) = false := by simpa using h
      simp [List.filter_cons, List.lookup, hoa, ih]
    · have hne : (a != key) = true := by simpa using ha
      simp only [List.filter_cons, hne, if_true, List.lookup]
      cases hoa : other == a <;> simp [ih]

theorem mapGet_mapSet_other (m : List (String × Int)) (key other : String) (value : Int)
    (h : other ≠ key) : mapGet (mapSet m key value) other = mapGet m other := by
  have hok : (other == key) = false := by simpa using h
  simp only [mapGet, mapSet, List.lookup, hok]
  exact mapGet_filter_ne m key other h

/-- An `int64` expression whose exact value is within the `int64` range has that value. -/
theorem wrapInt64_of_range (v : Int) (hlo : -2 ^ 63 ≤ v) (hhi : v < 2 ^ 63) :
    wrapInt64 v = v := by
  unfold wrapInt64
  rw [Int.emod_eq_of_lt (by omega) (by omega)]
  omega

/-- The two outcomes of `needWarnMissDataPartition`, with the `int64` difference as the
code computes it. -/
theorem DataPartition.needWarnMissDataPartition_cases (now : Int) (p : DataPartition)
    (addr : String) (interval : Int) :
    ((mapGet p.MissNodes addr = none
          ∨ ∃ t, mapGet p.MissNodes addr = some t ∧ wrapInt64 (now - t) > interval)
        ∧ p.needWarnMissDataPartition now addr interval
            = ({ p with MissNodes := mapSet p.MissNodes addr now }, true))
      ∨ (¬ (mapGet p.MissNodes addr = none
            ∨ ∃ t, mapGet p.MissNodes addr = some t ∧ wrapInt64 (now - t) > interval)
        ∧ p.needWarnMissDataPartition now addr interval = (p, false)) := by
  unfold DataPartition.needWarnMissDataPartition
  cases hget : mapGet p.MissNodes addr with
  | none => exact Or.inl ⟨Or.inl rfl, rfl⟩
  | some t =>
    by_cases hgt : wrapInt64 (now - t) > interval
    · exact Or.inl ⟨Or.inr ⟨t, rfl, hgt⟩, by simp only [hgt, if_true]⟩
    · refine Or.inr ⟨?_, by simp only [hgt, if_false]⟩
      rintro (h | ⟨t', ht', hgt'⟩)
      · exact absurd h (by simp)
      · have : t = t' := by injection ht'
        subst this
        exact hgt hgt'

/-- Where the `int64` difference overflows, the wrapped value decides: with the entry
`MissNodes["A"] = −2^63` and `now = 100` the difference wraps to `100 − 2^63`, which is
not above the interval 10, so no warning is due and the partition is unchanged. -/
theorem DataPartition.needWarnMissDataPartition_wraps :
    DataPartition.needWarnMissDataPartition 100
        { PartitionID := 1, ReplicaNum := 3, Status := PartitionStatus.ReadOnly,
          PersistenceHosts := ["A"], Replicas := [],
          MissNodes := [("A", -9223372036854775808)], isRecover := false } "A" 10
      = ({ PartitionID := 1, ReplicaNum := 3, Status := PartitionStatus.ReadOnly,
           PersistenceHosts := ["A"], Replicas := [],
           MissNodes := [("A", -9223372036854775808)], isRecover := false }, false) := by
  decide

/-- C25. DataPartition miss-warning debounce, for times whose `int64` difference does not
overflow (as for Unix times of `time.Now()`): `needWarnMissDataPartition(addr, interval)`
returns true iff `MissNodes` has no entry for `addr` or `now − MissNodes[addr] > interval`;
it sets `MissNodes[addr]` to `now` exactly when it returns true (otherwise the partition is
unchanged), changes only `MissNodes`, never changes the entry of another address, and a
second warning for the same address comes more than `interval` seconds after the first. -/
theorem needWarnMissDataPartition_debounce (now : Int) (p : DataPartition) (addr : String)
    (interval : Int)
    (hsub : ∀ t, mapGet p.MissNodes addr = some t → -2 ^ 63 ≤ now - t ∧ now - t < 2 ^ 63) :
    ((p.needWarnMissDataPartition now addr interval).2 = true
        ↔ mapGet p.MissNodes addr = none
          ∨ ∃ t, mapGet p.MissNodes addr = some t ∧ now - t > interval)
      ∧ ((p.needWarnMissDataPartition now addr interval).2 = true
          → mapGet (p.needWarnMissDataPartition now addr interval).1.MissNodes addr = some now)
      ∧ ((p.needWarnMissDataPartition now addr interval).2 = false
          → (p.needWarnMissDataPartition now addr interval).1 = p)
      ∧ (p.needWarnMissDataPartition now addr interval).1
          = { p with MissNodes := (p.needWarnMissDataPartition now addr interval).1.MissNodes }
      ∧ (∀ other, other ≠ addr →
          mapGet (p.needWarnMissDataPartition now addr interval).1.MissNodes other
            = mapGet p.MissNodes other)
      ∧ (∀ now2, -2 ^ 63 ≤ now2 - now ∧ now2 - now < 2 ^ 63
          → (p.needWarnMissDataPartition now addr interval).2 = true
          → (DataPartition.needWarnMissDataPartition now2
                (p.needWarnMissDataPartition now addr interval).1 addr interval).2 = true
          → now2 - now > interval) := by
  have hset : ∀ q : DataPartition, mapGet q.MissNodes addr = some now → ∀ now2,
      -2 ^ 63 ≤ now2 - now ∧ now2 - now < 2 ^ 63
        → (DataPartition.needWarnMissDataPartition now2 q addr interval).2 = true
        → now2 - now > interval := by
    intro q hq now2 hr h2
    rcases DataPartition.needWarnMissDataPartition_cases now2 q addr interval with
      ⟨hc, _⟩ | ⟨_, heq⟩
    · rcases hc with hn | ⟨t, ht, hgt⟩
      · rw [hq] at hn; exact absurd hn (by simp)
      · rw [hq] at ht
        have : now = t := by injection ht
        subst this
        rw [wrapInt64_of_range _ hr.1 hr.2] at hgt
        exact hgt
    · rw [heq] at h2; exact absurd h2 (by simp)
  have hiff : (mapGet p.MissNodes addr = none
        ∨ ∃ t, mapGet p.MissNodes addr = some t ∧ wrapInt64 (now - t) > interval)
      ↔ (mapGet p.MissNodes addr = none
        ∨ ∃ t, mapGet p.MissNodes addr = some t ∧ now - t > interval) := by
    constructor
    · rintro (h | ⟨t, ht, hgt⟩)
      · exact Or.inl h
      · rw [wrapInt64_of_range _ (hsub t ht).1 (hsub t ht).2] at hgt
        exact Or.inr ⟨t, ht, hgt⟩
    · rintro (h | ⟨t, ht, hgt⟩)
      · exact Or.inl h
      · refine Or.inr ⟨t, ht, ?_⟩
        rw [wrapInt64_of_range _ (hsub t ht).1 (hsub t ht).2]
        exact hgt
  rcases DataPartition.needWarnMissDataPartition_cases now p addr interval with
    ⟨hc, heq⟩ | ⟨hc, heq⟩
  · rw [heq]
    refine ⟨⟨fun _ => hiff.1 hc, fun _ => rfl⟩, fun _ => mapGet_mapSet_self _ _ _,
      fun h => absurd h (by simp), rfl, fun other ho => mapGet_mapSet_other _ _ _ _ ho, ?_⟩
    intro now2 hr _ h2
    exact hset _ (mapGet_mapSet_self p.MissNodes addr now) now2 hr h2
  · rw [heq]
    refine ⟨⟨fun h => absurd h (by simp), fun h => absurd (hiff.2 h) hc⟩,
      fun h => absurd h (by simp), fun _ => rfl, rfl, fun _ _ => rfl,
      fun _ _ h => absurd h (by simp)⟩

/-- Witness for C25: the entry `MissNodes["A"] = 100`, the interval 10 and `now = 200`:
the difference 100 is within the `int64` range, the warning is due and the entry
becomes 200. -/
theorem needWarnMissDataPartition_debounce_witness :
    (DataPartition.needWarnMissDataPartition 200
        { PartitionID := 1, ReplicaNum := 3, Status := PartitionStatus.ReadOnly,
          PersistenceHosts := ["A"], Replicas := [], MissNodes := [("A", 100)],
          isRecover := false } "A" 10).2 = true
    ∧ mapGet (DataPartition.needWarnMissDataPartition 200
        { PartitionID := 1, ReplicaNum := 3, Status := PartitionStatus.ReadOnly,
          PersistenceHosts := ["A"], Replicas := [], MissNodes := [("A", 100)],
          isRecover := false } "A" 10).1.MissNodes "A" = some 200 :=
  have h := needWarnMissDataPartition_debounce 200
    { PartitionID := 1, ReplicaNum := 3, Status := PartitionStatus.ReadOnly,
      PersistenceHosts := ["A"], Replicas := [], MissNodes := [("A", 100)],
      isRecover := false } "A" 10
    (by
      intro t ht
      have h0 : mapGet [("A", (100 : Int))] "A" = some 100 := by decide
      have ht2 : some (100 : Int) = some t := h0.symm.trans ht
      injection ht2 with ht3
      subst ht3
      decide)
  have h2 := h.1.2 (Or.inr ⟨100, by decide, by decide⟩)
  ⟨h2, h.2.1 h2⟩

/-- `needWarnMissReplica` returns false on every path. -/
theorem MetaPartition.needWarnMissReplica_false (now : Int) (mp : MetaPartition)
    (addr : String) (warnInterval : Int) :
    (mp.needWarnMissReplica now addr warnInterval).2 = false := by
  unfold MetaPartition.needWarnMissReplica
  cases mapGet mp.MissNodes addr with
  | none => rfl
  | some t =>
    by_cases h : wrapInt64 (now - t) > warnInterval
    · simp only [h, if_true]
    · simp only [h, if_false]

/-- C26 (failing input). `MetaPartition.needWarnMissReplica("A", 10)` at time 100 on a
partition whose `MissNodes` is empty: the current time is recorded in `MissNodes["A"]`,
but the returned value is false; `needWarnMissDataPartition` on a DataPartition with empty
`MissNodes` returns true. -/
theorem MetaPartition_needWarnMissReplica_fresh :
    MetaPartition.needWarnMissReplica 100
        { PartitionID := 1, Start := 0, End := 100, MaxNodeID := 5, Replicas := [],
          ReplicaNum := 3, Status := Unavaliable, volName := "v", PersistenceHosts := ["A"],
          Peers := [], MissNodes := [] } "A" 10
      = ({ PartitionID := 1, Start := 0, End := 100, MaxNodeID := 5, Replicas := [],
           ReplicaNum := 3, Status := Unavaliable, volName := "v", PersistenceHosts := ["A"],
           Peers := [], MissNodes := [("A", 100)] }, false)
    ∧ (DataPartition.needWarnMissDataPartition 100
        { PartitionID := 1, ReplicaNum := 3, Status := PartitionStatus.ReadOnly,
          PersistenceHosts := ["A"], Replicas := [], MissNodes := [], isRecover := false }
        "A" 10).2 = true := by
  decide

/-! ## Theorems: metaManager.loadPartitions -/

theorem metaManager.attachPartition_mem (start : MetaPartitionConfig → Option ManagerError)
    (m : metaManager) (id : Nat) (partition : MetaPartitionConfig)
    (e : Nat × MetaPartitionConfig)
    (he : e ∈ (metaManager.attachPartition start m id partition).1.partitions) :
    e ∈ m.partitions ∨ e = (id, partition) := by
  unfold metaManager.attachPartition at he
  cases hs : start partition with
  | some err =>
    simp only [hs] at he
    exact Or.inl he
  | none =>
    simp only [hs, List.mem_cons] at he
    rcases he with h | h
    · exact Or.inr h
    · exact Or.inl (List.mem_filter.mp h).1

/-- A directory entry whose name after the prefix does not parse attaches nothing. -/
theorem metaManager.loadPartition_mem (start : MetaPartitionConfig → Option ManagerError)
    (m : metaManager) (err : Option ManagerError) (fileName : String)
    (e : Nat × MetaPartitionConfig)
    (he : e ∈ (metaManager.loadPartition start m err fileName).1.partitions) :
    e ∈ m.partitions
      ∨ ParseUint (String.mk (fileName.data.drop partitionPrefix.data.length)) = .ok e.1 := by
  unfold metaManager.loadPartition at he
  by_cases hlen : fileName.utf8ByteSize < 10
  · simp only [hlen, if_true] at he
    exact Or.inl he
  · simp only [hlen, if_false] at he
    cases hp : ParseUint (String.mk (fileName.data.drop partitionPrefix.data.length)) with
    | error pe =>
      simp only [hp] at he
      exact Or.inl he
    | ok id =>
      simp only [hp] at he
      rcases metaManager.attachPartition_mem start m id _ e he with h | h
      · exact Or.inl h
      · right
        rw [h]

/-- Every partition attached by the scan comes from a directory entry that has the prefix
`partition_` and whose remainder parses as a decimal `uint64`: entries with other names
attach nothing. -/
theorem metaManager.loadPartitionsLoop_mem (start : MetaPartitionConfig → Option ManagerError)
    (l : List FileInfo) (m : metaManager) (err : Option ManagerError)
    (e : Nat × MetaPartitionConfig)
    (he : e ∈ (metaManager.loadPartitionsLoop start m err l).1.partitions) :
    e ∈ m.partitions
      ∨ ∃ fi ∈ l, fi.IsDir = true ∧ HasPrefix fi.Name partitionPrefix = true
          ∧ ParseUint (String.mk (fi.Name.data.drop partitionPrefix.data.length)) = .ok e.1 := by
  induction l generalizing m err with
  | nil => exact Or.inl he
  | cons fi rest ih =>
    unfold metaManager.loadPartitionsLoop at he
    by_cases hc : (fi.IsDir && HasPrefix fi.Name partitionPrefix) = true
    · simp only [hc, if_true] at he
      rcases ih _ _ he with h | ⟨fi', hmem, h⟩
      · rcases metaManager.loadPartition_mem start m err fi.Name e h with h' | h'
        · exact Or.inl h'
        · simp only [Bool.and_eq_true] at hc
          exact Or.inr ⟨fi, List.mem_cons_self _ _, hc.1, hc.2, h'⟩
      · exact Or.inr ⟨fi', List.mem_cons_of_mem _ hmem, h⟩
    · simp only [hc, if_false] at he
      rcases ih _ _ he with h | ⟨fi', hmem, h⟩
      · exact Or.inl h
      · exact Or.inr ⟨fi', List.mem_cons_of_mem _ hmem, h⟩

/-- C27 (failing input). `metaManager.Start` on a root directory whose only entry is the
directory `partition_abc`, and on one whose only entry is the directory `partition_`: no
partition is attached, but the error of `strconv.ParseUint` is returned by
`loadPartitions` and by `Start`, and the state goes back to `StateStandby` instead of
`StateRunning`. -/
theorem metaManager_Start_bad_name :
    metaManager.Start (.ok ⟨"metaDir", true⟩) (.ok [⟨"partition_abc", true⟩]) (fun _ => none)
        { nodeId := 1, rootDir := "metaDir", state := StateStandby, partitions := [] }
      = ({ nodeId := 1, rootDir := "metaDir", state := StateStandby, partitions := [] },
         some (ManagerError.ParseUintSyntax "abc"))
    ∧ metaManager.Start (.ok ⟨"metaDir", true⟩) (.ok [⟨"partition_", true⟩]) (fun _ => none)
        { nodeId := 1, rootDir := "metaDir", state := StateStandby, partitions := [] }
      = ({ nodeId := 1, rootDir := "metaDir", state := StateStandby, partitions := [] },
         some (ManagerError.ParseUintSyntax ""))
    ∧ StateStandby ≠ StateRunning := by
  decide

/-! ## Theorems: sdk Wrapper -/

theorem Sdk.Wrapper.foldl_replaceOrInsert_rwPartition (l : List Sdk.DataPartition)
    (w : Sdk.Wrapper) :
    (l.foldl Sdk.Wrapper.replaceOrInsertPartition w).rwPartition = w.rwPartition := by
  induction l generalizing w with
  | nil => rfl
  | cons dp rest ih =>
    simp only [List.foldl_cons]
    rw [ih]
    rfl

/-- C28. Wrapper refresh: for every Wrapper and every master view with fewer than
`MinWritableDataPartitionNum = 10` partitions of `Status` `ReadWrite`,
`updateDataPartition` returns an error and leaves the wrapper, with its writable pool and
its partition lookup map, exactly as it was; with 10 or more it returns nil and the
writable pool becomes the view's `ReadWrite` partitions in view order. -/
theorem updateDataPartition_refresh (w : Sdk.Wrapper) (view : Sdk.DataPartitionView) :
    MinWritableDataPartitionNum = 10
      ∧ ((view.DataPartitions.filter (fun dp => (dp.Status : Int) == ReadWrite)).length < 10
          → (Sdk.Wrapper.updateDataPartition (.ok view) w).1 = w
            ∧ (Sdk.Wrapper.updateDataPartition (.ok view) w).2 ≠ none
            ∧ (Sdk.Wrapper.updateDataPartition (.ok view) w).1.rwPartition = w.rwPartition
            ∧ (Sdk.Wrapper.updateDataPartition (.ok view) w).1.partitions = w.partitions)
      ∧ (10 ≤ (view.DataPartitions.filter (fun dp => (dp.Status : Int) == ReadWrite)).length
          → (Sdk.Wrapper.updateDataPartition (.ok view) w).2 = none
            ∧ (Sdk.Wrapper.updateDataPartition (.ok view) w).1.rwPartition
                = view.DataPartitions.filter (fun dp => (dp.Status : Int) == ReadWrite)) := by
  refine ⟨rfl, ?_, ?_⟩
  · intro h
    have h' : (view.DataPartitions.filter (fun dp => (dp.Status : Int) == ReadWrite)).length
        < MinWritableDataPartitionNum := h
    simp [Sdk.Wrapper.updateDataPartition, h']
  · intro h
    have h' : ¬ (view.DataPartitions.filter (fun dp => (dp.Status : Int) == ReadWrite)).length
        < MinWritableDataPartitionNum := by
      show ¬ _ < 10
      omega
    simp only [Sdk.Wrapper.updateDataPartition, h', if_false,
      Sdk.Wrapper.foldl_replaceOrInsert_rwPartition]
    exact ⟨trivial, trivial⟩

theorem isExcluded_iff (partitionId : Nat) (excludes : List Nat) :
    isExcluded partitionId excludes = true ↔ partitionId ∈ excludes := by
  induction excludes with
  | nil => simp [isExcluded]
  | cons id rest ih =>
    by_cases h : id = partitionId
    · simp [isExcluded, h]
    · have h' : ¬ partitionId = id := fun hc => h hc.symm
      simp [isExcluded, h, h', ih]

/-- C29. `GetWriteDataPartition` never returns an excluded partition: for every writable
pool, exclude list and random index `choose` within the pool, it returns a partition
(and a nil error) iff some partition of the pool has a `PartitionID` not in the exclude
list; a returned partition is a member of the pool and is not excluded; otherwise (empty
pool or all excluded) it returns an error and no partition. -/
theorem GetWriteDataPartition_not_excluded (w : Sdk.Wrapper) (exclude : List Nat)
    (choose : Nat) (hchoose : w.rwPartition ≠ [] → choose < w.rwPartition.length) :
    ∃ res, w.GetWriteDataPartition exclude choose = .ok res
      ∧ ((∃ p, res = (some p, none)) ↔ ∃ p ∈ w.rwPartition, p.PartitionID ∉ exclude)
      ∧ (∀ p, res.1 = some p → p ∈ w.rwPartition ∧ p.PartitionID ∉ exclude ∧ res.2 = none)
      ∧ ((∀ p ∈ w.rwPartition, p.PartitionID ∈ exclude)
          → res = (none, some WrapperError.NoWritableDataPartition)) := by
  unfold Sdk.Wrapper.GetWriteDataPartition
  by_cases hempty : w.rwPartition = []
  · refine ⟨(none, some WrapperError.NoWritableDataPartition), by simp [hempty], ?_, ?_, ?_⟩
    · simp [hempty]
    · intro p hp; simp at hp
    · intro _; rfl
  · have hlt := hchoose hempty
    have hlen : ¬ w.rwPartition.length = 0 := by
      intro h; exact hempty (List.length_eq_zero.mp h)
    have hget : w.rwPartition[choose]? = some (w.rwPartition[choose]) :=
      List.getElem?_eq_getElem hlt
    have hmemc : w.rwPartition[choose] ∈ w.rwPartition := List.getElem_mem hlt
    simp only [hlen, if_false, hget]
    by_cases hex : isExcluded (w.rwPartition[choose]).PartitionID exclude = true
    · simp only [hex, Bool.not_true, Bool.false_eq_true, if_false]
      cases hfind : w.rwPartition.find? (fun p => !isExcluded p.PartitionID exclude) with
      | none =>
        have hall : ∀ p ∈ w.rwPartition, p.PartitionID ∈ exclude := by
          intro p hp
          have := List.find?_eq_none.mp hfind p hp
          rw [← isExcluded_iff]
          simpa using this
        refine ⟨_, rfl, ?_, ?_, ?_⟩
        · constructor
          · rintro ⟨p, hp⟩; simp at hp
          · rintro ⟨p, hp, hne⟩; exact absurd (hall p hp) hne
        · intro p hp; simp at hp
        · intro _; rfl
      | some q =>
        have hq := List.find?_some hfind
        have hqmem := List.mem_of_find?_eq_some hfind
        have hqne : q.PartitionID ∉ exclude := by
          rw [← isExcluded_iff]
          simpa using hq
        refine ⟨_, rfl, ?_, ?_, ?_⟩
        · exact ⟨fun _ => ⟨q, hqmem, hqne⟩, fun _ => ⟨q, rfl⟩⟩
        · intro p hp
          simp only [Option.some.injEq] at hp
          subst hp
          exact ⟨hqmem, hqne, rfl⟩
        · intro hall; exact absurd (hall q hqmem) hqne
    · have hne : (w.rwPartition[choose]).PartitionID ∉ exclude := by
        rw [← isExcluded_iff]; exact hex
      have hex' : isExcluded (w.rwPartition[choose]).PartitionID exclude = false := by
        simpa using hex
      simp only [hex', Bool.not_false, if_true]
      refine ⟨_, rfl, ?_, ?_, ?_⟩
      · exact ⟨fun _ => ⟨_, hmemc, hne⟩, fun _ => ⟨_, rfl⟩⟩
      · intro p hp
        simp only [Option.some.injEq] at hp
        subst hp
        exact ⟨hmemc, hne, rfl⟩
      · intro hall; exact absurd (hall _ hmemc) hne

/-- Witness for C29: a pool of partitions 1 and 2 with partition 1 excluded and the random
index pointing at partition 1; the linear scan returns partition 2. -/
theorem GetWriteDataPartition_not_excluded_witness :
    ∃ res, Sdk.Wrapper.GetWriteDataPartition
        { volName := "v", masters := [], partitions := [],
          rwPartition := [⟨1, 2, 3, "extent", []⟩, ⟨2, 2, 3, "extent", []⟩] } [1] 0 = .ok res
      ∧ ((∃ p, res = (some p, none))
          ↔ ∃ p ∈ ([⟨1, 2, 3, "extent", []⟩, ⟨2, 2, 3, "extent", []⟩] : List Sdk.DataPartition),
              p.PartitionID ∉ [1]) :=
  have ⟨res, h1, h2, _⟩ := GetWriteDataPartition_not_excluded
    { volName := "v", masters := [], partitions := [],
      rwPartition := [⟨1, 2, 3, "extent", []⟩, ⟨2, 2, 3, "extent", []⟩] } [1] 0
    (fun _ => by decide)
  ⟨res, h1, h2⟩

/-! ## Theorems: uniqueness of extent keys -/

/-- `Put` either appends `k` or replaces the `Size` of one key by the larger of it and
`k.Size`. -/
theorem StreamKey.Put_cases (sk : StreamKey) (k : ExtentKey) :
    (sk.Put k).Extents = sk.Extents ++ [k]
      ∨ ∃ pre ek post, sk.Extents = pre ++ ek :: post
          ∧ (sk.Put k).Extents = pre ++ { ek with Size := max ek.Size k.Size } :: post := by
  by_cases hlast : ∀ l, sk.Extents.getLast? = some l → l.sameExtent k = false
  · rw [StreamKey.Put_of_not_last sk k hlast]
    by_cases hex : ∃ e ∈ sk.Extents, e.sameExtent k = true
    · right
      obtain ⟨pre, ek, post, hl, hpre, hek⟩ := exists_first_sameExtent k sk.Extents hex
      refine ⟨pre, ek, post, hl, ?_⟩
      have := StreamKey.putScan_split k ek pre post hpre hek
      rw [← hl] at this
      simp [this]
    · left
      have hnone : StreamKey.putScan k sk.Extents = none := by
        rw [StreamKey.putScan_eq_none]
        intro e he
        by_contra hc
        exact hex ⟨e, he, by simpa using hc⟩
      simp [hnone]
  · right
    simp only [not_forall, Bool.not_eq_false] at hlast
    obtain ⟨last, hl, hsame⟩ := hlast
    have hsplit : sk.Extents = sk.Extents.dropLast ++ [last] :=
      (List.dropLast_append_getLast? last (by simp [hl])).symm
    refine ⟨sk.Extents.dropLast, last, [], hsplit, ?_⟩
    rw [StreamKey.Put_of_last sk k last sk.Extents.dropLast hsplit hsame]

theorem forall₂_self {α : Type} (R : α → α → Prop) (hR : ∀ a, R a a) (l : List α) :
    List.Forall₂ R l l := by
  induction l with
  | nil => exact List.Forall₂.nil
  | cons a rest ih => exact List.Forall₂.cons (hR a) ih

theorem forall₂_update {α : Type} (R : α → α → Prop) (hR : ∀ a, R a a) (pre post : List α)
    (x y : α) (hxy : R x y) : List.Forall₂ R (pre ++ x :: post) (pre ++ y :: post) := by
  induction pre with
  | nil => exact List.Forall₂.cons hxy (forall₂_self R hR post)
  | cons a rest ih => exact List.Forall₂.cons (hR a) ih

/-- C30. Uniqueness invariant of `StreamKey.Put`: if no two keys of the list share the same
`(PartitionId, ExtentId)`, the same holds after `Put(k)`; the length grows by at most one
and does not shrink; the old keys stay at their positions, each unchanged except possibly
for a `Size` that is not smaller than before; hence every StreamKey built from
`NewStreamKey` by `Put` calls has pairwise distinct `(PartitionId, ExtentId)` pairs. -/
theorem Put_preserves_uniqueness (sk : StreamKey) (k : ExtentKey)
    (hnd : (sk.Extents.map (fun e => (e.PartitionId, e.ExtentId))).Nodup) :
    ((sk.Put k).Extents.map (fun e => (e.PartitionId, e.ExtentId))).Nodup
      ∧ sk.Extents.length ≤ (sk.Put k).Extents.length
      ∧ (sk.Put k).Extents.length ≤ sk.Extents.length + 1
      ∧ List.Forall₂
          (fun old new : ExtentKey => new = { old with Size := new.Size } ∧ old.Size ≤ new.Size)
          sk.Extents ((sk.Put k).Extents.take sk.Extents.length)
      ∧ ∀ (ino : Nat) (ks : List ExtentKey),
          ((ks.foldl StreamKey.Put (NewStreamKey ino)).Extents.map
            (fun e => (e.PartitionId, e.ExtentId))).Nodup := by
  refine ⟨StreamKey.Put_nodup_keys sk k hnd, ?_, ?_, ?_, ?_⟩
  · rcases StreamKey.Put_cases sk k with h | ⟨pre, ek, post, hl, h⟩
    · rw [h]; simp
    · rw [h, hl]; simp
  · rcases StreamKey.Put_cases sk k with h | ⟨pre, ek, post, hl, h⟩
    · rw [h]; simp
    · rw [h, hl]; simp
  · rcases StreamKey.Put_cases sk k with h | ⟨pre, ek, post, hl, h⟩
    · rw [h, List.take_left']
      · exact forall₂_self _ (fun a => ⟨rfl, le_refl _⟩) _
      · rfl
    · have hlen : sk.Extents.length
          = (pre ++ { ek with Size := max ek.Size k.Size } :: post).length := by
        rw [hl]; simp
      rw [h, hlen, List.take_length]
      rw [hl]
      exact forall₂_update _ (fun a => ⟨rfl, le_refl _⟩) pre post ek _
        ⟨rfl, Nat.le_max_left _ _⟩
  · intro ino ks
    exact StreamKey.foldl_Put_nodup_keys ks (NewStreamKey ino) (by simp [NewStreamKey])

/-- Witness for C30: a key for a new extent is appended to two distinct extents, and a key
for the first extent grows it in place. -/
theorem Put_preserves_uniqueness_witness :
    (((StreamKey.Put ⟨9, [⟨1, 7, 0, 100, 0⟩, ⟨1, 8, 0, 50, 0⟩]⟩ ⟨2, 7, 0, 10, 0⟩).Extents.map
        (fun e => (e.PartitionId, e.ExtentId))).Nodup
      ∧ (StreamKey.Put ⟨9, [⟨1, 7, 0, 100, 0⟩, ⟨1, 8, 0, 50, 0⟩]⟩ ⟨2, 7, 0, 10, 0⟩).Extents.length
          ≤ 2 + 1)
    ∧ ((StreamKey.Put ⟨9, [⟨1, 7, 0, 100, 0⟩, ⟨1, 8, 0, 50, 0⟩]⟩ ⟨1, 7, 0, 300, 0⟩).Extents.map
        (fun e => (e.PartitionId, e.ExtentId))).Nodup :=
  have h1 := Put_preserves_uniqueness ⟨9, [⟨1, 7, 0, 100, 0⟩, ⟨1, 8, 0, 50, 0⟩]⟩
    ⟨2, 7, 0, 10, 0⟩ (by decide)
  have h2 := Put_preserves_uniqueness ⟨9, [⟨1, 7, 0, 100, 0⟩, ⟨1, 8, 0, 50, 0⟩]⟩
    ⟨1, 7, 0, 300, 0⟩ (by decide)
  ⟨⟨h1.1, h1.2.2.1⟩, h2.1⟩

end Baudfs
